import Mathlib

/-!
# Directory operations of the journalled HFS+ driver (`fs/hfsplus_journal/dir.c`)

A shallow embedding of `hfsplus_lookup`, `hfsplus_readdir`, `hfsplus_link`,
`hfsplus_unlink`, `hfsplus_rmdir`, `hfsplus_symlink`, `hfsplus_mknod`, `hfsplus_create`,
`hfsplus_mkdir` and `hfsplus_rename`.

Conventions of the embedding.

* C `int` results are `Int`; `0` is success and errors are negative errno values.
* `u32` counters (`next_cnid`, `file_count`, `i_nlink`) are `Nat` with explicit
  wrap-around modulo `2^32`.
* A pointer to an in-core object (`struct inode *`, `struct dentry *`) is modelled by
  passing the object and returning its updated value.
* Every call that leaves `dir.c` (journal, lock, catalog B-tree, inode cache) appends an
  `Event` to the chronological `trace` of the `World`.  The outcome of a collaborator that
  the catalog contents do not determine (journal begin, injected storage failure, random
  bytes, clock, allocator) is read from an `Env`, as a function of the trace so far.
* The loops (`goto again` in lookup, `for (;;)` in readdir and in link) take a fuel
  argument; a NULL `hidden_dir` that the C code dereferences is the outcome
  `Halt.null_deref`.
-/

namespace HfsplusDir

/-! ## Constants -/

def EPERM : Int := 1
def ENOENT : Int := 2
def EIO : Int := 5
def ENOMEM : Int := 12
def EEXIST : Int := 17
def ENOSPC : Int := 28
def ENOTEMPTY : Int := 39

/-- Catalog record types of `hfsplus_raw.h`. -/
def HFSPLUS_FOLDER : Nat := 1
def HFSPLUS_FILE : Nat := 2
def HFSPLUS_FOLDER_THREAD : Nat := 3
def HFSPLUS_FILE_THREAD : Nat := 4

/-- The four characters hlnk, the type signature of a hard-link pointer record. -/
def HFSP_HARDLINK_TYPE : Nat := 0x686c6e6b
/-- The four characters hfs+, the creator signature of a hard-link pointer record. -/
def HFSP_HFSPLUS_CREATOR : Nat := 0x6866732b

/-- Value of `sizeof(struct hfsplus_cat_folder)`. -/
def SIZEOF_CAT_FOLDER : Nat := 88
/-- Value of `sizeof(struct hfsplus_cat_file)`. -/
def SIZEOF_CAT_FILE : Nat := 248

def S_IFMT : Nat := 0o170000
def S_IFREG : Nat := 0o100000
def S_IFDIR : Nat := 0o040000
def S_IFLNK : Nat := 0o120000
def S_IFBLK : Nat := 0o060000
def S_IFCHR : Nat := 0o020000
def S_IFIFO : Nat := 0o010000
def S_IFSOCK : Nat := 0o140000
def S_ISVTX : Nat := 0o1000
def S_IRWXUGO : Nat := 0o777
/-- Inode flag `S_DEAD` of `linux/fs.h`. -/
def S_DEAD : Nat := 16

def S_ISREG (m : Nat) : Bool := (m &&& S_IFMT) == S_IFREG
def S_ISDIR (m : Nat) : Bool := (m &&& S_IFMT) == S_IFDIR
def S_ISLNK (m : Nat) : Bool := (m &&& S_IFMT) == S_IFLNK
def S_ISBLK (m : Nat) : Bool := (m &&& S_IFMT) == S_IFBLK
def S_ISCHR (m : Nat) : Bool := (m &&& S_IFMT) == S_IFCHR
def S_ISFIFO (m : Nat) : Bool := (m &&& S_IFMT) == S_IFIFO
def S_ISSOCK (m : Nat) : Bool := (m &&& S_IFMT) == S_IFSOCK

def U32 : Nat := 2 ^ 32

/-- Post-increment value of a `u32`. -/
def u32_inc (x : Nat) : Nat := (x + 1) % U32
/-- Post-decrement value of a `u32`. -/
def u32_dec (x : Nat) : Nat := (x + U32 - 1) % U32

/-- Text printed by the conversion `%d` for a 32-bit argument. -/
def fmt_d (v : Nat) : String :=
  if v % U32 < 2 ^ 31 then Nat.repr (v % U32) else "-" ++ Nat.repr (U32 - v % U32)

/-- Text printed by the conversion `%lu`. -/
def fmt_lu (v : Nat) : String := Nat.repr v

/-! ## Data model -/

/-- Catalog key: parent CNID and node name. -/
structure hfsplus_cat_key where
  parent : Nat
  name : String
deriving DecidableEq, Repr

/-- The fields of `hfsplus_cat_entry` that `dir.c` reads.  `id` is `folder.id` and
`file.id` (the same offset of the union), `entrylength` is the length the B-tree reports
for the record (`fd.entrylength`). -/
structure hfsplus_cat_entry where
  type : Nat
  entrylength : Nat
  id : Nat
  fdType : Nat
  fdCreator : Nat
  create_date : Nat
  dev : Nat
  parentID : Nat
deriving DecidableEq, Repr

/-- In-core object (`struct inode` with its `hfsplus_inode_info`). -/
structure Inode where
  i_ino : Nat
  i_mode : Nat
  i_nlink : Nat
  i_size : Nat
  i_flags : Nat
  i_ctime : Nat
  i_count : Nat
  linkid : Nat
  opencnt : Nat
  create_date : Nat
  rsrc : Bool
deriving DecidableEq, Repr

/-- Name-cache entry: `d_fsdata` holds the CNID of the catalog entry the name resolved
to (0 is the NULL pointer), `d_inode` the inode number of the attached object. -/
structure Dentry where
  d_name : String
  d_fsdata : Nat
  d_inode : Option Nat
deriving DecidableEq, Repr

/-- Calls that leave `dir.c`, in the order they are made. -/
inductive Event where
  | journal_start (fn : String) (res : Int)
  | journal_stop (fn : String)
  | mutex_lock
  | mutex_unlock
  | find_init (res : Int)
  | find_exit
  | brec_read (key : hfsplus_cat_key) (res : Int)
  | rename_cat (cnid : Nat) (src dst : hfsplus_cat_key) (res : Int)
  | create_cat (cnid : Nat) (key : hfsplus_cat_key) (res : Int)
  | delete_cat (cnid : Nat) (dir : Nat) (name : Option String) (res : Int)
  | new_inode (mode : Nat) (ino : Option Nat)
  | init_special_inode (ino : Nat)
  | page_symlink (ino : Nat) (res : Int)
  | delete_inode (ino : Nat)
  | mark_inode_dirty (ino : Nat) (res : Int)
  | iget (cnid : Nat) (res : Int)
  | iput (ino : Nat)
  | ihold (ino : Nat)
  | d_add (name : String) (ino : Option Nat)
  | brec_find (key : hfsplus_cat_key) (res : Int)
  | brec_goto (cnt : Int) (res : Int)
  | filldir (name : String) (offset ino d_type : Nat) (res : Int)
  | kmalloc (ok : Bool)
deriving DecidableEq, Repr

/-- Outcomes of the collaborators that the catalog contents do not determine, each a
function of the calls made so far; the text codec `uni2asc` is a function of the name it
decodes. -/
structure Env where
  journal_start : List Event → Int
  find_init : List Event → Int
  cat_fault : List Event → Int
  mark_inode_dirty : List Event → Int
  page_symlink : List Event → Int
  get_random_bytes : List Event → Nat
  current_time_sec : List Event → Nat
  new_inode : List Event → Nat → Option Inode
  iget : List Event → Nat → Except Int Inode
  filldir : List Event → Int
  kmalloc : List Event → Bool
  uni2asc : String → Except Int String

/-- Volume state: the catalog store, the counters of `hfsplus_sb_info`, the hidden
directory and the creation date of the root folder, and the trace of calls. -/
structure World where
  cat : List (hfsplus_cat_key × hfsplus_cat_entry)
  next_cnid : Nat
  file_count : Nat
  s_dirt : Nat
  hidden_dir : Option Inode
  root_create_date : Nat
  trace : List Event

/-- Ways an operation fails to return. -/
inductive Halt where
  | out_of_fuel
  | null_deref
deriving DecidableEq, Repr

def World.log (w : World) (e : Event) : World :=
  { w with trace := w.trace ++ [e] }

/-! ## Collaborators -/

/-- Modelled from the spec: `hfsplus_journal_start` of the journalling layer, the
`begin(tag) -> handle` of the Transaction Scope.  The handle is identified by the
tag of the function that began it. -/
def hfsplus_journal_start (env : Env) (w : World) (fn : String) : Int × World :=
  (env.journal_start w.trace, w.log (.journal_start fn (env.journal_start w.trace)))

/-- Modelled from the spec: `hfsplus_journal_stop`, the `commit(handle)` of the
Transaction Scope. -/
def hfsplus_journal_stop (w : World) (fn : String) : World :=
  w.log (.journal_stop fn)

/-- Modelled from the spec: acquisition of the volume structural lock
(`mutex_lock(&sbi->vh_mutex)`). -/
def mutex_lock (w : World) : World := w.log .mutex_lock

/-- Modelled from the spec: release of the volume structural lock. -/
def mutex_unlock (w : World) : World := w.log .mutex_unlock

/-- Modelled from the spec: `hfs_find_init` of the B-tree layer (allocates the search
state; it can fail). -/
def hfs_find_init (env : Env) (w : World) : Int × World :=
  (env.find_init w.trace, w.log (.find_init (env.find_init w.trace)))

/-- Modelled from the spec: `hfs_find_exit` of the B-tree layer, the release of the
search state. -/
def hfs_find_exit (w : World) : World := w.log .find_exit

/-- Modelled from the spec: `hfsplus_cat_build_key`, the catalog key `(parent, name)`. -/
def hfsplus_cat_build_key (parent : Nat) (name : String) : hfsplus_cat_key :=
  ⟨parent, name⟩

/-- Modelled from the spec: point lookup `find(key) -> record` of the Catalog Store. -/
def cat_find (cat : List (hfsplus_cat_key × hfsplus_cat_entry)) (k : hfsplus_cat_key) :
    Option hfsplus_cat_entry :=
  (cat.find? (fun p => p.1 = k)).map (fun p => p.2)

/-- Modelled from the spec: `delete(key)` of the Catalog Store. -/
def cat_delete (cat : List (hfsplus_cat_key × hfsplus_cat_entry)) (k : hfsplus_cat_key) :
    List (hfsplus_cat_key × hfsplus_cat_entry) :=
  cat.filter (fun p => p.1 ≠ k)

/-- Modelled from the spec: `insert(key, record)` of the Catalog Store, for a key that is
not present. -/
def cat_insert (cat : List (hfsplus_cat_key × hfsplus_cat_entry)) (k : hfsplus_cat_key)
    (e : hfsplus_cat_entry) : List (hfsplus_cat_key × hfsplus_cat_entry) :=
  cat ++ [(k, e)]

/-- Modelled from the spec: `hfs_brec_read` of the B-tree layer: a storage failure, or
`-ENOENT` when the key has no record, or the record. -/
def hfs_brec_read (env : Env) (w : World) (key : hfsplus_cat_key) :
    Except Int hfsplus_cat_entry × World :=
  if env.cat_fault w.trace ≠ 0 then
    (.error (env.cat_fault w.trace), w.log (.brec_read key (env.cat_fault w.trace)))
  else match cat_find w.cat key with
    | none => (.error (-ENOENT), w.log (.brec_read key (-ENOENT)))
    | some e => (.ok e, w.log (.brec_read key 0))

/-- Modelled from the spec: `hfsplus_iget`, the `acquire(OID) -> in-core object` of the
object allocator. -/
def hfsplus_iget (env : Env) (w : World) (cnid : Nat) : Except Int Inode × World :=
  match env.iget w.trace cnid with
  | .ok i => (.ok i, w.log (.iget cnid 0))
  | .error e => (.error e, w.log (.iget cnid e))

/-- Modelled from the spec: `d_add` of the name cache, which attaches the resolved object
(or none) to the name. -/
def d_add (w : World) (dentry : Dentry) (inode : Option Inode) : World × Dentry :=
  (w.log (.d_add dentry.d_name (inode.map (fun i => i.i_ino))),
   { dentry with d_inode := inode.map (fun i => i.i_ino) })

/-! ## `hfsplus_lookup` -/

/-- Value returned by `hfsplus_lookup`: `NULL` or `ERR_PTR(err)`. -/
inductive LookupRet where
  | null
  | err_ptr (err : Int)
deriving DecidableEq, Repr

structure LookupOut where
  ret : LookupRet
  w : World
  dir : Inode
  dentry : Dentry
  inode : Option Inode

/-- The label `fail:` of `hfsplus_lookup`. -/
def lookup_fail (w : World) (dir : Inode) (dentry : Dentry) (err : Int) : LookupOut :=
  let w := hfs_find_exit w
  let w := hfsplus_journal_stop w "hfsplus_lookup"
  ⟨.err_ptr err, w, dir, dentry, none⟩

/-- The label `out:` of `hfsplus_lookup`. -/
def lookup_out (w : World) (dir : Inode) (dentry : Dentry) (inode : Option Inode) :
    LookupOut :=
  let r := d_add w dentry inode
  let w := hfsplus_journal_stop r.1 "hfsplus_lookup"
  ⟨.null, w, dir, r.2, inode⟩

/-- Lines 117-126 of `hfsplus_lookup`: the record was accepted with object id `cnid`. -/
def lookup_found (env : Env) (w : World) (dir : Inode) (dentry : Dentry)
    (cnid linkid : Nat) : LookupOut :=
  let w := hfs_find_exit w
  match hfsplus_iget env w cnid with
  | (.error e, w) => ⟨.err_ptr e, w, dir, dentry, none⟩
  | (.ok inode, w) =>
    let inode := if S_ISREG inode.i_mode then { inode with linkid := linkid } else inode
    lookup_out w dir dentry (some inode)

/-- The loop of `hfsplus_lookup` from the label `again:`; `key` is `fd.search_key` and
`linkid` the local variable of that name. -/
def lookup_again (env : Env) : Nat → World → Inode → Dentry → hfsplus_cat_key → Nat →
    Except Halt LookupOut
  | 0, _, _, _, _, _ => .error .out_of_fuel
  | fuel + 1, w, dir, dentry, key, linkid =>
    match hfs_brec_read env w key with
    | (.error err, w) =>
      if err = -ENOENT then
        let w := hfs_find_exit w
        .ok (lookup_out w dir dentry none)
      else .ok (lookup_fail w dir dentry err)
    | (.ok entry, w) =>
      if entry.type = HFSPLUS_FOLDER then
        if entry.entrylength < SIZEOF_CAT_FOLDER then
          .ok (lookup_fail w dir dentry (- EIO))
        else
          let cnid := entry.id
          let dentry := { dentry with d_fsdata := cnid }
          .ok (lookup_found env w dir dentry cnid linkid)
      else if entry.type = HFSPLUS_FILE then
        if entry.entrylength < SIZEOF_CAT_FILE then
          .ok (lookup_fail w dir dentry (- EIO))
        else
          let cnid := entry.id
          if entry.fdType = HFSP_HARDLINK_TYPE ∧ entry.fdCreator = HFSP_HFSPLUS_CREATOR then
            -- the creation date of the hidden directory is read before the pointer
            -- `hidden_dir` is tested
            match w.hidden_dir with
            | none => .error .null_deref
            | some hidden =>
              if entry.create_date = hidden.create_date ∨
                  entry.create_date = w.root_create_date then
                if dentry.d_fsdata ≠ 0 then
                  .ok (lookup_found env w dir dentry dentry.d_fsdata 0)
                else
                  let dentry := { dentry with d_fsdata := cnid }
                  let linkid := entry.dev
                  let key := hfsplus_cat_build_key hidden.i_ino ("iNode" ++ fmt_d linkid)
                  lookup_again env fuel w dir dentry key linkid
              else if dentry.d_fsdata = 0 then
                .ok (lookup_found env w dir { dentry with d_fsdata := cnid } cnid linkid)
              else .ok (lookup_found env w dir dentry cnid linkid)
          else if dentry.d_fsdata = 0 then
            .ok (lookup_found env w dir { dentry with d_fsdata := cnid } cnid linkid)
          else .ok (lookup_found env w dir dentry cnid linkid)
      else .ok (lookup_fail w dir dentry (- EIO))

/-- Find the entry inside `dir` named `dentry.d_name` (lines 28-131). -/
def hfsplus_lookup (env : Env) (fuel : Nat) (w : World) (dir : Inode) (dentry : Dentry) :
    Except Halt LookupOut :=
  let r := hfsplus_journal_start env w "hfsplus_lookup"
  if r.1 ≠ 0 then .ok ⟨.null, r.2, dir, dentry, none⟩
  else
    let dentry := { dentry with d_fsdata := 0 }
    let f := hfs_find_init env r.2
    if f.1 ≠ 0 then .ok ⟨.err_ptr f.1, f.2, dir, dentry, none⟩
    else
      let key := hfsplus_cat_build_key dir.i_ino dentry.d_name
      let dir := if dir.i_ino = 19 then { dir with i_mode := dir.i_mode ||| S_ISVTX } else dir
      lookup_again env fuel f.2 dir dentry key 0

/-! ## Catalog mutators and object helpers -/

/-- Modelled from the spec: `hfsplus_cat_build_record` of the catalog codec, the
minimal record for the kind of `inode`: a folder record, a direct file record when the
entry carries the object's own identifier, and otherwise a pointer record bearing the
hard-link signature, the sentinel creation date and the object's `linkid`. -/
def hfsplus_cat_build_record (w : World) (cnid : Nat) (inode : Inode) : hfsplus_cat_entry :=
  if S_ISDIR inode.i_mode then
    ⟨HFSPLUS_FOLDER, SIZEOF_CAT_FOLDER, cnid, 0, 0, inode.create_date, 0, 0⟩
  else if cnid = inode.i_ino then
    ⟨HFSPLUS_FILE, SIZEOF_CAT_FILE, cnid, 0, 0, inode.create_date, 0, 0⟩
  else
    ⟨HFSPLUS_FILE, SIZEOF_CAT_FILE, cnid, HFSP_HARDLINK_TYPE, HFSP_HFSPLUS_CREATOR,
      (match w.hidden_dir with
        | some h => h.create_date
        | none => w.root_create_date),
      inode.linkid, 0⟩

/-- Result of a catalog insert under `key`: an injected storage failure, `-EEXIST` on a
key collision, else success. -/
def create_cat_res (env : Env) (w : World) (key : hfsplus_cat_key) : Int :=
  if env.cat_fault w.trace ≠ 0 then env.cat_fault w.trace
  else if (cat_find w.cat key).isSome then -EEXIST
  else 0

/-- Modelled from the spec: `hfsplus_create_cat`, the catalog `insert(key, record)` of
the entry `(dir, name)` for the object `inode` under the identifier `cnid`.  A failed
call leaves the catalog unchanged. -/
def hfsplus_create_cat (env : Env) (w : World) (cnid : Nat) (dir : Inode) (name : String)
    (inode : Inode) : Int × World :=
  let key := hfsplus_cat_build_key dir.i_ino name
  let res := create_cat_res env w key
  (res, { w with
    cat := if res = 0 then cat_insert w.cat key (hfsplus_cat_build_record w cnid inode)
      else w.cat
    trace := w.trace ++ [.create_cat cnid key res] })

/-- Result of a catalog key rewrite: an injected storage failure, `-ENOENT` when the
source key has no record, `-EEXIST` when the destination key is taken, else success. -/
def rename_cat_res (env : Env) (w : World) (src dst : hfsplus_cat_key) : Int :=
  if env.cat_fault w.trace ≠ 0 then env.cat_fault w.trace
  else match cat_find w.cat src with
    | none => -ENOENT
    | some _ => if (cat_find w.cat dst).isSome then -EEXIST else 0

/-- Modelled from the spec: the catalog after the key rewrite `src -> dst`: delete the
old key, insert the identical record under the new key. -/
def cat_moved (cat : List (hfsplus_cat_key × hfsplus_cat_entry)) (src dst : hfsplus_cat_key) :
    List (hfsplus_cat_key × hfsplus_cat_entry) :=
  match cat_find cat src with
  | some e => cat_insert (cat_delete cat src) dst e
  | none => cat

/-- Modelled from the spec: `hfsplus_rename_cat`, the single catalog key rewrite.  A
failed call leaves the catalog unchanged. -/
def hfsplus_rename_cat (env : Env) (w : World) (cnid : Nat) (src_dir : Inode)
    (src_name : String) (dst_dir : Inode) (dst_name : String) : Int × World :=
  let src := hfsplus_cat_build_key src_dir.i_ino src_name
  let dst := hfsplus_cat_build_key dst_dir.i_ino dst_name
  let res := rename_cat_res env w src dst
  (res, { w with
    cat := if res = 0 then cat_moved w.cat src dst else w.cat
    trace := w.trace ++ [.rename_cat cnid src dst res] })

/-- Modelled from the spec: the key of the record of the folder `dir` that holds the
object `cnid`, the record a catalog delete by the object's own OID (NULL name) names. -/
def cat_find_obj (cat : List (hfsplus_cat_key × hfsplus_cat_entry)) (dir cnid : Nat) :
    Option hfsplus_cat_key :=
  (cat.find? (fun p => p.1.parent = dir ∧ p.2.id = cnid)).map (fun p => p.1)

/-- Key of the record that `hfsplus_delete_cat` removes: the named entry of `dir`, or
with a NULL name the entry of `dir` that holds the object `cnid`. -/
def delete_cat_key (w : World) (cnid : Nat) (dir : Inode) (name : Option String) :
    Option hfsplus_cat_key :=
  match name with
  | some n =>
    if (cat_find w.cat (hfsplus_cat_build_key dir.i_ino n)).isSome then
      some (hfsplus_cat_build_key dir.i_ino n)
    else none
  | none => cat_find_obj w.cat dir.i_ino cnid

/-- Result of a catalog delete: an injected storage failure, `-ENOENT` when there is no
such record, else success. -/
def delete_cat_res (env : Env) (w : World) (cnid : Nat) (dir : Inode)
    (name : Option String) : Int :=
  if env.cat_fault w.trace ≠ 0 then env.cat_fault w.trace
  else match delete_cat_key w cnid dir name with
    | none => -ENOENT
    | some _ => 0

/-- Modelled from the spec: `hfsplus_delete_cat`, the catalog `delete(key)` of an entry of
`dir`.  A failed call leaves the catalog unchanged. -/
def hfsplus_delete_cat (env : Env) (w : World) (cnid : Nat) (dir : Inode)
    (name : Option String) : Int × World :=
  let res := delete_cat_res env w cnid dir name
  (res, { w with
    cat := match delete_cat_key w cnid dir name with
      | some k => if res = 0 then cat_delete w.cat k else w.cat
      | none => w.cat
    trace := w.trace ++ [.delete_cat cnid dir.i_ino name res] })

/-- Modelled from the spec: `hfsplus_new_inode`, the `new_object(kind, mode)` of the
object allocator: on success the object takes a fresh OID from the volume counter. -/
def hfsplus_new_inode (env : Env) (w : World) (mode : Nat) : Option Inode × World :=
  match env.new_inode w.trace mode with
  | none => (none, w.log (.new_inode mode none))
  | some i =>
    (some { i with i_ino := w.next_cnid, i_mode := mode },
     { w with next_cnid := u32_inc w.next_cnid,
              trace := w.trace ++ [.new_inode mode (some w.next_cnid)] })

/-- Modelled from the spec: `hfsplus_delete_inode`, the deletion of the in-core object
record. -/
def hfsplus_delete_inode (w : World) (inode : Inode) : World :=
  w.log (.delete_inode inode.i_ino)

/-- Modelled from the spec: `hfsplus_journalled_mark_inode_dirty`, the journalled
dirty-mark that persists the in-core metadata. -/
def hfsplus_journalled_mark_inode_dirty (env : Env) (w : World) (inode : Inode) :
    Int × World :=
  (env.mark_inode_dirty w.trace,
   w.log (.mark_inode_dirty inode.i_ino (env.mark_inode_dirty w.trace)))

/-- Modelled from the spec: `inc_nlink`, the increment of the link count. -/
def inc_nlink (inode : Inode) : Inode := { inode with i_nlink := u32_inc inode.i_nlink }

/-- Modelled from the spec: `drop_nlink`, the decrement of the link count. -/
def drop_nlink (inode : Inode) : Inode := { inode with i_nlink := u32_dec inode.i_nlink }

/-- Modelled from the spec: `clear_nlink`, the link count forced to zero. -/
def clear_nlink (inode : Inode) : Inode := { inode with i_nlink := 0 }

/-- Modelled from the spec: `ihold`, one more reference to the in-core object. -/
def ihold (inode : Inode) : Inode := { inode with i_count := inode.i_count + 1 }

/-- Modelled from the spec: `iput`, the `release(object)` of the object allocator. -/
def iput (w : World) (inode : Inode) : World := w.log (.iput inode.i_ino)

/-- Lines 20-25: record the entry's identity on the name and attach the object. -/
def hfsplus_instantiate (dentry : Dentry) (inode : Inode) (cnid : Nat) : Dentry :=
  { dentry with d_fsdata := cnid % U32, d_inode := some inode.i_ino }

/-! ## `hfsplus_link` -/

structure LinkOut where
  res : Int
  w : World
  inode : Inode
  src_dentry : Dentry
  dst_dentry : Dentry

/-- The label `out:` of `hfsplus_link`. -/
def link_out (res : Int) (w : World) (inode : Inode) (src_dentry dst_dentry : Dentry) :
    LinkOut :=
  let w := hfsplus_journal_stop w "hfsplus_link"
  let w := mutex_unlock w
  ⟨res, w, inode, src_dentry, dst_dentry⟩

/-- The `for (;;)` loop of lines 303-317: draw a 30-bit link id and rename the entry to
`iNode<id>` in the hidden directory until the result is not `-EEXIST`.  Returns the
result of the last rename, the last id and the world. -/
def link_promote (env : Env) : Nat → World → Inode → Inode → String → Inode →
    Except Halt (Int × Nat × World)
  | 0, _, _, _, _, _ => .error .out_of_fuel
  | fuel + 1, w, inode, src_dir, src_name, hidden =>
    let id := (env.get_random_bytes w.trace % U32) &&& 0x3fffffff
    let r := hfsplus_rename_cat env w inode.i_ino src_dir src_name hidden
      ("iNode" ++ fmt_d id)
    if r.1 = 0 then .ok (0, id, r.2)
    else if r.1 ≠ -EEXIST then .ok (r.1, id, r.2)
    else link_promote env fuel r.2 inode src_dir src_name hidden

/-- Lines 329-346 of `hfsplus_link`. -/
def link_tail (env : Env) (w : World) (inode : Inode) (src_dentry : Dentry)
    (dst_dir : Inode) (dst_dentry : Dentry) : LinkOut :=
  let cnid := w.next_cnid
  let w := { w with next_cnid := u32_inc w.next_cnid }
  let c := hfsplus_create_cat env w cnid dst_dir dst_dentry.d_name inode
  if c.1 ≠ 0 then link_out c.1 c.2 inode src_dentry dst_dentry
  else
    let inode := inc_nlink inode
    let dst_dentry := hfsplus_instantiate dst_dentry inode cnid
    let inode := ihold inode
    let inode := { inode with i_ctime := env.current_time_sec c.2.trace }
    let m := hfsplus_journalled_mark_inode_dirty env c.2 inode
    let w := { m.2 with file_count := u32_inc m.2.file_count, s_dirt := 1 }
    link_out m.1 w inode src_dentry dst_dentry

/-- Lines 303-328 of `hfsplus_link`, the promotion of an object that is not yet
indirected, followed by lines 329-346. -/
def link_promoted (env : Env) (fuel : Nat) (w : World) (src_dentry : Dentry) (inode : Inode)
    (src_dir dst_dir : Inode) (dst_dentry : Dentry) (hidden : Inode) : Except Halt LinkOut :=
  match link_promote env fuel w inode src_dir src_dentry.d_name hidden with
  | .error h => .error h
  | .ok (res, id, w) =>
    if res ≠ 0 then .ok (link_out res w inode src_dentry dst_dentry)
    else
      let inode := { inode with linkid := id }
      let cnid := w.next_cnid
      let w := { w with next_cnid := u32_inc w.next_cnid }
      let src_dentry := { src_dentry with d_fsdata := cnid }
      let c := hfsplus_create_cat env w cnid src_dir src_dentry.d_name inode
      if c.1 ≠ 0 then .ok (link_out c.1 c.2 inode src_dentry dst_dentry)
      else
        let w := { c.2 with file_count := u32_inc c.2.file_count }
        .ok (link_tail env w inode src_dentry dst_dir dst_dentry)

/-- Lines 302-346 of `hfsplus_link`, with the lock held. -/
def link_locked (env : Env) (fuel : Nat) (w : World) (src_dentry : Dentry) (inode : Inode)
    (src_dir dst_dir : Inode) (dst_dentry : Dentry) : Except Halt LinkOut :=
  if inode.i_ino = src_dentry.d_fsdata % U32 then
    match w.hidden_dir with
    | none => .error .null_deref
    | some hidden => link_promoted env fuel w src_dentry inode src_dir dst_dir dst_dentry hidden
  else .ok (link_tail env w inode src_dentry dst_dir dst_dentry)

/-- Create the entry `dst_dentry` of `dst_dir` for the object `inode` of `src_dentry`, an
entry of `src_dir` (lines 281-347). -/
def hfsplus_link (env : Env) (fuel : Nat) (w : World) (src_dentry : Dentry) (inode : Inode)
    (src_dir dst_dir : Inode) (dst_dentry : Dentry) : Except Halt LinkOut :=
  if inode.rsrc then .ok ⟨-EPERM, w, inode, src_dentry, dst_dentry⟩
  else if ¬ S_ISREG inode.i_mode then .ok ⟨-EPERM, w, inode, src_dentry, dst_dentry⟩
  else
    let r := hfsplus_journal_start env w "hfsplus_link"
    if r.1 ≠ 0 then .ok ⟨r.1, r.2, inode, src_dentry, dst_dentry⟩
    else link_locked env fuel (mutex_lock r.2) src_dentry inode src_dir dst_dir dst_dentry

/-! ## `hfsplus_unlink` -/

structure UnlinkOut where
  res : Int
  w : World
  inode : Inode

/-- The label `out:` of `hfsplus_unlink`. -/
def unlink_out (res : Int) (w : World) (inode : Inode) : UnlinkOut :=
  let w := hfsplus_journal_stop w "hfsplus_unlink"
  let w := mutex_unlock w
  ⟨res, w, inode⟩

/-- Lines 406-411 of `hfsplus_unlink`. -/
def unlink_tail (env : Env) (w : World) (inode : Inode) : UnlinkOut :=
  let inode := { inode with i_ctime := env.current_time_sec w.trace }
  let m := hfsplus_journalled_mark_inode_dirty env w inode
  unlink_out m.1 m.2 inode

/-- Lines 369-379 of `hfsplus_unlink`: the canonical entry of an open object is renamed
into the hidden directory as `temp<ino>`. -/
def unlink_deferred (env : Env) (w : World) (dir : Inode) (dentry : Dentry) (inode : Inode) :
    Except Halt UnlinkOut :=
  match w.hidden_dir with
  | none => .error .null_deref
  | some hidden =>
    let r := hfsplus_rename_cat env w inode.i_ino dir dentry.d_name hidden
      ("temp" ++ fmt_lu inode.i_ino)
    let inode :=
      if r.1 = 0 then drop_nlink { inode with i_flags := inode.i_flags ||| S_DEAD }
      else inode
    .ok (unlink_out r.1 r.2 inode)

/-- Lines 393-401 of `hfsplus_unlink`: the last pointer entry of the object is gone. -/
def unlink_last_link (env : Env) (w : World) (inode : Inode) : Except Halt UnlinkOut :=
  let w := { w with file_count := u32_dec w.file_count }
  if inode.opencnt = 0 then
    match w.hidden_dir with
    | none => .error .null_deref
    | some hidden =>
      let d2 := hfsplus_delete_cat env w inode.i_ino hidden none
      let w := if d2.1 = 0 then hfsplus_delete_inode d2.2 inode else d2.2
      .ok (unlink_tail env w inode)
  else .ok (unlink_tail env w { inode with i_flags := inode.i_flags ||| S_DEAD })

/-- Lines 387-390 of `hfsplus_unlink`: the link count after the entry with identity
`cnid` was deleted. -/
def unlink_nlink (inode : Inode) (cnid : Nat) : Inode :=
  let inode := if inode.i_nlink > 0 then drop_nlink inode else inode
  if inode.i_ino = cnid then clear_nlink inode else inode

/-- Lines 387-411 of `hfsplus_unlink`: the entry with identity `cnid` was deleted. -/
def unlink_deleted (env : Env) (w : World) (inode : Inode) (cnid : Nat) :
    Except Halt UnlinkOut :=
  let inode := unlink_nlink inode cnid
  if inode.i_nlink = 0 then
    if inode.i_ino ≠ cnid then unlink_last_link env w inode
    else .ok (unlink_tail env (hfsplus_delete_inode w inode) inode)
  else .ok (unlink_tail env { w with file_count := u32_dec w.file_count } inode)

/-- Lines 366-411 of `hfsplus_unlink`, with the lock held. -/
def unlink_locked (env : Env) (w : World) (dir : Inode) (dentry : Dentry) (inode : Inode) :
    Except Halt UnlinkOut :=
  let cnid := dentry.d_fsdata % U32
  if inode.i_ino = cnid ∧ inode.opencnt ≠ 0 then unlink_deferred env w dir dentry inode
  else
    let d := hfsplus_delete_cat env w cnid dir (some dentry.d_name)
    if d.1 ≠ 0 then .ok (unlink_out d.1 d.2 inode)
    else unlink_deleted env d.2 inode cnid

/-- Remove the entry `dentry` of `dir`, an entry of the object `inode` (lines 349-412). -/
def hfsplus_unlink (env : Env) (w : World) (dir : Inode) (dentry : Dentry) (inode : Inode) :
    Except Halt UnlinkOut :=
  if inode.rsrc then .ok ⟨-EPERM, w, inode⟩
  else
    let r := hfsplus_journal_start env w "hfsplus_unlink"
    if r.1 ≠ 0 then .ok ⟨r.1, r.2, inode⟩
    else unlink_locked env (mutex_lock r.2) dir dentry inode

/-! ## `hfsplus_rmdir` -/

/-- Remove the folder `inode`, the entry `dentry` of `dir` (lines 414-440). -/
def hfsplus_rmdir (env : Env) (w : World) (dir : Inode) (dentry : Dentry) (inode : Inode) :
    UnlinkOut :=
  let r := hfsplus_journal_start env w "hfsplus_rmdir"
  if r.1 ≠ 0 then ⟨r.1, r.2, inode⟩
  else if inode.i_size ≠ 2 then
    ⟨-ENOTEMPTY, hfsplus_journal_stop r.2 "hfsplus_rmdir", inode⟩
  else
    let w := mutex_lock r.2
    let d := hfsplus_delete_cat env w inode.i_ino dir (some dentry.d_name)
    if d.1 ≠ 0 then
      ⟨d.1, mutex_unlock (hfsplus_journal_stop d.2 "hfsplus_rmdir"), inode⟩
    else
      let inode := clear_nlink inode
      let inode := { inode with i_ctime := env.current_time_sec d.2.trace }
      let w := hfsplus_delete_inode d.2 inode
      let m := hfsplus_journalled_mark_inode_dirty env w inode
      ⟨m.1, mutex_unlock (hfsplus_journal_stop m.2 "hfsplus_rmdir"), inode⟩

/-! ## `hfsplus_symlink`, `hfsplus_mknod`, `hfsplus_create`, `hfsplus_mkdir` -/

structure CreateOut where
  res : Int
  w : World
  dentry : Dentry
  inode : Option Inode

/-- Modelled from the spec: `page_symlink`, the storage of the symlink target. -/
def page_symlink (env : Env) (w : World) (inode : Inode) : Int × World :=
  (env.page_symlink w.trace, w.log (.page_symlink inode.i_ino (env.page_symlink w.trace)))

/-- The label `out_err:` of `hfsplus_symlink`, up to the label `out:`. -/
def symlink_out_err (res : Int) (w : World) (dentry : Dentry) (inode : Inode) : CreateOut :=
  let inode := clear_nlink inode
  let w := hfsplus_delete_inode w inode
  let w := iput w inode
  let w := hfsplus_journal_stop w "hfsplus_symlink"
  ⟨res, mutex_unlock w, dentry, none⟩

/-- Lines 454-480 of `hfsplus_symlink`, with the lock held; `res` is the local variable
of that name. -/
def symlink_locked (env : Env) (w : World) (dir : Inode) (dentry : Dentry) (res : Int) :
    CreateOut :=
  match hfsplus_new_inode env w (S_IFLNK ||| S_IRWXUGO) with
  | (none, w) =>
    let w := hfsplus_journal_stop w "hfsplus_symlink"
    ⟨res, mutex_unlock w, dentry, none⟩
  | (some inode, w) =>
    let p := page_symlink env w inode
    if p.1 ≠ 0 then symlink_out_err p.1 p.2 dentry inode
    else
      let c := hfsplus_create_cat env p.2 inode.i_ino dir dentry.d_name inode
      if c.1 ≠ 0 then symlink_out_err c.1 c.2 dentry inode
      else
        let dentry := hfsplus_instantiate dentry inode inode.i_ino
        let m := hfsplus_journalled_mark_inode_dirty env c.2 inode
        let w := hfsplus_journal_stop m.2 "hfsplus_symlink"
        ⟨m.1, mutex_unlock w, dentry, some inode⟩

/-- Create the symbolic link `dentry` of `dir` (lines 442-481). -/
def hfsplus_symlink (env : Env) (w : World) (dir : Inode) (dentry : Dentry) : CreateOut :=
  let r := hfsplus_journal_start env w "hfsplus_symlink"
  if r.1 ≠ 0 then ⟨r.1, r.2, dentry, none⟩
  else symlink_locked env (mutex_lock r.2) dir dentry r.1

/-- The label `out:` of `hfsplus_mknod`. -/
def mknod_out (res : Int) (w : World) (dentry : Dentry) (inode : Option Inode) : CreateOut :=
  let w := hfsplus_journal_stop w "hfsplus_mknod"
  ⟨res, mutex_unlock w, dentry, inode⟩

/-- Lines 494-514 of `hfsplus_mknod`, with the lock held; `res` is the local variable of
that name. -/
def mknod_locked (env : Env) (w : World) (dir : Inode) (dentry : Dentry) (mode : Nat)
    (res : Int) : CreateOut :=
  match hfsplus_new_inode env w mode with
  | (none, w) => mknod_out res w dentry none
  | (some inode, w) =>
    let w :=
      if S_ISBLK mode ∨ S_ISCHR mode ∨ S_ISFIFO mode ∨ S_ISSOCK mode then
        w.log (.init_special_inode inode.i_ino)
      else w
    let c := hfsplus_create_cat env w inode.i_ino dir dentry.d_name inode
    if c.1 ≠ 0 then
      let inode := clear_nlink inode
      let w := hfsplus_delete_inode c.2 inode
      let w := iput w inode
      mknod_out c.1 w dentry none
    else
      let dentry := hfsplus_instantiate dentry inode inode.i_ino
      let m := hfsplus_journalled_mark_inode_dirty env c.2 inode
      mknod_out m.1 m.2 dentry (some inode)

/-- Create the entry `dentry` of `dir` for a new object of mode `mode` (lines 483-515). -/
def hfsplus_mknod (env : Env) (w : World) (dir : Inode) (dentry : Dentry) (mode : Nat) :
    CreateOut :=
  let r := hfsplus_journal_start env w "hfsplus_mknod"
  if r.1 ≠ 0 then ⟨r.1, r.2, dentry, none⟩
  else mknod_locked env (mutex_lock r.2) dir dentry mode r.1

/-- Lines 517-521. -/
def hfsplus_create (env : Env) (w : World) (dir : Inode) (dentry : Dentry) (mode : Nat) :
    CreateOut :=
  hfsplus_mknod env w dir dentry mode

/-- Lines 523-529. -/
def hfsplus_mkdir (env : Env) (w : World) (dir : Inode) (dentry : Dentry) (mode : Nat) :
    CreateOut :=
  if dir.i_ino = 19 then ⟨0, w, dentry, none⟩
  else hfsplus_mknod env w dir dentry (mode ||| S_IFDIR)

/-! ## `hfsplus_rename` -/

structure RenameOut where
  res : Int
  w : World
  new_dentry : Dentry
  new_inode : Option Inode

/-- Lines 547-556 of `hfsplus_rename`: the key rewrite in its own transaction scope. -/
def rename_tail (env : Env) (w : World) (old_dir : Inode) (old_dentry : Dentry)
    (new_dir : Inode) (new_dentry : Dentry) (new_inode : Option Inode) : RenameOut :=
  let r := hfsplus_journal_start env w "hfsplus_rename"
  if r.1 ≠ 0 then ⟨r.1, r.2, new_dentry, new_inode⟩
  else
    let c := hfsplus_rename_cat env r.2 (old_dentry.d_fsdata % U32) old_dir old_dentry.d_name
      new_dir new_dentry.d_name
    let new_dentry :=
      if c.1 = 0 then { new_dentry with d_fsdata := old_dentry.d_fsdata } else new_dentry
    ⟨c.1, hfsplus_journal_stop c.2 "hfsplus_rename", new_dentry, new_inode⟩

/-- Move the entry `old_dentry` of `old_dir` to `new_dentry` of `new_dir`; `new_inode` is
the object `new_dentry->d_inode`, if the destination exists (lines 531-557). -/
def hfsplus_rename (env : Env) (w : World) (old_dir : Inode) (old_dentry : Dentry)
    (new_dir : Inode) (new_dentry : Dentry) (new_inode : Option Inode) :
    Except Halt RenameOut :=
  match new_inode with
  | some ni =>
    if S_ISDIR ni.i_mode then
      let u := hfsplus_rmdir env w new_dir new_dentry ni
      if u.res ≠ 0 then .ok ⟨u.res, u.w, new_dentry, some u.inode⟩
      else .ok (rename_tail env u.w old_dir old_dentry new_dir new_dentry (some u.inode))
    else
      match hfsplus_unlink env w new_dir new_dentry ni with
      | .error h => .error h
      | .ok u =>
        if u.res ≠ 0 then .ok ⟨u.res, u.w, new_dentry, some u.inode⟩
        else .ok (rename_tail env u.w old_dir old_dentry new_dir new_dentry (some u.inode))
  | none => .ok (rename_tail env w old_dir old_dentry new_dir new_dentry none)

/-! ## `hfsplus_readdir` -/

/-- Value of `sizeof(hfsplus_cat_entry)`, the union of the folder, file and thread
records. -/
def SIZEOF_CAT_ENTRY : Nat := 520
/-- Value of `HFSPLUS_MIN_THREAD_SZ` of `hfsplus_raw.h`. -/
def HFSPLUS_MIN_THREAD_SZ : Nat := 10
/-- Directory entry kinds of `linux/fs.h`. -/
def DT_DIR : Nat := 4
def DT_REG : Nat := 8

/-- Value of a `loff_t` passed as an `int` argument. -/
def to_int (v : Nat) : Int :=
  if v % U32 < 2 ^ 31 then ((v % U32 : Nat) : Int) else ((v % U32 : Nat) : Int) - (U32 : Int)

/-- The fields of `struct hfs_find_data` that `hfsplus_readdir` reads once the cursor
stands on a record: the position of the record in catalog order, its key (`fd.key`) and
the record with its length (`fd.entrylength`, `hfs_bnode_read` at `fd.entryoffset`). -/
structure hfs_find_data where
  record : Nat
  key : hfsplus_cat_key
  entry : hfsplus_cat_entry
deriving DecidableEq, Repr

/-- The open directory (`struct file`): the position `f_pos` and, when
`filp->private_data` is not NULL, the catalog key saved in the `hfsplus_readdir_data` it
points to.  That structure is on the directory's `open_dir_list` exactly when it
exists. -/
structure File where
  f_pos : Nat
  private_data : Option hfsplus_cat_key
deriving DecidableEq, Repr

structure ReaddirOut where
  res : Int
  w : World
  filp : File

/-- Modelled from the spec: position and record of the first record of the catalog, in
catalog order, that has the key `k`. -/
def cat_seek : List (hfsplus_cat_key × hfsplus_cat_entry) → hfsplus_cat_key →
    Option (Nat × hfsplus_cat_entry)
  | [], _ => none
  | p :: rest, k =>
    if p.1 = k then some (0, p.2)
    else (cat_seek rest k).map (fun r => (r.1 + 1, r.2))

/-- Modelled from the spec: `hfs_brec_find` of the B-tree layer, the
`iterate_from(key) -> cursor` of the Catalog Store: a storage failure, or `-ENOENT` when
the key has no record, or the cursor on the record of the key. -/
def hfs_brec_find (env : Env) (w : World) (key : hfsplus_cat_key) :
    Except Int hfs_find_data × World :=
  if env.cat_fault w.trace ≠ 0 then
    (.error (env.cat_fault w.trace), w.log (.brec_find key (env.cat_fault w.trace)))
  else match cat_seek w.cat key with
    | none => (.error (-ENOENT), w.log (.brec_find key (-ENOENT)))
    | some r => (.ok ⟨r.1, key, r.2⟩, w.log (.brec_find key 0))

/-- Modelled from the spec: `hfs_brec_goto` of the B-tree layer, the `advance(cursor, n)`
of the Catalog Store: a storage failure, or `-ENOENT` when the move leaves the catalog,
or the cursor on the record `cnt` places further in catalog order. -/
def hfs_brec_goto (env : Env) (w : World) (fd : hfs_find_data) (cnt : Int) :
    Except Int hfs_find_data × World :=
  if env.cat_fault w.trace ≠ 0 then
    (.error (env.cat_fault w.trace), w.log (.brec_goto cnt (env.cat_fault w.trace)))
  else if (fd.record : Int) + cnt < 0 then
    (.error (-ENOENT), w.log (.brec_goto cnt (-ENOENT)))
  else match w.cat.get? ((fd.record : Int) + cnt).toNat with
    | none => (.error (-ENOENT), w.log (.brec_goto cnt (-ENOENT)))
    | some p => (.ok ⟨((fd.record : Int) + cnt).toNat, p.1, p.2⟩, w.log (.brec_goto cnt 0))

/-- Modelled from the spec: the `filldir` callback of the caller, which stores one entry
`(name, offset, ino, d_type)` in the caller's buffer and returns 0, or stores nothing and
returns a non-zero value when the buffer is full. -/
def filldir (env : Env) (w : World) (name : String) (offset ino d_type : Nat) : Int × World :=
  (env.filldir w.trace, w.log (.filldir name offset ino d_type (env.filldir w.trace)))

/-- The label `out:` of `hfsplus_readdir`. -/
def readdir_out (err : Int) (w : World) (filp : File) : ReaddirOut :=
  let w := hfs_find_exit w
  let w := hfsplus_journal_stop w "hfsplus_readdir"
  ⟨err, w, filp⟩

/-- Lines 251-262 of `hfsplus_readdir`, reached by `break` when the buffer is full: the
key under the cursor is saved on the open directory; `err` is the local variable of that
name. -/
def readdir_save (env : Env) (w : World) (filp : File) (fd : hfs_find_data) (err : Int) :
    ReaddirOut :=
  match filp.private_data with
  | none =>
    if env.kmalloc w.trace then
      readdir_out err (w.log (.kmalloc true)) { filp with private_data := some fd.key }
    else readdir_out (-ENOMEM) (w.log (.kmalloc false)) filp
  | some _ => readdir_out err w { filp with private_data := some fd.key }

/-- The test of lines 222-224: the volume has a hidden directory and `id` is its
identifier. -/
def is_hidden_dir (w : World) (id : Nat) : Bool :=
  match w.hidden_dir with
  | some hidden => hidden.i_ino == id
  | none => false

/-- Outcome of the body of the `for (;;)` loop up to the label `next:`: the function has
returned, or control reaches `next:`. -/
inductive ReaddirStep where
  | done (o : ReaddirOut)
  | next (w : World)

/-- Lines 197-241 of `hfsplus_readdir`: the record under the cursor is checked, decoded
and handed to `filldir`. -/
def readdir_entry (env : Env) (w : World) (filp : File) (fd : hfs_find_data) (inode : Inode) :
    ReaddirStep :=
  if fd.key.parent ≠ inode.i_ino then .done (readdir_out (- EIO) w filp)
  else if fd.entry.entrylength > SIZEOF_CAT_ENTRY then .done (readdir_out (- EIO) w filp)
  else
    match env.uni2asc fd.key.name with
    | .error err => .done (readdir_out err w filp)
    | .ok strbuf =>
      if fd.entry.type = HFSPLUS_FOLDER then
        if fd.entry.entrylength < SIZEOF_CAT_FOLDER then .done (readdir_out (- EIO) w filp)
        else if is_hidden_dir w fd.entry.id then .next w
        else
          let r := filldir env w strbuf filp.f_pos fd.entry.id DT_DIR
          if r.1 ≠ 0 then .done (readdir_save env r.2 filp fd 0) else .next r.2
      else if fd.entry.type = HFSPLUS_FILE then
        if fd.entry.entrylength < SIZEOF_CAT_FILE then .done (readdir_out (- EIO) w filp)
        else
          let r := filldir env w strbuf filp.f_pos fd.entry.id DT_REG
          if r.1 ≠ 0 then .done (readdir_save env r.2 filp fd 0) else .next r.2
      else .done (readdir_out (- EIO) w filp)

/-- The `for (;;)` loop of lines 196-250, entered with the cursor `fd` on the record of
position `filp.f_pos`. -/
def readdir_loop (env : Env) (inode : Inode) : Nat → World → File → hfs_find_data →
    Except Halt ReaddirOut
  | 0, _, _, _ => .error .out_of_fuel
  | fuel + 1, w, filp, fd =>
    match readdir_entry env w filp fd inode with
    | .done o => .ok o
    | .next w =>
      let filp := { filp with f_pos := filp.f_pos + 1 }
      if filp.f_pos ≥ inode.i_size then .ok (readdir_out 0 w filp)
      else
        match hfs_brec_goto env w fd 1 with
        | (.error err, w) => .ok (readdir_out err w filp)
        | (.ok fd, w) => readdir_loop env inode fuel w filp fd

/-- The label `default:` of the `switch` (lines 189-194): move the cursor from the thread
record to the record of position `filp.f_pos`. -/
def readdir_default (env : Env) (inode : Inode) (fuel : Nat) (w : World) (filp : File)
    (fd : hfs_find_data) : Except Halt ReaddirOut :=
  if filp.f_pos ≥ inode.i_size then .ok (readdir_out 0 w filp)
  else
    match hfs_brec_goto env w fd (to_int (filp.f_pos - 1)) with
    | (.error err, w) => .ok (readdir_out err w filp)
    | (.ok fd, w) => readdir_loop env inode fuel w filp fd

/-- The label `case 1:` of the `switch` (lines 165-188): the entry `..` from the thread
record under the cursor. -/
def readdir_dotdot (env : Env) (inode : Inode) (fuel : Nat) (w : World) (filp : File)
    (fd : hfs_find_data) : Except Halt ReaddirOut :=
  if fd.entry.entrylength > SIZEOF_CAT_ENTRY then .ok (readdir_out (- EIO) w filp)
  else if fd.entry.type ≠ HFSPLUS_FOLDER_THREAD then .ok (readdir_out (- EIO) w filp)
  else if fd.entry.entrylength < HFSPLUS_MIN_THREAD_SZ then .ok (readdir_out (- EIO) w filp)
  else
    let r := filldir env w ".." 1 fd.entry.parentID DT_DIR
    if r.1 ≠ 0 then .ok (readdir_out 0 r.2 filp)
    else readdir_default env inode fuel r.2 { filp with f_pos := filp.f_pos + 1 } fd

/-- The label `case 0:` of the `switch` (lines 159-164): the entry `.`. -/
def readdir_dot (env : Env) (inode : Inode) (fuel : Nat) (w : World) (filp : File)
    (fd : hfs_find_data) : Except Halt ReaddirOut :=
  let r := filldir env w "." 0 inode.i_ino DT_DIR
  if r.1 ≠ 0 then .ok (readdir_out 0 r.2 filp)
  else readdir_dotdot env inode fuel r.2 { filp with f_pos := filp.f_pos + 1 } fd

/-- Hand the entries of the folder `inode` from position `filp.f_pos` on to `filldir`
(lines 133-267). -/
def hfsplus_readdir (env : Env) (fuel : Nat) (w : World) (filp : File) (inode : Inode) :
    Except Halt ReaddirOut :=
  if filp.f_pos ≥ inode.i_size then .ok ⟨0, w, filp⟩
  else
    let r := hfsplus_journal_start env w "hfsplus_readdir"
    if r.1 ≠ 0 then .ok ⟨r.1, r.2, filp⟩
    else
      let f := hfs_find_init env r.2
      if f.1 ≠ 0 then .ok ⟨f.1, f.2, filp⟩
      else
        match hfs_brec_find env f.2 (hfsplus_cat_build_key inode.i_ino "") with
        | (.error err, w) => .ok (readdir_out err w filp)
        | (.ok fd, w) =>
          if filp.f_pos % U32 = 0 then readdir_dot env inode fuel w filp fd
          else if filp.f_pos % U32 = 1 then readdir_dotdot env inode fuel w filp fd
          else readdir_default env inode fuel w filp fd

/-! ## Notions used in the statements -/

/-- The test of lines 72-88 of `hfsplus_lookup`: a file record of full length carrying the
hard-link signature and the creation date of the hidden directory or of the root. -/
def is_hardlink_ptr (w : World) (hidden : Inode) (e : hfsplus_cat_entry) : Prop :=
  e.type = HFSPLUS_FILE ∧ ¬ e.entrylength < SIZEOF_CAT_FILE ∧
  e.fdType = HFSP_HARDLINK_TYPE ∧ e.fdCreator = HFSP_HFSPLUS_CREATOR ∧
  (e.create_date = hidden.create_date ∨ e.create_date = w.root_create_date)

/-- The object identifiers passed to `hfsplus_iget` in a trace. -/
def iget_cnids (t : List Event) : List Nat :=
  t.filterMap (fun e => match e with | .iget c _ => some c | _ => none)

/-- One step of the transaction-scope discipline.  The state is `some none` while no scope
is open, `some (some fn)` while the scope begun by `fn` is open, and `none` once the
discipline is broken: a stop with no scope open or of another handle, or a successful
begin inside an open scope. -/
def scope_step (s : Option (Option String)) (e : Event) : Option (Option String) :=
  match s, e with
  | some none, .journal_start fn res => if res = 0 then some (some fn) else some none
  | some (some h), .journal_start _ res => if res = 0 then none else some (some h)
  | some (some h), .journal_stop fn => if fn = h then some none else none
  | some none, .journal_stop _ => none
  | s, _ => s

/-- State of the transaction scopes after a trace. -/
def scope_state (t : List Event) : Option (Option String) :=
  t.foldl scope_step (some none)

/-- Number of calls of the catalog mutators (key rewrite, insert, delete) in a trace. -/
def cat_calls (t : List Event) : Nat :=
  t.countP (fun e => match e with
    | .rename_cat _ _ _ _ => true
    | .create_cat _ _ _ => true
    | .delete_cat _ _ _ _ => true
    | _ => false)

/-- Number of records of the catalog under the key `k`. -/
def count_key (cat : List (hfsplus_cat_key × hfsplus_cat_entry)) (k : hfsplus_cat_key) : Nat :=
  cat.countP (fun p => p.1 = k)

/-- Number of successful catalog key rewrites in a trace. -/
def renames_ok (t : List Event) : Nat :=
  t.countP (fun e => match e with | .rename_cat _ _ _ res => res == 0 | _ => false)

/-- Number of catalog record reads in a trace. -/
def reads (t : List Event) : Nat :=
  t.countP (fun e => match e with | .brec_read _ _ => true | _ => false)

/-- The record `hfsplus_cat_build_record` makes for a regular file under an identifier
other than the object's own. -/
def link_rec (hidden : Inode) (cnid linkid : Nat) : hfsplus_cat_entry :=
  ⟨HFSPLUS_FILE, SIZEOF_CAT_FILE, cnid, HFSP_HARDLINK_TYPE, HFSP_HFSPLUS_CREATOR,
    hidden.create_date, linkid, 0⟩

/-- Deleting keys and moving a record to a key that was free never changes the record
found under a key: it stays or it disappears. -/
def cat_kept (c1 c2 : List (hfsplus_cat_key × hfsplus_cat_entry)) : Prop :=
  ∀ k e, cat_find c1 k = some e → cat_find c2 k = some e ∨ cat_find c2 k = none

/-- The second catalog is the first with some keys deleted, as far as lookups tell. -/
def cat_shrunk (c1 c2 : List (hfsplus_cat_key × hfsplus_cat_entry)) : Prop :=
  ∀ k, cat_find c2 k = cat_find c1 k ∨ cat_find c2 k = none

/-! ## Concrete volumes used to evaluate the code -/

/-- An environment in which no collaborator fails. -/
def env_ok : Env where
  journal_start := fun _ => 0
  find_init := fun _ => 0
  cat_fault := fun _ => 0
  mark_inode_dirty := fun _ => 0
  page_symlink := fun _ => 0
  get_random_bytes := fun _ => 7
  current_time_sec := fun _ => 1000
  new_inode := fun _ _ => none
  iget := fun _ cnid => .ok ⟨cnid, S_IFREG ||| 0o644, 1, 0, 0, 0, 1, 0, 0, 50, false⟩
  filldir := fun _ => 0
  kmalloc := fun _ => true
  uni2asc := fun name => .ok name

/-- The hidden directory of the sample volumes: CNID 19, creation date 100. -/
def hidden19 : Inode := ⟨19, S_IFDIR ||| 0o755, 1, 2, 0, 0, 1, 0, 0, 100, false⟩

/-- The root folder of the sample volumes: CNID 2. -/
def root2 : Inode := ⟨2, S_IFDIR ||| 0o755, 1, 5, 0, 0, 1, 0, 0, 90, false⟩

/-- A hard-link pointer record with file id `id` and link id `dev`. -/
def ptr_rec (id dev : Nat) : hfsplus_cat_entry :=
  ⟨HFSPLUS_FILE, SIZEOF_CAT_FILE, id, HFSP_HARDLINK_TYPE, HFSP_HFSPLUS_CREATOR, 100, dev, 0⟩

/-- A plain file record with file id `id`. -/
def file_rec (id : Nat) : hfsplus_cat_entry :=
  ⟨HFSPLUS_FILE, SIZEOF_CAT_FILE, id, 0, 0, 50, 0, 0⟩

def world_of (cat : List (hfsplus_cat_key × hfsplus_cat_entry)) : World :=
  ⟨cat, 1000, 10, 0, some hidden19, 90, []⟩

def dentry_a : Dentry := ⟨"a", 0, none⟩

/-- A pointer with file id 0 whose target is a pointer with file id 0 whose target is a
plain file. -/
def cat_chain : List (hfsplus_cat_key × hfsplus_cat_entry) :=
  [(⟨2, "a"⟩, ptr_rec 0 7), (⟨19, "iNode7"⟩, ptr_rec 0 8), (⟨19, "iNode8"⟩, file_rec 30)]

/-- A pointer with file id 0 whose target is a pointer with file id 0 naming itself. -/
def cat_cycle : List (hfsplus_cat_key × hfsplus_cat_entry) :=
  [(⟨2, "a"⟩, ptr_rec 0 7), (⟨19, "iNode7"⟩, ptr_rec 0 7)]

/-- A pointer with file id 10 whose target is a pointer with file id 20. -/
def cat_two_ptr : List (hfsplus_cat_key × hfsplus_cat_entry) :=
  [(⟨2, "a"⟩, ptr_rec 10 7), (⟨19, "iNode7"⟩, ptr_rec 20 8), (⟨19, "iNode8"⟩, file_rec 30)]

/-- An environment in which no collaborator fails and the allocator hands out regular
objects with link count 1. -/
def env_alloc : Env :=
  { env_ok with new_inode := fun _ _ => some ⟨0, 0, 1, 0, 0, 0, 1, 0, 0, 50, false⟩ }

def dentry_b : Dentry := ⟨"b", 0, none⟩

/-- The object that `hfsplus_create` makes on `world_of []` under `env_alloc`. -/
def inode_1000 : Inode := ⟨1000, S_IFREG ||| 0o644, 1, 0, 0, 0, 1, 0, 0, 50, false⟩

/-- The result of an operation that returned, else `d`. -/
def returned {α : Type} (r : Except Halt α) (d : α) : α :=
  match r with
  | .ok x => x
  | .error _ => d

/-- An environment in which the transaction scope cannot be begun (`-EIO`) and nothing
else fails. -/
def env_nojournal : Env :=
  { env_ok with journal_start := fun _ => - EIO }

/-- A folder with three recorded entries, CNID 40. -/
def folder_40 : Inode := ⟨40, S_IFDIR ||| 0o755, 1, 3, 0, 0, 1, 0, 0, 60, false⟩

/-- A regular file with link count 2 and no open handle, CNID 30. -/
def inode_30 : Inode := ⟨30, S_IFREG ||| 0o644, 2, 0, 0, 0, 1, 7, 0, 50, false⟩

/-- The file 30 behind the node `iNode7`, reachable through the pointer entries `a` (CNID
1001) and `b` (CNID 1002) of the root. -/
def cat_linked : List (hfsplus_cat_key × hfsplus_cat_entry) :=
  [(⟨2, "a"⟩, ptr_rec 1001 7), (⟨2, "b"⟩, ptr_rec 1002 7), (⟨19, "iNode7"⟩, file_rec 30)]

/-- The folder `d` of the root (CNID 41) and the empty folder `e` of the root (CNID 40). -/
def cat_folders : List (hfsplus_cat_key × hfsplus_cat_entry) :=
  [(⟨2, "d"⟩, ⟨HFSPLUS_FOLDER, SIZEOF_CAT_FOLDER, 41, 0, 0, 60, 0, 0⟩),
   (⟨2, "e"⟩, ⟨HFSPLUS_FOLDER, SIZEOF_CAT_FOLDER, 40, 0, 0, 60, 0, 0⟩)]

/-- The file 30 behind the node `iNode7`, reachable through the single pointer entry `b`
(CNID 1002) of the root. -/
def cat_one_ptr : List (hfsplus_cat_key × hfsplus_cat_entry) :=
  [(⟨2, "b"⟩, ptr_rec 1002 7), (⟨19, "iNode7"⟩, file_rec 30)]

/-- A catalog delete, whatever its result. -/
def is_delete_cat (e : Event) : Bool :=
  match e with
  | .delete_cat _ _ _ _ => true
  | _ => false

/-- A catalog key rewrite that succeeded. -/
def is_rename_done (e : Event) : Bool :=
  match e with
  | .rename_cat _ _ _ res => res == 0
  | _ => false

/-- An environment in which every catalog call made after a catalog delete fails with
`-EIO`, and nothing else fails. -/
def env_node_fault : Env :=
  { env_ok with cat_fault := fun t => if t.any is_delete_cat then - EIO else 0 }

/-- An environment in which every catalog call made after a successful key rewrite fails
with `-EIO`, and nothing else fails. -/
def env_create_fault : Env :=
  { env_ok with cat_fault := fun t => if t.any is_rename_done then - EIO else 0 }

/-- Number of journalled dirty-marks in a trace. -/
def dirty_marks (t : List Event) : Nat :=
  t.countP (fun e => match e with | .mark_inode_dirty _ _ => true | _ => false)

/-- Number of catalog deletes in a trace. -/
def cat_deletes (t : List Event) : Nat :=
  t.countP (fun e => match e with | .delete_cat _ _ _ _ => true | _ => false)

/-- The plain file `a` of the root, CNID 30. -/
def cat_plain : List (hfsplus_cat_key × hfsplus_cat_entry) :=
  [(⟨2, "a"⟩, file_rec 30)]

/-- The regular file 30 with link count 1 and one open handle. -/
def inode_30_open : Inode := ⟨30, S_IFREG ||| 0o644, 1, 0, 0, 0, 1, 0, 1, 50, false⟩

/-- The regular file 30 with link count 1, no link id and no open handle. -/
def inode_30_plain : Inode := ⟨30, S_IFREG ||| 0o644, 1, 0, 0, 0, 1, 0, 0, 50, false⟩

/-- The three ways `hfsplus_link` ends after the promotion left the world `w2`: the insert
of the source name fails, or the insert of the destination name fails, or both succeed
and the result is that of the dirty-mark.  In each case the calls made after the promotion
are exactly the ones listed, `out.res` being the result of the last one. -/
def link_failed_after (w2 : World) (out : LinkOut) (inode src_dir dst_dir : Inode)
    (src_name dst_name : String) : Prop :=
  (out.w.trace = w2.trace ++ [.create_cat w2.next_cnid ⟨src_dir.i_ino, src_name⟩ out.res,
      .journal_stop "hfsplus_link", .mutex_unlock] ∧
    out.w.cat = w2.cat ∧ out.w.next_cnid = u32_inc w2.next_cnid) ∨
  (out.w.trace = w2.trace ++ [.create_cat w2.next_cnid ⟨src_dir.i_ino, src_name⟩ 0,
      .create_cat (u32_inc w2.next_cnid) ⟨dst_dir.i_ino, dst_name⟩ out.res,
      .journal_stop "hfsplus_link", .mutex_unlock] ∧
    (∃ r1, out.w.cat = cat_insert w2.cat ⟨src_dir.i_ino, src_name⟩ r1) ∧
    out.w.next_cnid = u32_inc (u32_inc w2.next_cnid)) ∨
  (out.w.trace = w2.trace ++ [.create_cat w2.next_cnid ⟨src_dir.i_ino, src_name⟩ 0,
      .create_cat (u32_inc w2.next_cnid) ⟨dst_dir.i_ino, dst_name⟩ 0,
      .mark_inode_dirty inode.i_ino out.res,
      .journal_stop "hfsplus_link", .mutex_unlock] ∧
    (∃ r1 r2, out.w.cat = cat_insert (cat_insert w2.cat ⟨src_dir.i_ino, src_name⟩ r1)
      ⟨dst_dir.i_ino, dst_name⟩ r2) ∧
    out.w.next_cnid = u32_inc (u32_inc w2.next_cnid))

/-- A pointer entry `a` of the root whose link id is 2^31, and the node `iNode2147483648`
of the hidden directory that holds the file 30. -/
def cat_big_link : List (hfsplus_cat_key × hfsplus_cat_entry) :=
  [(⟨2, "a"⟩, ptr_rec 1001 2147483648), (⟨19, "iNode2147483648"⟩, file_rec 30)]

/-! ## Notions used in the statements about `hfsplus_readdir` -/

/-- The entries stored in the caller's buffer: the `filldir` calls that returned 0. -/
def emitted (t : List Event) : List (String × Nat × Nat) :=
  t.filterMap (fun e => match e with
    | .filldir name _ ino d_type res => if res = 0 then some (name, ino, d_type) else none
    | _ => none)

/-- Spec: what the enumerator's `next()` makes of one child record of the directory. -/
inductive ChildEntry where
  /-- The enumeration fails on the record. -/
  | corrupt
  /-- The record is passed over without an entry. -/
  | skipped
  /-- The record yields the entry `(name, OID, kind)`. -/
  | entry (name : String) (ino : Nat) (kind : Nat)
deriving DecidableEq, Repr

/-- Spec: `next()` on one child record of the folder `ino`: the enumeration fails when the
parent of the key is not the folder, when the name cannot be decoded and when the record
is neither a folder nor a file record; the hidden directory's own folder record is
skipped; every other record yields its decoded name, identifier and kind. -/
def child_entry (env : Env) (hidden : Option Inode) (ino : Nat)
    (c : hfsplus_cat_key × hfsplus_cat_entry) : ChildEntry :=
  if c.1.parent ≠ ino then .corrupt
  else
    match env.uni2asc c.1.name with
    | .error _ => .corrupt
    | .ok s =>
      if c.2.type = HFSPLUS_FOLDER then
        if (match hidden with
            | some h => h.i_ino == c.2.id
            | none => false) then .skipped
        else .entry s c.2.id DT_DIR
      else if c.2.type = HFSPLUS_FILE then .entry s c.2.id DT_REG
      else .corrupt

/-- Spec: the entries of a run of child records in catalog order, or nothing when the
enumeration fails on one of them. -/
def children_listing (env : Env) (hidden : Option Inode) (ino : Nat) :
    List (hfsplus_cat_key × hfsplus_cat_entry) → Option (List (String × Nat × Nat))
  | [] => some []
  | c :: rest =>
    match child_entry env hidden ino c with
    | .corrupt => none
    | .skipped => children_listing env hidden ino rest
    | .entry n i k => (children_listing env hidden ino rest).map (fun l => (n, i, k) :: l)

/-- Spec: the listing of the folder `ino`: `.` with the folder's own identifier, `..` with
the parent identifier of its thread record, then the entries of its child records in
catalog order; nothing when the enumeration fails on a child record. -/
def dir_listing (env : Env) (hidden : Option Inode) (ino : Nat) (thread : hfsplus_cat_entry)
    (children : List (hfsplus_cat_key × hfsplus_cat_entry)) :
    Option (List (String × Nat × Nat)) :=
  (children_listing env hidden ino children).map
    (fun l => (".", ino, DT_DIR) :: ("..", thread.parentID, DT_DIR) :: l)

/-- Spec: the entries of the positions below `p` of the listing. -/
def listed_upto (env : Env) (hidden : Option Inode) (ino : Nat) (thread : hfsplus_cat_entry)
    (children : List (hfsplus_cat_key × hfsplus_cat_entry)) (p : Nat) :
    Option (List (String × Nat × Nat)) :=
  match p with
  | 0 => some []
  | 1 => some [(".", ino, DT_DIR)]
  | j + 2 => dir_listing env hidden ino thread (children.take j)

/-- The entries stored in the trace `t` beyond `base` are exactly the entries of the
positions below `p`, and the enumeration fails on none of the records of these
positions. -/
def stored_upto (env : Env) (hidden : Option Inode) (ino : Nat) (thread : hfsplus_cat_entry)
    (children : List (hfsplus_cat_key × hfsplus_cat_entry)) (base : List (String × Nat × Nat))
    (t : List Event) (p : Nat) : Prop :=
  ∃ L, listed_upto env hidden ino thread children p = some L ∧ emitted t = base ++ L

/-- A folder record that carries the identifier of the hidden directory. -/
def is_hidden_child (hidden : Option Inode) (c : hfsplus_cat_key × hfsplus_cat_entry) : Bool :=
  c.2.type == HFSPLUS_FOLDER &&
    (match hidden with
      | some h => h.i_ino == c.2.id
      | none => false)

/-- A child record of the folder `ino` that passes every check of the loop of
`hfsplus_readdir`: the parent of its key is the folder, it fits the record buffer, its
name decodes, and it is a folder or a file record of at least the length of its kind. -/
def record_ok (env : Env) (ino : Nat) (c : hfsplus_cat_key × hfsplus_cat_entry) : Prop :=
  c.1.parent = ino ∧ c.2.entrylength ≤ SIZEOF_CAT_ENTRY ∧
  (∃ s, env.uni2asc c.1.name = .ok s) ∧
  ((c.2.type = HFSPLUS_FOLDER ∧ SIZEOF_CAT_FOLDER ≤ c.2.entrylength) ∨
   (c.2.type = HFSPLUS_FILE ∧ SIZEOF_CAT_FILE ≤ c.2.entrylength))

/-- A thread record that passes every check of `case 1:` of `hfsplus_readdir`. -/
def thread_ok (thread : hfsplus_cat_entry) : Prop :=
  thread.type = HFSPLUS_FOLDER_THREAD ∧ HFSPLUS_MIN_THREAD_SZ ≤ thread.entrylength ∧
  thread.entrylength ≤ SIZEOF_CAT_ENTRY

/-- An environment in which no begin of a scope, set-up of a search and catalog access
fails. -/
def env_never_fails (env : Env) : Prop :=
  (∀ t, env.journal_start t = 0) ∧ (∀ t, env.find_init t = 0) ∧ (∀ t, env.cat_fault t = 0)

/-- Spec: an enumeration session on one open directory: `n` successive calls of
`hfsplus_readdir`, each resuming from the position and saved key the previous call left,
with no other operation in between. -/
def readdir_session (env : Env) (fuel : Nat) (inode : Inode) :
    Nat → World → File → Except Halt (World × File)
  | 0, w, filp => .ok (w, filp)
  | n + 1, w, filp =>
    match hfsplus_readdir env fuel w filp inode with
    | .error h => .error h
    | .ok r => readdir_session env fuel inode n r.w r.filp

/-- What one pass through the body of the loop leaves: at the label `next:` the record
under the cursor was skipped, or its entry has been stored; on a return nothing more was
stored and the position is unchanged.  The catalog and the hidden directory are as
before. -/
def entry_step_ok (env : Env) (ino : Nat) (w : World) (filp : File) (fd : hfs_find_data)
    (s : ReaddirStep) : Prop :=
  match s with
  | .next w2 => w2.cat = w.cat ∧ w2.hidden_dir = w.hidden_dir ∧
      ((child_entry env w.hidden_dir ino (fd.key, fd.entry) = .skipped ∧
          emitted w2.trace = emitted w.trace) ∨
       (∃ n i k, child_entry env w.hidden_dir ino (fd.key, fd.entry) = .entry n i k ∧
          emitted w2.trace = emitted w.trace ++ [(n, i, k)]))
  | .done o => o.w.cat = w.cat ∧ o.w.hidden_dir = w.hidden_dir ∧
      emitted o.w.trace = emitted w.trace ∧ o.filp.f_pos = filp.f_pos

/-- What a call of `hfsplus_readdir` leaves apart from the saved key: the value returned,
the volume state with its trace, and the position. -/
def ReaddirOut.visible (r : ReaddirOut) : Int × World × Nat := (r.res, r.w, r.filp.f_pos)

/-- What one pass through the body of the loop leaves apart from the saved key. -/
def ReaddirStep.visible (s : ReaddirStep) : Sum (Int × World × Nat) World :=
  match s with
  | .done o => .inl o.visible
  | .next w => .inr w

/-- The root folder (five recorded entries) with its thread record and the three files
`a`, `b`, `c`. -/
def cat_dir : List (hfsplus_cat_key × hfsplus_cat_entry) :=
  [(⟨2, ""⟩, ⟨HFSPLUS_FOLDER_THREAD, 20, 0, 0, 0, 0, 0, 1⟩),
   (⟨2, "a"⟩, file_rec 30), (⟨2, "b"⟩, file_rec 31), (⟨2, "c"⟩, file_rec 32)]

/-- The root folder with its thread record, the folder record of the hidden directory
(CNID 19) and the file `a`. -/
def cat_root_hidden : List (hfsplus_cat_key × hfsplus_cat_entry) :=
  [(⟨2, ""⟩, ⟨HFSPLUS_FOLDER_THREAD, 20, 0, 0, 0, 0, 0, 1⟩),
   (⟨2, "HFS+ Private Data"⟩, ⟨HFSPLUS_FOLDER, SIZEOF_CAT_FOLDER, 19, 0, 0, 100, 0, 0⟩),
   (⟨2, "a"⟩, file_rec 30)]

/-- The root folder with four recorded entries, CNID 2. -/
def root4 : Inode := ⟨2, S_IFDIR ||| 0o755, 1, 4, 0, 0, 1, 0, 0, 90, false⟩

/-- A begin of a transaction scope, whatever its result. -/
def is_journal_start (e : Event) : Bool :=
  match e with
  | .journal_start _ _ => true
  | _ => false

/-- A `filldir` call that stored its entry. -/
def is_stored (e : Event) : Bool :=
  match e with
  | .filldir _ _ _ _ res => res == 0
  | _ => false

/-- A `filldir` call, whatever its result. -/
def is_filldir (e : Event) : Bool :=
  match e with
  | .filldir _ _ _ _ _ => true
  | _ => false

/-- No entry was offered to `filldir` since the last begin of a scope, that is in the
current call of `hfsplus_readdir`. -/
def first_in_call (t : List Event) : Bool :=
  (t.reverse.takeWhile (fun e => ! is_journal_start e)).all (fun e => ! is_filldir e)

/-- The caller's buffer has room for at least one entry in every call: the first entry
offered in a call is stored. -/
def buffer_takes_one (env : Env) : Prop :=
  ∀ t, first_in_call t = true → env.filldir t = 0

/-- An environment in which nothing fails and the caller's buffer holds two entries per
call. -/
def env_buf2 : Env :=
  { env_ok with filldir := fun t =>
      if (t.reverse.takeWhile (fun e => ! is_journal_start e)).countP is_stored ≥ 2 then 1
      else 0 }

/-- An environment in which the catalog search state cannot be set up (`-ENOMEM`) and
nothing else fails. -/
def env_noinit : Env :=
  { env_ok with find_init := fun _ => -ENOMEM }

/-- An environment in which no in-core object can be acquired (`-ENOMEM`) and nothing else
fails. -/
def env_noiget : Env :=
  { env_ok with iget := fun _ _ => .error (-ENOMEM) }

/-- Number of stops of a transaction scope in a trace. -/
def scope_stops (t : List Event) : Nat :=
  t.countP (fun e => match e with | .journal_stop _ => true | _ => false)

/-- One step of the discipline of the catalog search state (`struct hfs_find_data`).  The
state is `some false` while no search state is set up, `some true` while one is, and
`none` once the discipline is broken: a release with no search state set up, or a
successful set-up over one that was not released. -/
def find_step (s : Option Bool) (e : Event) : Option Bool :=
  match s, e with
  | some false, .find_init res => if res = 0 then some true else some false
  | some true, .find_init res => if res = 0 then none else some true
  | some true, .find_exit => some false
  | some false, .find_exit => none
  | s, _ => s

/-- State of the catalog search state after a trace. -/
def find_state (t : List Event) : Option Bool :=
  t.foldl find_step (some false)

/-! ## Facts about the catalog store -/

theorem cat_find_insert (cat : List (hfsplus_cat_key × hfsplus_cat_entry))
    (k k2 : hfsplus_cat_key) (e : hfsplus_cat_entry) :
    cat_find (cat_insert cat k e) k2 =
      match cat_find cat k2 with
      | some x => some x
      | none => if k = k2 then some e else none := by
  unfold cat_find cat_insert
  rw [List.find?_append]
  cases h : List.find? (fun p => decide (p.1 = k2)) cat with
  | some x => simp
  | none =>
    by_cases hk : k = k2
    · simp [hk]
    · simp [hk]

theorem cat_find_delete (cat : List (hfsplus_cat_key × hfsplus_cat_entry))
    (k k2 : hfsplus_cat_key) :
    cat_find (cat_delete cat k) k2 = if k = k2 then none else cat_find cat k2 := by
  unfold cat_find cat_delete
  rw [List.find?_filter]
  by_cases h : k = k2
  · subst h
    simp
  · simp only [h, if_false]
    have hh : ¬ k2 = k := fun e => h e.symm
    have hfun : (fun (a : hfsplus_cat_key × hfsplus_cat_entry) =>
        decide (decide (a.1 ≠ k) = true ∧ decide (a.1 = k2) = true))
        = (fun a => decide (a.1 = k2)) := by
      funext p
      by_cases h3 : p.1 = k2
      · simp [h3, hh]
      · simp [h3]
    rw [hfun]

theorem cat_find_insert_ne (cat : List (hfsplus_cat_key × hfsplus_cat_entry))
    (k k2 : hfsplus_cat_key) (e : hfsplus_cat_entry) (h : k ≠ k2) :
    cat_find (cat_insert cat k e) k2 = cat_find cat k2 := by
  rw [cat_find_insert]
  cases cat_find cat k2 <;> simp [h]

theorem cat_find_insert_self (cat : List (hfsplus_cat_key × hfsplus_cat_entry))
    (k : hfsplus_cat_key) (e : hfsplus_cat_entry) (h : cat_find cat k = none) :
    cat_find (cat_insert cat k e) k = some e := by
  rw [cat_find_insert, h]
  simp

theorem cat_find_insert_some (cat : List (hfsplus_cat_key × hfsplus_cat_entry))
    (k k2 : hfsplus_cat_key) (e x : hfsplus_cat_entry) (h : cat_find cat k2 = some x) :
    cat_find (cat_insert cat k e) k2 = some x := by
  rw [cat_find_insert, h]

theorem cat_find_delete_ne (cat : List (hfsplus_cat_key × hfsplus_cat_entry))
    (k k2 : hfsplus_cat_key) (h : k ≠ k2) :
    cat_find (cat_delete cat k) k2 = cat_find cat k2 := by
  rw [cat_find_delete]
  simp [h]

theorem cat_find_delete_self (cat : List (hfsplus_cat_key × hfsplus_cat_entry))
    (k : hfsplus_cat_key) : cat_find (cat_delete cat k) k = none := by
  rw [cat_find_delete]
  simp

/-! ## The promotion loop of `hfsplus_link` -/

/-- A run of the promotion loop that returns has made some renames that collided
(`-EEXIST`, catalog untouched) and then one rename with another result, under a link
id below `2^30`. -/
theorem link_promote_spec (env : Env) (fuel : Nat) (w : World) (inode src_dir : Inode)
    (name : String) (hidden : Inode) (res : Int) (id : Nat) (w2 : World)
    (h : link_promote env fuel w inode src_dir name hidden = .ok (res, id, w2)) :
    ∃ δ : List Event,
      (∀ e ∈ δ, ∃ d, e = Event.rename_cat inode.i_ino ⟨src_dir.i_ino, name⟩ d (-EEXIST)) ∧
      id < 2 ^ 30 ∧ res ≠ -EEXIST ∧
      res = rename_cat_res env { w with trace := w.trace ++ δ } ⟨src_dir.i_ino, name⟩
        ⟨hidden.i_ino, "iNode" ++ fmt_d id⟩ ∧
      w2 = { w with
        cat := if res = 0 then
            cat_moved w.cat ⟨src_dir.i_ino, name⟩ ⟨hidden.i_ino, "iNode" ++ fmt_d id⟩
          else w.cat
        trace := w.trace ++ δ ++ [Event.rename_cat inode.i_ino ⟨src_dir.i_ino, name⟩
          ⟨hidden.i_ino, "iNode" ++ fmt_d id⟩ res] } := by
  induction fuel generalizing w with
  | zero => simp [link_promote] at h
  | succ n ih =>
    have hlt : ∀ x : Nat, x &&& 0x3fffffff < 2 ^ 30 := by
      intro x
      have : x &&& 0x3fffffff ≤ 0x3fffffff := Nat.and_le_right
      omega
    simp only [link_promote] at h
    split at h
    · rename_i h0
      simp only [Except.ok.injEq, Prod.mk.injEq] at h
      obtain ⟨hr, hi, hw⟩ := h
      refine ⟨[], by simp, ?_, ?_, ?_, ?_⟩
      · rw [← hi]; exact hlt _
      · rw [← hr]; decide
      · rw [← hr, ← hi]
        simpa [hfsplus_rename_cat, hfsplus_cat_build_key] using h0.symm
      · rw [← hw, ← hi, ← hr]
        simp [hfsplus_rename_cat, hfsplus_cat_build_key] at h0 ⊢
        simp [h0]
    · rename_i h0
      split at h
      · rename_i h1
        simp only [Except.ok.injEq, Prod.mk.injEq] at h
        obtain ⟨hr, hi, hw⟩ := h
        refine ⟨[], by simp, ?_, ?_, ?_, ?_⟩
        · rw [← hi]; exact hlt _
        · rw [← hr]; exact h1
        · rw [← hr, ← hi]
          simp [hfsplus_rename_cat, hfsplus_cat_build_key]
        · rw [← hw, ← hi, ← hr]
          simp [hfsplus_rename_cat, hfsplus_cat_build_key] at h0 ⊢
      · rename_i h1
        have h1b : (hfsplus_rename_cat env w inode.i_ino src_dir name hidden
            ("iNode" ++ fmt_d ((env.get_random_bytes w.trace % U32) &&& 0x3fffffff))).1
            = -EEXIST := by
          by_contra hc
          exact h1 hc
        obtain ⟨δ, hd, hid, hres, hrr, hw⟩ := ih _ h
        have hne : (-EEXIST : Int) ≠ 0 := by decide
        simp only [hfsplus_rename_cat, hfsplus_cat_build_key] at h1b hrr hw
        simp only [h1b, hne, if_false] at hrr hw
        refine ⟨Event.rename_cat inode.i_ino ⟨src_dir.i_ino, name⟩ ⟨hidden.i_ino,
          "iNode" ++ fmt_d ((env.get_random_bytes w.trace % U32) &&& 0x3fffffff)⟩ (-EEXIST)
          :: δ, ?_, hid, hres, ?_, ?_⟩
        · intro e he
          rcases List.mem_cons.mp he with he | he
          · exact ⟨_, he⟩
          · exact hd e he
        · simpa using hrr
        · simpa using hw

/-! ## Successful runs of `hfsplus_link` -/

theorem S_ISREG_not_S_ISDIR (m : Nat) (h : S_ISREG m = true) : S_ISDIR m = false := by
  unfold S_ISREG at h
  unfold S_ISDIR
  simp only [beq_iff_eq] at h
  simp [h, S_IFREG, S_IFDIR]

theorem create_cat_res_zero (env : Env) (w : World) (key : hfsplus_cat_key)
    (h : create_cat_res env w key = 0) :
    env.cat_fault w.trace = 0 ∧ cat_find w.cat key = none := by
  unfold create_cat_res at h
  split at h
  · rename_i hf; exact absurd h hf
  · rename_i hf
    split at h
    · simp [EEXIST] at h
    · rename_i hs
      refine ⟨by simpa using hf, ?_⟩
      cases hc : cat_find w.cat key with
      | none => rfl
      | some x => simp [hc] at hs

/-- Lines 329-346 of `hfsplus_link`, when they end with result 0. -/
theorem link_tail_success (env : Env) (w : World) (inode : Inode) (src_dentry : Dentry)
    (dst_dir : Inode) (dst_dentry : Dentry)
    (hres : (link_tail env w inode src_dentry dst_dir dst_dentry).res = 0) :
    cat_find w.cat ⟨dst_dir.i_ino, dst_dentry.d_name⟩ = none ∧
    (link_tail env w inode src_dentry dst_dir dst_dentry).w.cat =
      cat_insert w.cat ⟨dst_dir.i_ino, dst_dentry.d_name⟩
        (hfsplus_cat_build_record w w.next_cnid inode) ∧
    (link_tail env w inode src_dentry dst_dir dst_dentry).w.next_cnid = u32_inc w.next_cnid ∧
    (link_tail env w inode src_dentry dst_dir dst_dentry).w.file_count
      = u32_inc w.file_count ∧
    (link_tail env w inode src_dentry dst_dir dst_dentry).w.hidden_dir = w.hidden_dir ∧
    (link_tail env w inode src_dentry dst_dir dst_dentry).w.root_create_date
      = w.root_create_date ∧
    (link_tail env w inode src_dentry dst_dir dst_dentry).inode =
      { inode with i_nlink := u32_inc inode.i_nlink, i_count := inode.i_count + 1,
                   i_ctime := env.current_time_sec (w.trace ++
                     [Event.create_cat w.next_cnid ⟨dst_dir.i_ino, dst_dentry.d_name⟩ 0]) } ∧
    (link_tail env w inode src_dentry dst_dir dst_dentry).src_dentry = src_dentry ∧
    (link_tail env w inode src_dentry dst_dir dst_dentry).dst_dentry =
      { dst_dentry with d_fsdata := w.next_cnid % U32, d_inode := some inode.i_ino } ∧
    (link_tail env w inode src_dentry dst_dir dst_dentry).w.trace = w.trace ++
      [Event.create_cat w.next_cnid ⟨dst_dir.i_ino, dst_dentry.d_name⟩ 0,
       Event.mark_inode_dirty inode.i_ino 0, Event.journal_stop "hfsplus_link",
       Event.mutex_unlock] := by
  unfold link_tail at hres ⊢
  simp only [hfsplus_create_cat, hfsplus_cat_build_key] at hres ⊢
  by_cases hc : create_cat_res env { w with next_cnid := u32_inc w.next_cnid }
      ⟨dst_dir.i_ino, dst_dentry.d_name⟩ = 0
  · obtain ⟨_, hnone⟩ := create_cat_res_zero _ _ _ hc
    simp only [hc, ne_eq, not_true_eq_false, if_false, if_true, link_out,
      hfsplus_journalled_mark_inode_dirty, hfsplus_journal_stop, mutex_unlock, World.log,
      inc_nlink, ihold, hfsplus_instantiate] at hres ⊢
    simp [hres, hnone, hfsplus_cat_build_record]
  · simp only [link_out, hc, ne_eq, not_false_eq_true, if_true] at hres

/-- A successful `hfsplus_link` on an object that is already indirected (the source
entry does not carry the object's own identifier). -/
theorem link_success_plain (env : Env) (fuel : Nat) (w : World) (src_dentry : Dentry)
    (inode src_dir dst_dir : Inode) (dst_dentry : Dentry) (out : LinkOut)
    (hind : inode.i_ino ≠ src_dentry.d_fsdata % U32)
    (hl : hfsplus_link env fuel w src_dentry inode src_dir dst_dir dst_dentry = .ok out)
    (hres : out.res = 0) :
    inode.rsrc = false ∧ S_ISREG inode.i_mode = true ∧
    cat_find w.cat ⟨dst_dir.i_ino, dst_dentry.d_name⟩ = none ∧
    out.w.cat = cat_insert w.cat ⟨dst_dir.i_ino, dst_dentry.d_name⟩
      (hfsplus_cat_build_record w w.next_cnid inode) ∧
    out.w.next_cnid = u32_inc w.next_cnid ∧
    out.w.file_count = u32_inc w.file_count ∧
    out.w.hidden_dir = w.hidden_dir ∧
    out.w.root_create_date = w.root_create_date ∧
    out.inode = { inode with i_nlink := u32_inc inode.i_nlink, i_count := inode.i_count + 1,
                             i_ctime := out.inode.i_ctime } ∧
    out.src_dentry = src_dentry ∧
    out.dst_dentry = { dst_dentry with d_fsdata := w.next_cnid % U32,
                                       d_inode := some inode.i_ino } ∧
    out.w.trace = w.trace ++ [Event.journal_start "hfsplus_link" 0, Event.mutex_lock,
      Event.create_cat w.next_cnid ⟨dst_dir.i_ino, dst_dentry.d_name⟩ 0,
      Event.mark_inode_dirty inode.i_ino 0, Event.journal_stop "hfsplus_link",
      Event.mutex_unlock] := by
  unfold hfsplus_link at hl
  split at hl
  · simp only [Except.ok.injEq] at hl; subst hl; simp [EPERM] at hres
  split at hl
  · simp only [Except.ok.injEq] at hl; subst hl; simp [EPERM] at hres
  rename_i hr hreg
  simp only [hfsplus_journal_start] at hl
  split at hl
  · rename_i hj
    simp only [Except.ok.injEq] at hl; subst hl; exact absurd hres hj
  rename_i hj
  simp only [link_locked, hind, if_false] at hl
  simp only [Except.ok.injEq] at hl
  subst hl
  have hj0 : env.journal_start w.trace = 0 := by simpa using hj
  obtain ⟨h1, h2, h3, h4, h5, h6, h7, h8, h9, h10⟩ := link_tail_success _ _ _ _ _ _ hres
  refine ⟨by simpa using hr, by simpa using hreg, h1, ?_, h3, h4, h5, h6, ?_, h8, h9, ?_⟩
  · rw [h2]; simp [hfsplus_cat_build_record, mutex_lock, World.log]
  · rw [h7]
  · rw [h10]; simp [hj0, mutex_lock, World.log]

theorem rename_cat_res_zero (env : Env) (w : World) (src dst : hfsplus_cat_key)
    (h : rename_cat_res env w src dst = 0) :
    env.cat_fault w.trace = 0 ∧ (∃ e, cat_find w.cat src = some e) ∧
      cat_find w.cat dst = none := by
  unfold rename_cat_res at h
  split at h
  · rename_i hf; exact absurd h hf
  · rename_i hf
    split at h
    · simp [ENOENT] at h
    · rename_i e hsrc
      split at h
      · simp [EEXIST] at h
      · rename_i hs
        refine ⟨by simpa using hf, ⟨e, hsrc⟩, ?_⟩
        cases hc : cat_find w.cat dst with
        | none => rfl
        | some x => simp [hc] at hs

/-- The promotion path of `hfsplus_link` (lines 303-346) when it ends with result 0:
after some colliding renames, the source record moves to `iNode<id>` in the hidden
directory, and the source and destination names are created under the next two
identifiers of the volume counter. -/
theorem link_promoted_success (env : Env) (fuel : Nat) (w : World) (src_dentry : Dentry)
    (inode src_dir dst_dir : Inode) (dst_dentry : Dentry) (out : LinkOut) (hidden : Inode)
    (hl : link_promoted env fuel w src_dentry inode src_dir dst_dir dst_dentry hidden
      = .ok out)
    (hres : out.res = 0) :
    ∃ (id : Nat) (δ : List Event) (e : hfsplus_cat_entry),
      id < 2 ^ 30 ∧
      (∀ ev ∈ δ, ∃ d,
        ev = Event.rename_cat inode.i_ino ⟨src_dir.i_ino, src_dentry.d_name⟩ d (-EEXIST)) ∧
      cat_find w.cat ⟨src_dir.i_ino, src_dentry.d_name⟩ = some e ∧
      cat_find w.cat ⟨hidden.i_ino, "iNode" ++ fmt_d id⟩ = none ∧
      cat_find (cat_insert (cat_delete w.cat ⟨src_dir.i_ino, src_dentry.d_name⟩)
        ⟨hidden.i_ino, "iNode" ++ fmt_d id⟩ e) ⟨src_dir.i_ino, src_dentry.d_name⟩ = none ∧
      cat_find (cat_insert (cat_insert (cat_delete w.cat ⟨src_dir.i_ino, src_dentry.d_name⟩)
          ⟨hidden.i_ino, "iNode" ++ fmt_d id⟩ e) ⟨src_dir.i_ino, src_dentry.d_name⟩
          (hfsplus_cat_build_record w w.next_cnid { inode with linkid := id }))
        ⟨dst_dir.i_ino, dst_dentry.d_name⟩ = none ∧
      out.w.cat =
        cat_insert (cat_insert (cat_insert (cat_delete w.cat ⟨src_dir.i_ino, src_dentry.d_name⟩)
          ⟨hidden.i_ino, "iNode" ++ fmt_d id⟩ e) ⟨src_dir.i_ino, src_dentry.d_name⟩
          (hfsplus_cat_build_record w w.next_cnid { inode with linkid := id }))
          ⟨dst_dir.i_ino, dst_dentry.d_name⟩
          (hfsplus_cat_build_record w (u32_inc w.next_cnid) { inode with linkid := id }) ∧
      out.w.next_cnid = u32_inc (u32_inc w.next_cnid) ∧
      out.w.file_count = u32_inc (u32_inc w.file_count) ∧
      out.w.hidden_dir = w.hidden_dir ∧
      out.w.root_create_date = w.root_create_date ∧
      out.inode = { inode with linkid := id, i_nlink := u32_inc inode.i_nlink,
                               i_count := inode.i_count + 1, i_ctime := out.inode.i_ctime } ∧
      out.src_dentry = { src_dentry with d_fsdata := w.next_cnid } ∧
      out.dst_dentry = { dst_dentry with d_fsdata := u32_inc w.next_cnid % U32,
                                         d_inode := some inode.i_ino } ∧
      out.w.trace = w.trace ++ δ ++
        [Event.rename_cat inode.i_ino ⟨src_dir.i_ino, src_dentry.d_name⟩
           ⟨hidden.i_ino, "iNode" ++ fmt_d id⟩ 0,
         Event.create_cat w.next_cnid ⟨src_dir.i_ino, src_dentry.d_name⟩ 0,
         Event.create_cat (u32_inc w.next_cnid) ⟨dst_dir.i_ino, dst_dentry.d_name⟩ 0,
         Event.mark_inode_dirty inode.i_ino 0, Event.journal_stop "hfsplus_link",
         Event.mutex_unlock] := by
  unfold link_promoted at hl
  cases hp : link_promote env fuel w inode src_dir src_dentry.d_name hidden with
  | error x => simp [hp] at hl
  | ok v =>
    obtain ⟨res, id, w2⟩ := v
    obtain ⟨δ, hδ, hid, hne, hrr, hw2⟩ := link_promote_spec _ _ _ _ _ _ _ _ _ _ hp
    simp only [hp] at hl
    split at hl
    · rename_i hr0
      simp only [Except.ok.injEq] at hl; subst hl
      exact absurd hres hr0
    rename_i hr0
    have hres0 : res = 0 := by simpa using hr0
    subst hres0
    obtain ⟨_, ⟨e, he⟩, hnode⟩ := rename_cat_res_zero _ _ _ _ hrr.symm
    simp only at he hnode
    simp only [if_true, cat_moved, he] at hw2
    subst hw2
    split at hl
    · rename_i hc
      simp only [Except.ok.injEq] at hl; subst hl
      exact absurd hres hc
    rename_i hc
    simp only [Except.ok.injEq] at hl
    subst hl
    have hc0 := create_cat_res_zero _ _ _ (by simpa [hfsplus_create_cat] using hc)
    simp only [hfsplus_cat_build_key] at hc0
    obtain ⟨h1, h2, h3, h4, h5, h6, h7, h8, h9, h10⟩ := link_tail_success _ _ _ _ _ _ hres
    have hc1 := hc
    simp [hfsplus_create_cat, hfsplus_cat_build_key] at hc1
    refine ⟨id, δ, e, hid, hδ, he, hnode, hc0.2, ?_, ?_, ?_, ?_, ?_, ?_, ?_, ?_, ?_, ?_⟩
    · simpa [hfsplus_create_cat, hfsplus_cat_build_key, hc1, hfsplus_cat_build_record]
        using h1
    · rw [h2]
      simp [hfsplus_create_cat, hfsplus_cat_build_key, hc1, hfsplus_cat_build_record]
    · rw [h3]; simp [hfsplus_create_cat]
    · rw [h4]; simp [hfsplus_create_cat]
    · rw [h5]; simp [hfsplus_create_cat]
    · rw [h6]; simp [hfsplus_create_cat]
    · rw [h7]
    · rw [h8]
    · rw [h9]; simp [hfsplus_create_cat]
    · rw [h10]; simp [hfsplus_create_cat, hfsplus_cat_build_key, hc1]

/-- A successful `hfsplus_link` on an object that is not yet indirected (the source
entry carries the object's own identifier). -/
theorem link_success_promoted (env : Env) (fuel : Nat) (w : World) (src_dentry : Dentry)
    (inode src_dir dst_dir : Inode) (dst_dentry : Dentry) (out : LinkOut) (hidden : Inode)
    (hprom : inode.i_ino = src_dentry.d_fsdata % U32) (hh : w.hidden_dir = some hidden)
    (hl : hfsplus_link env fuel w src_dentry inode src_dir dst_dir dst_dentry = .ok out)
    (hres : out.res = 0) :
    inode.rsrc = false ∧ S_ISREG inode.i_mode = true ∧ env.journal_start w.trace = 0 ∧
    link_promoted env fuel
      { w with trace := w.trace ++ [Event.journal_start "hfsplus_link" 0, Event.mutex_lock] }
      src_dentry inode src_dir dst_dir dst_dentry hidden = .ok out := by
  unfold hfsplus_link at hl
  split at hl
  · simp only [Except.ok.injEq] at hl; subst hl; simp [EPERM] at hres
  split at hl
  · simp only [Except.ok.injEq] at hl; subst hl; simp [EPERM] at hres
  rename_i hr hreg
  simp only [hfsplus_journal_start] at hl
  split at hl
  · rename_i hj
    simp only [Except.ok.injEq] at hl; subst hl; exact absurd hres hj
  rename_i hj
  have hj0 : env.journal_start w.trace = 0 := by simpa using hj
  refine ⟨by simpa using hr, by simpa using hreg, hj0, ?_⟩
  rw [← hl]
  simp [link_locked, hprom, mutex_lock, World.log, hh, hj0]

/-- A run of lines 494-514 of `hfsplus_mknod` that returns 0 with an object attached. -/
theorem mknod_locked_success (env : Env) (w : World) (dir : Inode) (dentry : Dentry)
    (mode : Nat) (res : Int) (inode : Inode)
    (hi : (mknod_locked env w dir dentry mode res).inode = some inode) :
    inode.i_ino = w.next_cnid ∧ inode.i_mode = mode ∧
    cat_find w.cat ⟨dir.i_ino, dentry.d_name⟩ = none ∧
    (mknod_locked env w dir dentry mode res).w.cat =
      cat_insert w.cat ⟨dir.i_ino, dentry.d_name⟩
        (hfsplus_cat_build_record w inode.i_ino inode) ∧
    (mknod_locked env w dir dentry mode res).w.next_cnid = u32_inc w.next_cnid ∧
    (mknod_locked env w dir dentry mode res).w.file_count = w.file_count ∧
    (mknod_locked env w dir dentry mode res).w.hidden_dir = w.hidden_dir ∧
    (mknod_locked env w dir dentry mode res).w.root_create_date = w.root_create_date ∧
    (mknod_locked env w dir dentry mode res).dentry =
      { dentry with d_fsdata := w.next_cnid % U32, d_inode := some w.next_cnid } := by
  unfold mknod_locked at hi ⊢
  simp only [hfsplus_new_inode] at hi ⊢
  cases hn : env.new_inode w.trace mode with
  | none => simp [hn, mknod_out] at hi
  | some i0 =>
    simp only [hn] at hi ⊢
    by_cases hs : S_ISBLK mode = true ∨ S_ISCHR mode = true ∨ S_ISFIFO mode = true ∨
        S_ISSOCK mode = true
    all_goals
      simp only [hs, if_true, if_false, World.log] at hi ⊢
      split at hi
      · simp [mknod_out] at hi
      rename_i hc
      have hc1 := hc
      simp [hfsplus_create_cat, hfsplus_cat_build_key] at hc1
      obtain ⟨_, hnone⟩ := create_cat_res_zero _ _ _ hc1
      simp only [mknod_out, Option.some.injEq] at hi
      subst hi
      simp only [hc, if_false]
      simp [mknod_out, hfsplus_journalled_mark_inode_dirty, hfsplus_journal_stop,
        mutex_unlock, World.log, hfsplus_create_cat, hc1, hfsplus_instantiate,
        hfsplus_cat_build_key, hfsplus_cat_build_record, hnone]

/-- A run of `hfsplus_mknod` that returns 0 with an object attached. -/
theorem mknod_success (env : Env) (w : World) (dir : Inode) (dentry : Dentry) (mode : Nat)
    (inode : Inode)
    (hi : (hfsplus_mknod env w dir dentry mode).inode = some inode) :
    inode.i_ino = w.next_cnid ∧ inode.i_mode = mode ∧
    cat_find w.cat ⟨dir.i_ino, dentry.d_name⟩ = none ∧
    (hfsplus_mknod env w dir dentry mode).w.cat =
      cat_insert w.cat ⟨dir.i_ino, dentry.d_name⟩
        (hfsplus_cat_build_record w inode.i_ino inode) ∧
    (hfsplus_mknod env w dir dentry mode).w.next_cnid = u32_inc w.next_cnid ∧
    (hfsplus_mknod env w dir dentry mode).w.file_count = w.file_count ∧
    (hfsplus_mknod env w dir dentry mode).w.hidden_dir = w.hidden_dir ∧
    (hfsplus_mknod env w dir dentry mode).w.root_create_date = w.root_create_date ∧
    (hfsplus_mknod env w dir dentry mode).dentry =
      { dentry with d_fsdata := w.next_cnid % U32, d_inode := some w.next_cnid } := by
  unfold hfsplus_mknod at hi ⊢
  simp only [hfsplus_journal_start] at hi ⊢
  split at hi
  · simp at hi
  rename_i hj
  simp only [hj, if_false]
  have h := mknod_locked_success _ _ _ _ _ _ _ hi
  simpa [mutex_lock, World.log, hfsplus_cat_build_record] using h

/-! ## Theorems -/
/-! ## Theorems -/

theorem reads_lookup_fail (w : World) (dir : Inode) (dentry : Dentry) (err : Int) :
    reads (lookup_fail w dir dentry err).w.trace = reads w.trace := by
  simp [lookup_fail, hfs_find_exit, hfsplus_journal_stop, World.log, reads]

theorem reads_lookup_out (w : World) (dir : Inode) (dentry : Dentry) (inode : Option Inode) :
    reads (lookup_out w dir dentry inode).w.trace = reads w.trace := by
  simp [lookup_out, d_add, hfsplus_journal_stop, World.log, reads]

theorem reads_lookup_found (env : Env) (w : World) (dir : Inode) (dentry : Dentry)
    (cnid linkid : Nat) :
    reads (lookup_found env w dir dentry cnid linkid).w.trace = reads w.trace := by
  unfold lookup_found
  simp only [hfsplus_iget, hfs_find_exit, World.log]
  cases env.iget (w.trace ++ [Event.find_exit]) cnid with
  | error e => simp [reads]
  | ok i =>
    simp only [reads_lookup_out]
    simp [reads]

theorem reads_log_read (w : World) (key : hfsplus_cat_key) (res : Int) :
    reads (w.log (Event.brec_read key res)).trace = reads w.trace + 1 := by
  simp [World.log, reads]

/-- Once `d_fsdata` is set, the loop of `hfsplus_lookup` reads one record and returns. -/
theorem lookup_again_flagged (env : Env) (fuel : Nat) (w : World) (dir : Inode)
    (dentry : Dentry) (key : hfsplus_cat_key) (linkid : Nat) (r : LookupOut)
    (hflag : dentry.d_fsdata ≠ 0)
    (h : lookup_again env fuel w dir dentry key linkid = .ok r) :
    reads r.w.trace = reads w.trace + 1 := by
  cases fuel with
  | zero => simp [lookup_again] at h
  | succ n =>
    unfold lookup_again at h
    simp only [hfs_brec_read] at h
    by_cases hf : env.cat_fault w.trace ≠ 0
    · rw [if_pos hf] at h
      simp only at h
      split at h
      all_goals
        simp only [Except.ok.injEq] at h
        subst h
        simp only [reads_lookup_out, reads_lookup_fail, hfs_find_exit]
        simp [World.log, reads]
    · rw [if_neg hf] at h
      cases hc : cat_find w.cat key with
      | none =>
        simp only [hc, if_true, Except.ok.injEq] at h
        subst h
        simp only [reads_lookup_out, hfs_find_exit]
        simp [World.log, reads]
      | some e =>
        simp only [hc, hflag, ne_eq, not_false_eq_true, if_true, if_false] at h
        repeat' split at h
        all_goals first
          | (simp only [Except.ok.injEq] at h
             subst h
             simp only [reads_lookup_found, reads_lookup_fail, reads_log_read])
          | simp at h

/-- When no catalog record carries the object identifier 0, a `hfsplus_lookup` that
returns has made at most two record reads. -/
theorem lookup_reads_le_two (env : Env) (fuel : Nat) (w : World) (dir : Inode)
    (dentry : Dentry) (r : LookupOut)
    (hids : ∀ k e, cat_find w.cat k = some e → e.id ≠ 0)
    (h : hfsplus_lookup env fuel w dir dentry = .ok r) :
    reads r.w.trace ≤ reads w.trace + 2 := by
  unfold hfsplus_lookup at h
  simp only [hfsplus_journal_start, hfs_find_init] at h
  split at h
  · simp only [Except.ok.injEq] at h; subst h; simp [World.log, reads]
  split at h
  · simp only [Except.ok.injEq] at h; subst h; simp [World.log, reads]
  generalize hw1 : ((w.log (Event.journal_start "hfsplus_lookup" (env.journal_start w.trace))).log
    (Event.find_init (env.find_init (w.log (Event.journal_start "hfsplus_lookup"
      (env.journal_start w.trace))).trace))) = w1 at h
  have hr1 : reads w1.trace = reads w.trace := by
    rw [← hw1]; simp [World.log, reads]
  have hc1 : w1.cat = w.cat := by rw [← hw1]; rfl
  generalize (if dir.i_ino = 19 then { dir with i_mode := dir.i_mode ||| S_ISVTX } else dir)
    = dir1 at h
  generalize hfsplus_cat_build_key dir.i_ino dentry.d_name = key at h
  rw [← hr1]
  cases fuel with
  | zero => simp [lookup_again] at h
  | succ n =>
    unfold lookup_again at h
    simp only [hfs_brec_read] at h
    by_cases hf : env.cat_fault w1.trace ≠ 0
    · rw [if_pos hf] at h
      simp only at h
      split at h
      all_goals
        simp only [Except.ok.injEq] at h
        subst h
        simp only [reads_lookup_out, reads_lookup_fail, hfs_find_exit]
        simp [World.log, reads]
    · rw [if_neg hf] at h
      cases hc : cat_find w1.cat key with
      | none =>
        simp only [hc, if_true, Except.ok.injEq] at h
        subst h
        simp only [reads_lookup_out, hfs_find_exit]
        simp [World.log, reads]
      | some e =>
        have hid : e.id ≠ 0 := hids key e (by rw [← hc1]; exact hc)
        simp only [hc] at h
        repeat' split at h
        all_goals first
          | (simp only [Except.ok.injEq] at h
             subst h
             simp only [reads_lookup_found, reads_lookup_fail, reads_log_read]
             omega)
          | (have h2 := lookup_again_flagged _ _ _ _ _ _ _ _ hid h
             rw [h2, reads_log_read])
          | simp at h

/-- C1 (evaluation at the failing input): on a volume where the entry `a` is a pointer
record with file id 0 and its target `iNode7` is again a pointer record with file id 0,
`hfsplus_lookup` follows two pointer hops: it returns after three catalog record reads,
having resolved the name to the object of the third record. -/
theorem lookup_chain_three_reads :
    (hfsplus_lookup env_ok 3 (world_of cat_chain) root2 dentry_a).map
        (fun r => (reads r.w.trace, r.ret, r.inode.map (fun i => (i.i_ino, i.linkid))))
      = .ok (3, .null, some (30, 8)) := by
  rfl

/-- On the volume `cat_cycle` the loop of `hfsplus_lookup` never leaves the label
`again:`: whatever the fuel, it is used up. -/
theorem lookup_again_cycle (fuel : Nat) (t : List Event) (dir : Inode) :
    lookup_again env_ok fuel { world_of cat_cycle with trace := t } dir ⟨"a", 0, none⟩
      ⟨19, "iNode7"⟩ 7 = .error .out_of_fuel := by
  induction fuel generalizing t with
  | zero => rfl
  | succ n ih =>
    have h := ih (t ++ [Event.brec_read ⟨19, "iNode7"⟩ 0])
    have hf : cat_find cat_cycle ⟨19, "iNode7"⟩ = some (ptr_rec 0 7) := by decide
    have hk : hfsplus_cat_build_key 19 ("iNode" ++ fmt_d 7) = ⟨19, "iNode7"⟩ := by decide
    simp only [lookup_again, hfs_brec_read, env_ok, world_of, World.log, hf]
    simp only [world_of, env_ok] at h
    simpa [ptr_rec, HFSPLUS_FILE, HFSPLUS_FOLDER, SIZEOF_CAT_FILE, hidden19, hk] using h

/-- On the volume `cat_cycle` (the entry `a` is a pointer with file id 0 to `iNode7`,
itself a pointer with file id 0 to `iNode7`) `hfsplus_lookup` does not return. -/
theorem lookup_cycle_never_returns (fuel : Nat) :
    hfsplus_lookup env_ok fuel (world_of cat_cycle) root2 dentry_a = .error .out_of_fuel := by
  cases fuel with
  | zero => rfl
  | succ n =>
    have h := lookup_again_cycle n
      [Event.journal_start "hfsplus_lookup" 0, Event.find_init 0, Event.brec_read ⟨2, "a"⟩ 0]
      root2
    have hf : cat_find cat_cycle ⟨2, "a"⟩ = some (ptr_rec 0 7) := by decide
    have hk : hfsplus_cat_build_key 19 ("iNode" ++ fmt_d 7) = ⟨19, "iNode7"⟩ := by decide
    simp only [hfsplus_lookup, hfsplus_journal_start, hfs_find_init, lookup_again,
      hfs_brec_read, env_ok, world_of, World.log, hfsplus_cat_build_key, root2, dentry_a, hf]
    simp only [world_of, env_ok, root2] at h
    simpa [ptr_rec, HFSPLUS_FILE, HFSPLUS_FOLDER, SIZEOF_CAT_FILE, hidden19, hk,
      hfsplus_cat_build_key] using h

/-- C2 (counterexample): on a volume where `a` is a pointer record with file id 10 and
its target `iNode7` is a pointer record with file id 20, `hfsplus_lookup` resolves `a`
to the object 10 of the first record, not to the object 20 stored in the second. -/
theorem lookup_two_ptr_resolves_first :
    cat_find cat_two_ptr ⟨2, "a"⟩ = some (ptr_rec 10 7) ∧
    cat_find cat_two_ptr ⟨19, "iNode7"⟩ = some (ptr_rec 20 8) ∧
    (hfsplus_lookup env_ok 2 (world_of cat_two_ptr) root2 dentry_a).map
        (fun r => (iget_cnids r.w.trace, r.dentry.d_fsdata,
          r.inode.map (fun i => (i.i_ino, i.linkid))))
      = .ok ([10], 10, some (10, 0)) := by
  refine ⟨by decide, by decide, ?_⟩
  rfl

/-- C2 (amended): when the record at (parent, name) is a hard-link pointer with a
non-zero file id and the record at (hidden directory, iNode<link_id>) is itself a
hard-link pointer, `hfsplus_lookup` returns after exactly two record reads, resolves
the name to the object identifier of the first record and, when that object is a
regular file, gives it link id 0. -/
theorem lookup_ptr_to_ptr (env : Env) (n : Nat) (w : World) (dir : Inode) (dentry : Dentry)
    (hidden : Inode) (e1 e2 : hfsplus_cat_entry)
    (hjs : ∀ t, env.journal_start t = 0) (hfi : ∀ t, env.find_init t = 0)
    (hcf : ∀ t, env.cat_fault t = 0)
    (hh : w.hidden_dir = some hidden)
    (h1 : cat_find w.cat ⟨dir.i_ino, dentry.d_name⟩ = some e1)
    (p1 : is_hardlink_ptr w hidden e1) (hid : e1.id ≠ 0)
    (h2 : cat_find w.cat ⟨hidden.i_ino, "iNode" ++ fmt_d e1.dev⟩ = some e2)
    (p2 : is_hardlink_ptr w hidden e2) :
    ∃ r, hfsplus_lookup env (n + 2) w dir dentry = .ok r ∧
      reads r.w.trace = reads w.trace + 2 ∧
      iget_cnids r.w.trace = iget_cnids w.trace ++ [e1.id] ∧
      r.dentry.d_fsdata = e1.id ∧
      (∀ i, r.inode = some i → S_ISREG i.i_mode = true → i.linkid = 0) := by
  obtain ⟨t1, l1, s1, c1, d1⟩ := p1
  obtain ⟨t2, l2, s2, c2, d2⟩ := p2
  have nf : HFSPLUS_FILE ≠ HFSPLUS_FOLDER := by decide
  simp [hfsplus_lookup, hfsplus_journal_start, hfs_find_init, lookup_again,
    hfs_brec_read, World.log, hfsplus_cat_build_key, hjs, hfi, hcf, h1, h2, hh, t1, t2,
    l1, l2, s1, s2, c1, c2, d1, d2, nf, hid, lookup_found, hfs_find_exit, hfsplus_iget]
  generalize env.iget _ e1.id = ig
  cases ig with
  | error e => simp [reads, iget_cnids, List.filterMap_append]
  | ok a =>
    simp only [lookup_out, d_add, hfsplus_journal_stop, World.log]
    refine ⟨by simp [reads], by simp [iget_cnids, List.filterMap_append], trivial, ?_⟩
    intro i hi hreg
    simp only [Option.some.injEq] at hi
    subst hi
    split at hreg <;> simp_all

theorem lookup_ptr_to_ptr_witness :
    ∃ r, hfsplus_lookup env_ok (0 + 2) (world_of cat_two_ptr) root2 dentry_a = .ok r ∧
      reads r.w.trace = reads (world_of cat_two_ptr).trace + 2 ∧
      iget_cnids r.w.trace = iget_cnids (world_of cat_two_ptr).trace ++ [(ptr_rec 10 7).id] ∧
      r.dentry.d_fsdata = (ptr_rec 10 7).id ∧
      (∀ i, r.inode = some i → S_ISREG i.i_mode = true → i.linkid = 0) :=
  lookup_ptr_to_ptr env_ok 0 (world_of cat_two_ptr) root2 dentry_a hidden19
    (ptr_rec 10 7) (ptr_rec 20 8) (fun _ => rfl) (fun _ => rfl) (fun _ => rfl) rfl
    (by decide) (by unfold is_hardlink_ptr; decide) (by decide) (by decide)
    (by unfold is_hardlink_ptr; decide)

theorem build_record_link (w : World) (hidden : Inode) (cnid : Nat) (inode : Inode)
    (hh : w.hidden_dir = some hidden) (hnd : S_ISDIR inode.i_mode = false)
    (hne : cnid ≠ inode.i_ino) :
    hfsplus_cat_build_record w cnid inode = link_rec hidden cnid inode.linkid := by
  simp [hfsplus_cat_build_record, hnd, hne, hh, link_rec]

theorem u32_inc_ne (n : Nat) : u32_inc n ≠ n := by
  unfold u32_inc U32
  omega

theorem u32_inc_inc_ne (n : Nat) : u32_inc (u32_inc n) ≠ n := by
  unfold u32_inc U32
  omega

theorem u32_inc_ne_self (n : Nat) : u32_inc n ≠ u32_inc (u32_inc n) := by
  unfold u32_inc U32
  omega

theorem renames_ok_collisions (δ : List Event) (c : Nat) (k : hfsplus_cat_key)
    (h : ∀ ev ∈ δ, ∃ d, ev = Event.rename_cat c k d (-EEXIST)) : renames_ok δ = 0 := by
  unfold renames_ok
  rw [List.countP_eq_zero]
  intro ev hev
  obtain ⟨d, hd⟩ := h ev hev
  subst hd
  simp [EEXIST]

/-- C3: after `hfsplus_create` of the file `a` in `dir` (not the hidden directory) has
allocated an object with link count 1, a successful `hfsplus_link` of that entry to `b`
in `dir` leaves the link count at 2; the hidden directory has gained exactly the
record `iNode<id>`, which is the object's original record, moved there by the one
successful rename, with `id` recorded as the object's link id; and `a` and `b` are
pointer records for that object under the next two identifiers of the volume counter,
distinct from each other and from the object's own. -/
theorem create_then_link (env : Env) (fuel : Nat) (w : World) (dir hidden : Inode)
    (a b : Dentry) (mode : Nat) (inode : Inode) (out : LinkOut)
    (hh : w.hidden_dir = some hidden) (hdir : dir.i_ino ≠ hidden.i_ino)
    (hnc : w.next_cnid < U32)
    (hi : (hfsplus_create env w dir a mode).inode = some inode)
    (hn : inode.i_nlink = 1)
    (hl : hfsplus_link env fuel (hfsplus_create env w dir a mode).w
      (hfsplus_create env w dir a mode).dentry inode dir dir b = .ok out)
    (hres : out.res = 0) :
    out.inode.i_nlink = 2 ∧
    (∃ id e, id < 2 ^ 30 ∧ out.inode.linkid = id ∧ e.id = inode.i_ino ∧
      cat_find (hfsplus_create env w dir a mode).w.cat ⟨dir.i_ino, a.d_name⟩ = some e ∧
      cat_find (hfsplus_create env w dir a mode).w.cat ⟨hidden.i_ino, "iNode" ++ fmt_d id⟩
        = none ∧
      cat_find out.w.cat ⟨hidden.i_ino, "iNode" ++ fmt_d id⟩ = some e ∧
      (∀ name, name ≠ "iNode" ++ fmt_d id →
        cat_find out.w.cat ⟨hidden.i_ino, name⟩ =
          cat_find (hfsplus_create env w dir a mode).w.cat ⟨hidden.i_ino, name⟩) ∧
      cat_find out.w.cat ⟨dir.i_ino, a.d_name⟩ =
        some (link_rec hidden (u32_inc w.next_cnid) id) ∧
      cat_find out.w.cat ⟨dir.i_ino, b.d_name⟩ =
        some (link_rec hidden (u32_inc (u32_inc w.next_cnid)) id)) ∧
    renames_ok out.w.trace = renames_ok (hfsplus_create env w dir a mode).w.trace + 1 ∧
    out.src_dentry.d_fsdata = u32_inc w.next_cnid ∧
    out.dst_dentry.d_fsdata = u32_inc (u32_inc w.next_cnid) ∧
    u32_inc w.next_cnid ≠ u32_inc (u32_inc w.next_cnid) ∧
    u32_inc w.next_cnid ≠ inode.i_ino ∧ u32_inc (u32_inc w.next_cnid) ≠ inode.i_ino ∧
    out.src_dentry.d_inode = some inode.i_ino ∧ out.dst_dentry.d_inode = some inode.i_ino := by
  unfold hfsplus_create at hi hl ⊢
  obtain ⟨m1, m2, m3, m4, m5, m6, m7, m8, m9⟩ := mknod_success env w dir a mode inode hi
  generalize hfsplus_mknod env w dir a mode = c at *
  have hmod : w.next_cnid % U32 = w.next_cnid := Nat.mod_eq_of_lt hnc
  have hprom : inode.i_ino = c.dentry.d_fsdata % U32 := by
    rw [m9]; simp [m1, hmod]
  have hh1 : c.w.hidden_dir = some hidden := by rw [m7, hh]
  obtain ⟨hrs, hreg, _, hlp⟩ := link_success_promoted env fuel c.w c.dentry inode dir dir b out
    hidden hprom hh1 hl hres
  generalize hw1 : ({ c.w with trace := c.w.trace ++
    [Event.journal_start "hfsplus_link" 0, Event.mutex_lock] } : World) = w1 at hlp
  have e1 : w1.cat = c.w.cat := by rw [← hw1]
  have e2 : w1.next_cnid = u32_inc w.next_cnid := by rw [← hw1]; exact m5
  have e3 : w1.hidden_dir = some hidden := by rw [← hw1]; exact hh1
  have e4 : w1.trace = c.w.trace ++ [Event.journal_start "hfsplus_link" 0, Event.mutex_lock] := by
    rw [← hw1]
  obtain ⟨id, δ, e, hid, hδ, he, hnode, hsrc, hdst, hcat, hnx, hfc, hhd, hrd, hino, hsd, hdd,
    htr⟩ := link_promoted_success _ _ _ _ _ _ _ _ _ _ hlp hres
  have hndir : S_ISDIR inode.i_mode = false := S_ISREG_not_S_ISDIR _ hreg
  have hc1 : u32_inc w.next_cnid ≠ inode.i_ino := by rw [m1]; exact u32_inc_ne _
  have hc2 : u32_inc (u32_inc w.next_cnid) ≠ inode.i_ino := by
    rw [m1]; exact u32_inc_inc_ne _
  rw [e2, build_record_link w1 hidden _ { inode with linkid := id } e3 hndir hc1] at hdst hcat
  rw [build_record_link w1 hidden _ { inode with linkid := id } e3 hndir hc2] at hcat
  simp only [m9, e1, e2, e4] at he hnode hsrc hdst hcat hsd hdd htr hδ
  have hk1 : (⟨dir.i_ino, a.d_name⟩ : hfsplus_cat_key) ≠ ⟨hidden.i_ino, "iNode" ++ fmt_d id⟩ := by
    intro hk; injection hk with hk1 _; exact hdir hk1
  have hmid : u32_inc (u32_inc w.next_cnid) % U32 = u32_inc (u32_inc w.next_cnid) := by
    unfold u32_inc U32; omega
  refine ⟨?_, ⟨id, e, hid, ?_, ?_, he, hnode, ?_, ?_, ?_, ?_⟩, ?_, ?_, ?_, u32_inc_ne_self _,
    hc1, hc2, ?_, ?_⟩
  · rw [hino]; simp [hn, u32_inc, U32]
  · rw [hino]
  · rw [m4, cat_find_insert_self _ _ _ m3] at he
    simp only [Option.some.injEq] at he
    rw [← he]
    simp [hfsplus_cat_build_record, hndir]
  · rw [hcat]
    apply cat_find_insert_some
    apply cat_find_insert_some
    apply cat_find_insert_self
    rw [cat_find_delete_ne _ _ _ hk1]
    exact hnode
  · intro name hname
    have hkn : (⟨hidden.i_ino, "iNode" ++ fmt_d id⟩ : hfsplus_cat_key) ≠ ⟨hidden.i_ino, name⟩ := by
      intro hk; injection hk with _ hk2; exact hname hk2.symm
    have hka : (⟨dir.i_ino, a.d_name⟩ : hfsplus_cat_key) ≠ ⟨hidden.i_ino, name⟩ := by
      intro hk; injection hk with hk1 _; exact hdir hk1
    have hkb : (⟨dir.i_ino, b.d_name⟩ : hfsplus_cat_key) ≠ ⟨hidden.i_ino, name⟩ := by
      intro hk; injection hk with hk1 _; exact hdir hk1
    rw [hcat, cat_find_insert_ne _ _ _ _ hkb, cat_find_insert_ne _ _ _ _ hka,
      cat_find_insert_ne _ _ _ _ hkn, cat_find_delete_ne _ _ _ hka]
  · rw [hcat]
    apply cat_find_insert_some
    exact cat_find_insert_self _ _ _ hsrc
  · rw [hcat]
    exact cat_find_insert_self _ _ _ hdst
  · rw [htr]
    have hz := renames_ok_collisions δ _ _ hδ
    unfold renames_ok at hz ⊢
    simp [List.countP_append, hz, List.countP_cons]
  · rw [hsd]
  · rw [hdd]; simp [hmid]
  · rw [hsd]; simp [m1]
  · rw [hdd]

theorem create_then_link_witness :
    (returned (hfsplus_link env_alloc 1
        (hfsplus_create env_alloc (world_of []) root2 dentry_a (S_IFREG ||| 0o644)).w
        (hfsplus_create env_alloc (world_of []) root2 dentry_a (S_IFREG ||| 0o644)).dentry
        inode_1000 root2 root2 dentry_b) ⟨0, world_of [], inode_1000, dentry_a, dentry_b⟩
      ).inode.i_nlink = 2 :=
  (create_then_link env_alloc 1 (world_of []) root2 hidden19 dentry_a dentry_b
    (S_IFREG ||| 0o644) inode_1000 _ rfl (by decide) (by decide) (by rfl) rfl (by rfl)
    (by rfl)).1

theorem cat_find_obj_delete (cat : List (hfsplus_cat_key × hfsplus_cat_entry))
    (k : hfsplus_cat_key) (d c : Nat) (h : k.parent ≠ d) :
    cat_find_obj (cat_delete cat k) d c = cat_find_obj cat d c := by
  unfold cat_find_obj cat_delete
  rw [List.find?_filter]
  have hfun : (fun (a : hfsplus_cat_key × hfsplus_cat_entry) =>
      decide (decide (a.1 ≠ k) = true ∧ decide (a.1.parent = d ∧ a.2.id = c) = true))
      = (fun a => decide (a.1.parent = d ∧ a.2.id = c)) := by
    funext p
    by_cases hp : p.1.parent = d
    · have : p.1 ≠ k := by
        intro hk; rw [hk] at hp; exact h hp
      simp [hp, this]
    · simp [hp]
  rw [hfun]

/-- C4: for a file with link count 2 reachable through the two pointer entries `a` and
`b` of `dir`, whose indirection node is the record `kn` of the hidden directory (no
collaborator failing): `hfsplus_unlink` of `a` issues the single catalog delete of
`a`, leaves the link count at 1 and the node in place; the following `hfsplus_unlink`
of `b` brings the link count to 0 and, with no open handle, deletes the node by the
object's own OID in the hidden directory and then the in-core object; with open handles
it deletes neither and sets `S_DEAD`. -/
theorem unlink_two_pointers (env : Env) (w : World) (dir hidden : Inode) (a b : Dentry)
    (inode : Inode) (kn : hfsplus_cat_key)
    (hjs : ∀ t, env.journal_start t = 0) (hcf : ∀ t, env.cat_fault t = 0)
    (hh : w.hidden_dir = some hidden) (hdir : dir.i_ino ≠ hidden.i_ino)
    (hrs : inode.rsrc = false) (hnl : inode.i_nlink = 2)
    (hpa : inode.i_ino ≠ a.d_fsdata % U32) (hpb : inode.i_ino ≠ b.d_fsdata % U32)
    (hab : a.d_name ≠ b.d_name)
    (ha : (cat_find w.cat ⟨dir.i_ino, a.d_name⟩).isSome = true)
    (hb : (cat_find w.cat ⟨dir.i_ino, b.d_name⟩).isSome = true)
    (hnode : cat_find_obj w.cat hidden.i_ino inode.i_ino = some kn) :
    ∃ u1 r1, hfsplus_unlink env w dir a inode = .ok u1 ∧
      u1.w.cat = cat_delete w.cat ⟨dir.i_ino, a.d_name⟩ ∧
      u1.inode.i_nlink = 1 ∧ u1.inode.i_flags = inode.i_flags ∧
      cat_find_obj u1.w.cat hidden.i_ino inode.i_ino = some kn ∧
      u1.w.trace = w.trace ++ [Event.journal_start "hfsplus_unlink" 0, Event.mutex_lock,
        Event.delete_cat (a.d_fsdata % U32) dir.i_ino (some a.d_name) 0,
        Event.mark_inode_dirty inode.i_ino r1, Event.journal_stop "hfsplus_unlink",
        Event.mutex_unlock] ∧
      ∃ u2 r2, hfsplus_unlink env u1.w dir b u1.inode = .ok u2 ∧ u2.inode.i_nlink = 0 ∧
        (inode.opencnt = 0 →
          cat_find u2.w.cat kn = none ∧
          u2.w.cat = cat_delete (cat_delete (cat_delete w.cat ⟨dir.i_ino, a.d_name⟩)
            ⟨dir.i_ino, b.d_name⟩) kn ∧
          u2.w.trace = u1.w.trace ++ [Event.journal_start "hfsplus_unlink" 0,
            Event.mutex_lock,
            Event.delete_cat (b.d_fsdata % U32) dir.i_ino (some b.d_name) 0,
            Event.delete_cat inode.i_ino hidden.i_ino none 0,
            Event.delete_inode inode.i_ino,
            Event.mark_inode_dirty inode.i_ino r2, Event.journal_stop "hfsplus_unlink",
            Event.mutex_unlock]) ∧
        (inode.opencnt ≠ 0 →
          cat_find_obj u2.w.cat hidden.i_ino inode.i_ino = some kn ∧
          u2.w.cat = cat_delete (cat_delete w.cat ⟨dir.i_ino, a.d_name⟩)
            ⟨dir.i_ino, b.d_name⟩ ∧
          u2.inode.i_flags = inode.i_flags ||| S_DEAD ∧
          u2.w.trace = u1.w.trace ++ [Event.journal_start "hfsplus_unlink" 0,
            Event.mutex_lock,
            Event.delete_cat (b.d_fsdata % U32) dir.i_ino (some b.d_name) 0,
            Event.mark_inode_dirty inode.i_ino r2, Event.journal_stop "hfsplus_unlink",
            Event.mutex_unlock]) := by
  have hka : (⟨dir.i_ino, a.d_name⟩ : hfsplus_cat_key).parent ≠ hidden.i_ino := hdir
  have hkab : (⟨dir.i_ino, a.d_name⟩ : hfsplus_cat_key) ≠ ⟨dir.i_ino, b.d_name⟩ := by
    intro hk; injection hk with _ hk2; exact hab hk2
  have hb1 : (cat_find (cat_delete w.cat ⟨dir.i_ino, a.d_name⟩) ⟨dir.i_ino, b.d_name⟩).isSome
      = true := by
    rw [cat_find_delete_ne _ _ _ hkab]; exact hb
  have hn1 : cat_find_obj (cat_delete w.cat ⟨dir.i_ino, a.d_name⟩) hidden.i_ino inode.i_ino
      = some kn := by
    rw [cat_find_obj_delete _ _ _ _ hka]; exact hnode
  have hn2 : cat_find_obj (cat_delete (cat_delete w.cat ⟨dir.i_ino, a.d_name⟩)
      ⟨dir.i_ino, b.d_name⟩) hidden.i_ino inode.i_ino = some kn := by
    rw [cat_find_obj_delete _ _ _ _ hdir]; exact hn1
  have hd1 : u32_dec 2 = 1 := by decide
  have hd0 : u32_dec 1 = 0 := by decide
  have hpa2 : ¬ inode.i_ino = a.d_fsdata % U32 := hpa
  have hpb2 : ¬ inode.i_ino = b.d_fsdata % U32 := hpb
  simp only [hfsplus_unlink, unlink_locked, unlink_deleted, unlink_nlink, unlink_last_link, hrs,
    hfsplus_journal_start, hjs, mutex_lock,
    World.log, hfsplus_delete_cat, delete_cat_res, delete_cat_key, hcf, hfsplus_cat_build_key,
    ha, hnl, hpa2, hpb2, unlink_tail, unlink_out, hfsplus_journalled_mark_inode_dirty,
    hfsplus_journal_stop, mutex_unlock, drop_nlink, hd1, hd0, hb1, hh, hfsplus_delete_inode]
  by_cases ho : inode.opencnt = 0 <;>
    simp [hpa2, hpb2, hd1, hd0, hb1, hn1, hn2, hh, hcf, ho, cat_find_delete_self]

theorem unlink_two_pointers_witness :
    ∃ u1, hfsplus_unlink env_ok (world_of cat_linked) root2 ⟨"a", 1001, some 30⟩ inode_30
        = .ok u1 ∧ u1.inode.i_nlink = 1 ∧
      ∃ u2, hfsplus_unlink env_ok u1.w root2 ⟨"b", 1002, some 30⟩ u1.inode = .ok u2 ∧
        u2.inode.i_nlink = 0 ∧ cat_find u2.w.cat ⟨19, "iNode7"⟩ = none := by
  obtain ⟨u1, _, h1, _, h3, _, _, _, u2, _, h7, h8, h9, _⟩ :=
    unlink_two_pointers env_ok (world_of cat_linked) root2 hidden19 ⟨"a", 1001, some 30⟩
      ⟨"b", 1002, some 30⟩ inode_30 ⟨19, "iNode7"⟩ (fun _ => rfl) (fun _ => rfl) rfl
      (by decide) rfl rfl (by decide) (by decide) (by decide) (by decide) (by decide)
      (by decide)
  exact ⟨u1, h1, h3, u2, h7, h8, (h9 rfl).1⟩

/-- A run of `hfsplus_unlink` with result 0 on a pointer entry (the entry does not carry
the object's own identifier) that leaves the link count non-zero: one link and one file
less. -/
theorem unlink_pointer_success (env : Env) (w : World) (dir : Inode) (dentry : Dentry)
    (inode : Inode) (u : UnlinkOut)
    (hp : inode.i_ino ≠ dentry.d_fsdata % U32) (h0 : 0 < inode.i_nlink)
    (h1 : u32_dec inode.i_nlink ≠ 0)
    (hu : hfsplus_unlink env w dir dentry inode = .ok u) (hres : u.res = 0) :
    u.inode.i_nlink = u32_dec inode.i_nlink ∧ u.w.file_count = u32_dec w.file_count := by
  unfold hfsplus_unlink at hu
  split at hu
  · simp only [Except.ok.injEq] at hu; subst hu; simp [EPERM] at hres
  simp only [hfsplus_journal_start] at hu
  split at hu
  · rename_i hj
    simp only [Except.ok.injEq] at hu; subst hu; exact absurd hres hj
  have hp2 : ¬ inode.i_ino = dentry.d_fsdata % U32 := hp
  simp only [unlink_locked, hp2, false_and, if_false] at hu
  split at hu
  · rename_i hd
    simp only [Except.ok.injEq] at hu; subst hu; exact absurd hres hd
  simp only [unlink_deleted, unlink_nlink, h0, if_true, drop_nlink, hp2, if_false, h1,
    Except.ok.injEq] at hu
  subst hu
  simp [unlink_tail, unlink_out, hfsplus_journalled_mark_inode_dirty, hfsplus_journal_stop,
    mutex_unlock, World.log, hfsplus_delete_cat, mutex_lock]

theorem u32_dec_inc (n : Nat) (h : n < U32) : u32_dec (u32_inc n) = n := by
  unfold u32_dec u32_inc U32 at *
  omega

/-- C5 (counterexample): on a volume with file count 10, linking the not-yet-indirected
file `a` (link count 1) to `b` and unlinking `b` again, both with result 0, restores
the link count 1 but leaves the file count at 11. -/
theorem link_unlink_promotion_file_count :
    (world_of [(⟨2, "a"⟩, file_rec 1000)]).file_count = 10 ∧
    inode_1000.i_nlink = 1 ∧
    (hfsplus_link env_ok 1 (world_of [(⟨2, "a"⟩, file_rec 1000)]) ⟨"a", 1000, some 1000⟩
        inode_1000 root2 root2 dentry_b).bind
      (fun o => (hfsplus_unlink env_ok o.w root2 o.dst_dentry o.inode).map
        (fun u => (o.res, u.res, u.inode.i_nlink, u.w.file_count)))
      = .ok (0, 0, 1, 11) := by
  refine ⟨rfl, rfl, ?_⟩
  rfl

/-- C5 (amended): after a successful `hfsplus_link` of a regular file whose link count is
at least 1 and at most 2^32 - 2 (so that the increment does not wrap), on a volume whose
file count is below 2^32, followed by a successful `hfsplus_unlink` of the entry just
created (whose fresh identifier is not the object's inode number), the link count equals
its value before the link; the file count equals its value before the link when the
object was already indirected, and is one more than that value (modulo 2^32) when the
link performed the promotion. -/
theorem link_then_unlink (env : Env) (fuel : Nat) (w : World) (src_dentry : Dentry)
    (inode src_dir dst_dir : Inode) (dst_dentry : Dentry) (out : LinkOut) (u : UnlinkOut)
    (hfc : w.file_count < U32) (hn0 : 0 < inode.i_nlink) (hn1 : inode.i_nlink + 1 < U32)
    (hl : hfsplus_link env fuel w src_dentry inode src_dir dst_dir dst_dentry = .ok out)
    (hres : out.res = 0)
    (hfresh : inode.i_ino ≠ out.dst_dentry.d_fsdata % U32)
    (hu : hfsplus_unlink env out.w dst_dir out.dst_dentry out.inode = .ok u)
    (hures : u.res = 0) :
    u.inode.i_nlink = inode.i_nlink ∧
    (inode.i_ino ≠ src_dentry.d_fsdata % U32 → u.w.file_count = w.file_count) ∧
    (inode.i_ino = src_dentry.d_fsdata % U32 →
      u.w.file_count = u32_inc w.file_count ∧ u.w.file_count ≠ w.file_count) := by
  have hnl : inode.i_nlink < U32 := by omega
  have hdi : u32_dec (u32_inc inode.i_nlink) = inode.i_nlink := u32_dec_inc _ hnl
  have hpos : 0 < u32_inc inode.i_nlink := by
    unfold u32_inc U32 at *; omega
  have hnz : u32_dec (u32_inc inode.i_nlink) ≠ 0 := by rw [hdi]; omega
  by_cases hprom : inode.i_ino = src_dentry.d_fsdata % U32
  · cases hh : w.hidden_dir with
    | none =>
      exfalso
      unfold hfsplus_link at hl
      split at hl
      · simp only [Except.ok.injEq] at hl; subst hl; simp [EPERM] at hres
      split at hl
      · simp only [Except.ok.injEq] at hl; subst hl; simp [EPERM] at hres
      simp only [hfsplus_journal_start] at hl
      split at hl
      · rename_i hj
        simp only [Except.ok.injEq] at hl; subst hl; exact absurd hres hj
      simp [link_locked, hprom, mutex_lock, World.log, hh] at hl
    | some hidden =>
      obtain ⟨_, _, _, hlp⟩ := link_success_promoted env fuel w src_dentry inode src_dir
        dst_dir dst_dentry out hidden hprom hh hl hres
      obtain ⟨id, δ, e, _, _, _, _, _, _, _, _, hfcount, _, _, hino, _, _, _⟩ :=
        link_promoted_success _ _ _ _ _ _ _ _ _ _ hlp hres
      have hi1 : out.inode.i_ino = inode.i_ino := by rw [hino]
      have hi2 : out.inode.i_nlink = u32_inc inode.i_nlink := by rw [hino]
      obtain ⟨a1, a2⟩ := unlink_pointer_success env out.w dst_dir out.dst_dentry out.inode u
        (by rw [hi1]; exact hfresh) (by rw [hi2]; exact hpos) (by rw [hi2]; exact hnz) hu hures
      refine ⟨by rw [a1, hi2, hdi], fun hc => absurd hprom hc, fun _ => ?_⟩
      have hfin : u.w.file_count = u32_inc w.file_count := by
        rw [a2, hfcount]
        exact u32_dec_inc _ (by unfold u32_inc U32; omega)
      exact ⟨hfin, by rw [hfin]; exact u32_inc_ne _⟩
  · obtain ⟨_, _, _, _, _, hfcount, _, _, hino, _, _, _⟩ := link_success_plain env fuel w
      src_dentry inode src_dir dst_dir dst_dentry out hprom hl hres
    have hi1 : out.inode.i_ino = inode.i_ino := by rw [hino]
    have hi2 : out.inode.i_nlink = u32_inc inode.i_nlink := by rw [hino]
    obtain ⟨a1, a2⟩ := unlink_pointer_success env out.w dst_dir out.dst_dentry out.inode u
      (by rw [hi1]; exact hfresh) (by rw [hi2]; exact hpos) (by rw [hi2]; exact hnz) hu hures
    refine ⟨by rw [a1, hi2, hdi], fun _ => ?_, fun hc => absurd hc hprom⟩
    rw [a2, hfcount]
    exact u32_dec_inc _ hfc

theorem link_then_unlink_witness :
    (returned (hfsplus_unlink env_ok
        (returned (hfsplus_link env_ok 1 (world_of [(⟨2, "a"⟩, file_rec 1000)])
          ⟨"a", 1000, some 1000⟩ inode_1000 root2 root2 dentry_b)
          ⟨0, world_of [], inode_1000, dentry_a, dentry_b⟩).w root2
        (returned (hfsplus_link env_ok 1 (world_of [(⟨2, "a"⟩, file_rec 1000)])
          ⟨"a", 1000, some 1000⟩ inode_1000 root2 root2 dentry_b)
          ⟨0, world_of [], inode_1000, dentry_a, dentry_b⟩).dst_dentry
        (returned (hfsplus_link env_ok 1 (world_of [(⟨2, "a"⟩, file_rec 1000)])
          ⟨"a", 1000, some 1000⟩ inode_1000 root2 root2 dentry_b)
          ⟨0, world_of [], inode_1000, dentry_a, dentry_b⟩).inode)
      ⟨0, world_of [], inode_1000⟩).inode.i_nlink = inode_1000.i_nlink :=
  (link_then_unlink env_ok 1 (world_of [(⟨2, "a"⟩, file_rec 1000)]) ⟨"a", 1000, some 1000⟩
    inode_1000 root2 root2 dentry_b _ _ (by decide) (by decide) (by decide) (by rfl) (by rfl)
    (by decide) (by rfl) (by rfl)).1

/-- The bound on the link count in the statement above cannot be dropped: for the
indirected file 30 with link count 2^32 - 1, `hfsplus_link` and the `hfsplus_unlink` of
the new entry both return 0, the increment wraps the link count to 0 and the decrement
leaves it at 0. -/
theorem link_unlink_nlink_wrap :
    (hfsplus_link env_ok 1 (world_of cat_linked) ⟨"a", 1001, some 30⟩
        { inode_30 with i_nlink := 4294967295 } root2 root2 ⟨"c", 0, none⟩).bind
      (fun o => (hfsplus_unlink env_ok o.w root2 o.dst_dentry o.inode).map
        (fun u => (o.res, o.inode.i_nlink, u.res, u.inode.i_nlink)))
      = .ok (0, 0, 0, 0) := by rfl

/-- A run of `hfsplus_rmdir` on a folder whose entry count is not 2. -/
theorem rmdir_refused (env : Env) (w : World) (dir : Inode) (dentry : Dentry)
    (inode : Inode) (h : inode.i_size ≠ 2) :
    (hfsplus_rmdir env w dir dentry inode).inode = inode ∧
    (hfsplus_rmdir env w dir dentry inode).w =
      { w with trace := (hfsplus_rmdir env w dir dentry inode).w.trace } ∧
    cat_calls (hfsplus_rmdir env w dir dentry inode).w.trace = cat_calls w.trace ∧
    (env.journal_start w.trace = 0 →
      (hfsplus_rmdir env w dir dentry inode).res = -ENOTEMPTY) ∧
    (env.journal_start w.trace ≠ 0 →
      (hfsplus_rmdir env w dir dentry inode).res = env.journal_start w.trace) := by
  by_cases hj : env.journal_start w.trace = 0
  · simp [hfsplus_rmdir, hfsplus_journal_start, hfsplus_journal_stop, World.log, hj, h,
      cat_calls, List.countP_append]
  · simp [hfsplus_rmdir, hfsplus_journal_start, World.log, hj, cat_calls, List.countP_append]

/-- C6 (counterexample): for the folder 40 with three recorded entries, when the
transaction scope cannot be begun (`-EIO`), `hfsplus_rmdir` returns `-EIO`, not
`-ENOTEMPTY`. -/
theorem rmdir_not_empty_begin_fails :
    folder_40.i_size = 3 ∧
    (hfsplus_rmdir env_nojournal (world_of []) root2 ⟨"d", 40, some 40⟩ folder_40).res = - EIO ∧
    (hfsplus_rmdir env_nojournal (world_of []) root2 ⟨"d", 40, some 40⟩ folder_40).res
      ≠ -ENOTEMPTY := by
  decide

/-- C6 (amended): for every folder whose recorded entry count differs from 2,
`hfsplus_rmdir` calls no catalog mutator, leaves the catalog, the volume counters and
the in-core object (its link count included) untouched, and returns `-ENOTEMPTY`
whenever its transaction scope could be begun; when the begin fails with `e` it returns
`e`. -/
theorem rmdir_not_empty (env : Env) (w : World) (dir : Inode) (dentry : Dentry)
    (inode : Inode) (h : inode.i_size ≠ 2) :
    (hfsplus_rmdir env w dir dentry inode).inode = inode ∧
    (hfsplus_rmdir env w dir dentry inode).w =
      { w with trace := (hfsplus_rmdir env w dir dentry inode).w.trace } ∧
    cat_calls (hfsplus_rmdir env w dir dentry inode).w.trace = cat_calls w.trace ∧
    (env.journal_start w.trace = 0 →
      (hfsplus_rmdir env w dir dentry inode).res = -ENOTEMPTY ∧
      (hfsplus_rmdir env w dir dentry inode).w.trace = w.trace ++
        [Event.journal_start "hfsplus_rmdir" 0, Event.journal_stop "hfsplus_rmdir"]) ∧
    (env.journal_start w.trace ≠ 0 →
      (hfsplus_rmdir env w dir dentry inode).res = env.journal_start w.trace ∧
      (hfsplus_rmdir env w dir dentry inode).w.trace = w.trace ++
        [Event.journal_start "hfsplus_rmdir" (env.journal_start w.trace)]) := by
  by_cases hj : env.journal_start w.trace = 0
  · simp [hfsplus_rmdir, hfsplus_journal_start, hfsplus_journal_stop, World.log, hj, h,
      cat_calls, List.countP_append]
  · simp [hfsplus_rmdir, hfsplus_journal_start, World.log, hj, cat_calls, List.countP_append]

theorem rmdir_not_empty_witness :
    (hfsplus_rmdir env_ok (world_of []) root2 ⟨"d", 40, some 40⟩ folder_40).res = -ENOTEMPTY :=
  ((rmdir_not_empty env_ok (world_of []) root2 ⟨"d", 40, some 40⟩ folder_40
    (by decide)).2.2.2.1 rfl).1

theorem count_key_of_find_none (cat : List (hfsplus_cat_key × hfsplus_cat_entry))
    (k : hfsplus_cat_key) (h : cat_find cat k = none) : count_key cat k = 0 := by
  unfold cat_find at h
  unfold count_key
  rw [List.countP_eq_zero]
  intro p hp
  have hn : List.find? (fun p => decide (p.1 = k)) cat = none := by
    cases hf : List.find? (fun p => decide (p.1 = k)) cat with
    | none => rfl
    | some x => simp [hf] at h
  exact List.find?_eq_none.mp hn p hp

theorem count_key_insert_self (cat : List (hfsplus_cat_key × hfsplus_cat_entry))
    (k : hfsplus_cat_key) (e : hfsplus_cat_entry) :
    count_key (cat_insert cat k e) k = count_key cat k + 1 := by
  simp [count_key, cat_insert, List.countP_append]

theorem count_key_insert_ne (cat : List (hfsplus_cat_key × hfsplus_cat_entry))
    (k k2 : hfsplus_cat_key) (e : hfsplus_cat_entry) (h : k ≠ k2) :
    count_key (cat_insert cat k e) k2 = count_key cat k2 := by
  simp [count_key, cat_insert, List.countP_append, h]

theorem count_key_delete_self (cat : List (hfsplus_cat_key × hfsplus_cat_entry))
    (k : hfsplus_cat_key) : count_key (cat_delete cat k) k = 0 := by
  unfold count_key cat_delete
  rw [List.countP_eq_zero]
  intro p hp
  have := (List.mem_filter.mp hp).2
  simpa using this

theorem cat_kept_refl (c : List (hfsplus_cat_key × hfsplus_cat_entry)) : cat_kept c c :=
  fun _ _ h => Or.inl h

theorem cat_kept_delete (c : List (hfsplus_cat_key × hfsplus_cat_entry))
    (k1 : hfsplus_cat_key) : cat_kept c (cat_delete c k1) := by
  intro k e h
  rw [cat_find_delete]
  by_cases hk : k1 = k
  · simp [hk]
  · simp [hk, h]

theorem cat_kept_moved (c : List (hfsplus_cat_key × hfsplus_cat_entry))
    (k1 k2 : hfsplus_cat_key) (h2 : cat_find c k2 = none) : cat_kept c (cat_moved c k1 k2) := by
  intro k e h
  unfold cat_moved
  cases h1 : cat_find c k1 with
  | none => exact Or.inl h
  | some x =>
    simp only
    by_cases hk : k1 = k
    · subst hk
      by_cases hk2 : k2 = k1
      · rw [hk2] at h2; rw [h2] at h; simp at h
      · rw [cat_find_insert_ne _ _ _ _ hk2, cat_find_delete_self]
        exact Or.inr rfl
    · by_cases hk2 : k2 = k
      · rw [hk2] at h2; rw [h2] at h; simp at h
      · rw [cat_find_insert_ne _ _ _ _ hk2, cat_find_delete_ne _ _ _ hk]
        exact Or.inl h

theorem rename_cat_kept (env : Env) (w : World) (cnid : Nat) (sd : Inode) (sn : String)
    (dd : Inode) (dn : String) :
    cat_kept w.cat (hfsplus_rename_cat env w cnid sd sn dd dn).2.cat := by
  simp only [hfsplus_rename_cat, hfsplus_cat_build_key]
  split
  · rename_i h0
    exact cat_kept_moved _ _ _ (rename_cat_res_zero _ _ _ _ h0).2.2
  · exact cat_kept_refl _

theorem delete_cat_kept (env : Env) (w : World) (cnid : Nat) (dir : Inode)
    (name : Option String) : cat_kept w.cat (hfsplus_delete_cat env w cnid dir name).2.cat := by
  simp only [hfsplus_delete_cat]
  split
  · split
    · exact cat_kept_delete _ _
    · exact cat_kept_refl _
  · exact cat_kept_refl _

theorem cat_shrunk_refl (c : List (hfsplus_cat_key × hfsplus_cat_entry)) : cat_shrunk c c :=
  fun _ => Or.inl rfl

theorem cat_shrunk_trans (c1 c2 c3 : List (hfsplus_cat_key × hfsplus_cat_entry))
    (h1 : cat_shrunk c1 c2) (h2 : cat_shrunk c2 c3) : cat_shrunk c1 c3 := by
  intro k
  rcases h2 k with h | h
  · rcases h1 k with g | g
    · exact Or.inl (h.trans g)
    · exact Or.inr (h.trans g)
  · exact Or.inr h

theorem cat_shrunk_kept (c1 c2 : List (hfsplus_cat_key × hfsplus_cat_entry))
    (h : cat_shrunk c1 c2) : cat_kept c1 c2 := by
  intro k e he
  rcases h k with g | g
  · exact Or.inl (g.trans he)
  · exact Or.inr g

theorem delete_cat_shrunk (env : Env) (w : World) (cnid : Nat) (dir : Inode)
    (name : Option String) :
    cat_shrunk w.cat (hfsplus_delete_cat env w cnid dir name).2.cat := by
  simp only [hfsplus_delete_cat]
  split
  · split
    · intro k
      rw [cat_find_delete]
      split
      · exact Or.inr rfl
      · exact Or.inl rfl
    · exact cat_shrunk_refl _
  · exact cat_shrunk_refl _

theorem unlink_tail_cat (env : Env) (w : World) (inode : Inode) :
    (unlink_tail env w inode).w.cat = w.cat := rfl

theorem delete_inode_cat (w : World) (inode : Inode) :
    (hfsplus_delete_inode w inode).cat = w.cat := rfl

theorem unlink_last_link_shrunk (env : Env) (w : World) (inode : Inode) (u : UnlinkOut)
    (hu : unlink_last_link env w inode = .ok u) : cat_shrunk w.cat u.w.cat := by
  unfold unlink_last_link at hu
  dsimp only at hu
  by_cases ho : inode.opencnt = 0
  · rw [if_pos ho] at hu
    cases hh : w.hidden_dir with
    | none => simp [hh] at hu
    | some hidden =>
      simp only [hh, Except.ok.injEq] at hu
      subst hu
      rw [unlink_tail_cat]
      have hd := delete_cat_shrunk env { w with file_count := u32_dec w.file_count }
        inode.i_ino hidden none
      split
      · rw [delete_inode_cat]; exact hd
      · exact hd
  · rw [if_neg ho] at hu
    simp only [Except.ok.injEq] at hu
    subst hu
    rw [unlink_tail_cat]
    exact cat_shrunk_refl _

theorem unlink_deleted_shrunk (env : Env) (w : World) (inode : Inode) (cnid : Nat)
    (u : UnlinkOut) (hu : unlink_deleted env w inode cnid = .ok u) :
    cat_shrunk w.cat u.w.cat := by
  unfold unlink_deleted at hu
  dsimp only at hu
  generalize unlink_nlink inode cnid = ino2 at hu
  by_cases h0 : ino2.i_nlink = 0
  · rw [if_pos h0] at hu
    by_cases h1 : ino2.i_ino ≠ cnid
    · rw [if_pos h1] at hu
      exact unlink_last_link_shrunk _ _ _ _ hu
    · rw [if_neg h1] at hu
      simp only [Except.ok.injEq] at hu; subst hu
      rw [unlink_tail_cat, delete_inode_cat]
      exact cat_shrunk_refl _
  · rw [if_neg h0] at hu
    simp only [Except.ok.injEq] at hu; subst hu
    rw [unlink_tail_cat]
    exact cat_shrunk_refl _

theorem unlink_locked_kept (env : Env) (w : World) (dir : Inode) (dentry : Dentry)
    (inode : Inode) (u : UnlinkOut) (hu : unlink_locked env w dir dentry inode = .ok u) :
    cat_kept w.cat u.w.cat := by
  unfold unlink_locked at hu
  dsimp only at hu
  by_cases hc : inode.i_ino = dentry.d_fsdata % U32 ∧ inode.opencnt ≠ 0
  · rw [if_pos hc] at hu
    unfold unlink_deferred at hu
    cases hh : w.hidden_dir with
    | none => simp [hh] at hu
    | some hidden =>
      simp only [hh, Except.ok.injEq] at hu
      subst hu
      exact rename_cat_kept env w inode.i_ino dir dentry.d_name hidden
        ("temp" ++ fmt_lu inode.i_ino)
  · rw [if_neg hc] at hu
    have hd := delete_cat_shrunk env w (dentry.d_fsdata % U32) dir (some dentry.d_name)
    by_cases hd0 : (hfsplus_delete_cat env w (dentry.d_fsdata % U32) dir
        (some dentry.d_name)).1 ≠ 0
    · rw [if_pos hd0] at hu
      simp only [Except.ok.injEq] at hu; subst hu
      exact cat_shrunk_kept _ _ hd
    · rw [if_neg hd0] at hu
      exact cat_shrunk_kept _ _ (cat_shrunk_trans _ _ _ hd (unlink_deleted_shrunk _ _ _ _ _ hu))

/-- The catalog after `hfsplus_rmdir`: every record is kept or has disappeared. -/
theorem rmdir_cat_kept (env : Env) (w : World) (dir : Inode) (dentry : Dentry)
    (inode : Inode) : cat_kept w.cat (hfsplus_rmdir env w dir dentry inode).w.cat := by
  unfold hfsplus_rmdir
  simp only [hfsplus_journal_start]
  split
  · exact cat_kept_refl _
  split
  · exact cat_kept_refl _
  have hd := delete_cat_kept env (mutex_lock (w.log (Event.journal_start "hfsplus_rmdir"
    (env.journal_start w.trace)))) inode.i_ino dir (some dentry.d_name)
  split
  · exact hd
  · exact hd

/-- The catalog after `hfsplus_unlink`: every record is kept or has disappeared. -/
theorem unlink_cat_kept (env : Env) (w : World) (dir : Inode) (dentry : Dentry)
    (inode : Inode) (u : UnlinkOut) (hu : hfsplus_unlink env w dir dentry inode = .ok u) :
    cat_kept w.cat u.w.cat := by
  unfold hfsplus_unlink at hu
  split at hu
  · simp only [Except.ok.injEq] at hu; subst hu; exact cat_kept_refl _
  simp only [hfsplus_journal_start] at hu
  split at hu
  · simp only [Except.ok.injEq] at hu; subst hu; exact cat_kept_refl _
  exact unlink_locked_kept env (mutex_lock (w.log (Event.journal_start "hfsplus_unlink"
    (env.journal_start w.trace)))) dir dentry inode u hu

/-- Lines 547-556 of `hfsplus_rename`, when they end with result 0. -/
theorem rename_tail_success (env : Env) (w : World) (old_dir : Inode) (old_dentry : Dentry)
    (new_dir : Inode) (new_dentry : Dentry) (new_inode : Option Inode)
    (hres : (rename_tail env w old_dir old_dentry new_dir new_dentry new_inode).res = 0) :
    ∃ e, cat_find w.cat ⟨old_dir.i_ino, old_dentry.d_name⟩ = some e ∧
      cat_find w.cat ⟨new_dir.i_ino, new_dentry.d_name⟩ = none ∧
      (rename_tail env w old_dir old_dentry new_dir new_dentry new_inode).w.cat =
        cat_insert (cat_delete w.cat ⟨old_dir.i_ino, old_dentry.d_name⟩)
          ⟨new_dir.i_ino, new_dentry.d_name⟩ e ∧
      (rename_tail env w old_dir old_dentry new_dir new_dentry new_inode).new_dentry.d_fsdata
        = old_dentry.d_fsdata := by
  unfold rename_tail at hres ⊢
  simp only [hfsplus_journal_start] at hres ⊢
  by_cases hj : env.journal_start w.trace ≠ 0
  · rw [if_pos hj] at hres
    exact absurd hres hj
  · rw [if_neg hj] at hres ⊢
    simp only [hfsplus_rename_cat, hfsplus_cat_build_key] at hres ⊢
    obtain ⟨_, ⟨e, he⟩, hn⟩ := rename_cat_res_zero _ _ _ _ hres
    simp only [World.log] at he hn hres
    refine ⟨e, he, hn, ?_, ?_⟩
    · simp [hres, hfsplus_journal_stop, World.log, cat_moved, he]
    · simp [hres, World.log]

/-- C7: a successful `hfsplus_rename` of an existing source entry leaves exactly one
record under the destination key, the source's original record, records the source
entry's identity on the destination name, and leaves no record under the source key,
whether the destination did not exist or was removed first. -/
theorem rename_success (env : Env) (w : World) (old_dir : Inode) (old_dentry : Dentry)
    (new_dir : Inode) (new_dentry : Dentry) (new_inode : Option Inode) (out : RenameOut)
    (e : hfsplus_cat_entry)
    (hsrc : cat_find w.cat ⟨old_dir.i_ino, old_dentry.d_name⟩ = some e)
    (hr : hfsplus_rename env w old_dir old_dentry new_dir new_dentry new_inode = .ok out)
    (hres : out.res = 0) :
    cat_find out.w.cat ⟨new_dir.i_ino, new_dentry.d_name⟩ = some e ∧
    count_key out.w.cat ⟨new_dir.i_ino, new_dentry.d_name⟩ = 1 ∧
    cat_find out.w.cat ⟨old_dir.i_ino, old_dentry.d_name⟩ = none ∧
    count_key out.w.cat ⟨old_dir.i_ino, old_dentry.d_name⟩ = 0 ∧
    out.new_dentry.d_fsdata = old_dentry.d_fsdata := by
  have key : ∀ (w2 : World) (ni : Option Inode), cat_kept w.cat w2.cat →
      rename_tail env w2 old_dir old_dentry new_dir new_dentry ni = out →
      cat_find out.w.cat ⟨new_dir.i_ino, new_dentry.d_name⟩ = some e ∧
      count_key out.w.cat ⟨new_dir.i_ino, new_dentry.d_name⟩ = 1 ∧
      cat_find out.w.cat ⟨old_dir.i_ino, old_dentry.d_name⟩ = none ∧
      count_key out.w.cat ⟨old_dir.i_ino, old_dentry.d_name⟩ = 0 ∧
      out.new_dentry.d_fsdata = old_dentry.d_fsdata := by
    intro w2 ni hk ho
    subst ho
    obtain ⟨e2, he2, hn2, hcat, hfs⟩ := rename_tail_success _ _ _ _ _ _ _ hres
    have hee : e2 = e := by
      rcases hk _ _ hsrc with h | h
      · rw [h] at he2; exact (Option.some.inj he2).symm
      · rw [h] at he2; simp at he2
    subst hee
    have hne : (⟨new_dir.i_ino, new_dentry.d_name⟩ : hfsplus_cat_key) ≠
        ⟨old_dir.i_ino, old_dentry.d_name⟩ := by
      intro hk2; rw [hk2] at hn2; rw [hn2] at he2; simp at he2
    have hdn : cat_find (cat_delete w2.cat ⟨old_dir.i_ino, old_dentry.d_name⟩)
        ⟨new_dir.i_ino, new_dentry.d_name⟩ = none := by
      rw [cat_find_delete_ne _ _ _ (Ne.symm hne)]; exact hn2
    refine ⟨?_, ?_, ?_, ?_, hfs⟩
    · rw [hcat]; exact cat_find_insert_self _ _ _ hdn
    · rw [hcat, count_key_insert_self, count_key_of_find_none _ _ hdn]
    · rw [hcat, cat_find_insert_ne _ _ _ _ hne, cat_find_delete_self]
    · rw [hcat, count_key_insert_ne _ _ _ _ hne, count_key_delete_self]
  unfold hfsplus_rename at hr
  cases new_inode with
  | none =>
    simp only [Except.ok.injEq] at hr
    exact key w none (cat_kept_refl _) hr
  | some ni =>
    simp only at hr
    by_cases hdir : S_ISDIR ni.i_mode = true
    · rw [if_pos hdir] at hr
      by_cases h0 : (hfsplus_rmdir env w new_dir new_dentry ni).res ≠ 0
      · rw [if_pos h0] at hr
        simp only [Except.ok.injEq] at hr
        subst hr
        exact absurd hres h0
      · rw [if_neg h0] at hr
        simp only [Except.ok.injEq] at hr
        exact key _ _ (rmdir_cat_kept env w new_dir new_dentry ni) hr
    · rw [if_neg hdir] at hr
      cases hu : hfsplus_unlink env w new_dir new_dentry ni with
      | error x => simp [hu] at hr
      | ok u =>
        simp only [hu] at hr
        by_cases h0 : u.res ≠ 0
        · rw [if_pos h0] at hr
          simp only [Except.ok.injEq] at hr
          subst hr
          exact absurd hres h0
        · rw [if_neg h0] at hr
          simp only [Except.ok.injEq] at hr
          exact key _ _ (unlink_cat_kept env w new_dir new_dentry ni u hu) hr

theorem rename_success_witness :
    cat_find (returned (hfsplus_rename env_ok (world_of cat_folders) root2 ⟨"d", 41, some 41⟩
        root2 ⟨"e", 40, some 40⟩ (some { folder_40 with i_size := 2 }))
        ⟨0, world_of [], dentry_a, none⟩).w.cat ⟨2, "e"⟩
      = some ⟨HFSPLUS_FOLDER, SIZEOF_CAT_FOLDER, 41, 0, 0, 60, 0, 0⟩ :=
  (rename_success env_ok (world_of cat_folders) root2 ⟨"d", 41, some 41⟩ root2
    ⟨"e", 40, some 40⟩ (some { folder_40 with i_size := 2 }) _ _ (by decide) (by rfl)
    (by rfl)).1

/-- C8 (counterexample): renaming onto the non-empty folder 40 when the transaction
scope of the removal cannot be begun (`-EIO`) returns `-EIO`, not `-ENOTEMPTY`. -/
theorem rename_onto_nonempty_begin_fails :
    S_ISDIR folder_40.i_mode = true ∧ folder_40.i_size = 3 ∧
    (hfsplus_rename env_nojournal (world_of cat_folders) root2 ⟨"d", 41, some 41⟩ root2
        ⟨"e", 40, some 40⟩ (some folder_40)).map (fun o => o.res) = .ok (- EIO) ∧
    - EIO ≠ -ENOTEMPTY := by
  refine ⟨by decide, by decide, ?_, by decide⟩
  rfl

/-- C8 (amended): when the rename destination is an existing folder whose entry count
is not 2, `hfsplus_rename` calls no catalog mutator, leaves the catalog, the counters,
the destination name (its recorded identity included) and the destination object
unchanged, and returns `-ENOTEMPTY` whenever the transaction scope of the removal could
be begun (the begin error `e` otherwise); and whenever the removal of the destination
(by `hfsplus_rmdir` or `hfsplus_unlink`) returns an error, `hfsplus_rename` returns that
error in the state the removal left, without attempting the source key rewrite. -/
theorem rename_destination_error (env : Env) (w : World) (old_dir : Inode)
    (old_dentry : Dentry) (new_dir : Inode) (new_dentry : Dentry) (ni : Inode) :
    (S_ISDIR ni.i_mode = true → ni.i_size ≠ 2 →
      ∃ out, hfsplus_rename env w old_dir old_dentry new_dir new_dentry (some ni) = .ok out ∧
        out.w = { w with trace := out.w.trace } ∧
        cat_calls out.w.trace = cat_calls w.trace ∧
        out.new_dentry = new_dentry ∧ out.new_inode = some ni ∧
        (env.journal_start w.trace = 0 → out.res = -ENOTEMPTY) ∧
        (env.journal_start w.trace ≠ 0 → out.res = env.journal_start w.trace)) ∧
    (S_ISDIR ni.i_mode = true → (hfsplus_rmdir env w new_dir new_dentry ni).res ≠ 0 →
      hfsplus_rename env w old_dir old_dentry new_dir new_dentry (some ni) =
        .ok ⟨(hfsplus_rmdir env w new_dir new_dentry ni).res,
          (hfsplus_rmdir env w new_dir new_dentry ni).w, new_dentry,
          some (hfsplus_rmdir env w new_dir new_dentry ni).inode⟩) ∧
    (∀ u, S_ISDIR ni.i_mode = false →
      hfsplus_unlink env w new_dir new_dentry ni = .ok u → u.res ≠ 0 →
      hfsplus_rename env w old_dir old_dentry new_dir new_dentry (some ni) =
        .ok ⟨u.res, u.w, new_dentry, some u.inode⟩) := by
  refine ⟨?_, ?_, ?_⟩
  · intro hd hs
    obtain ⟨r1, r2, r3, r4, r5⟩ := rmdir_refused env w new_dir new_dentry ni hs
    have hne : (hfsplus_rmdir env w new_dir new_dentry ni).res ≠ 0 := by
      by_cases hj : env.journal_start w.trace = 0
      · rw [r4 hj]; decide
      · rw [r5 hj]; exact hj
    refine ⟨⟨(hfsplus_rmdir env w new_dir new_dentry ni).res,
      (hfsplus_rmdir env w new_dir new_dentry ni).w, new_dentry,
      some (hfsplus_rmdir env w new_dir new_dentry ni).inode⟩, ?_, r2, r3, rfl, ?_, ?_, ?_⟩
    · simp only [hfsplus_rename, hd, if_true]
      rw [if_pos hne]
    · simp only [r1]
    · intro hj; exact r4 hj
    · intro hj; exact r5 hj
  · intro hd hne
    simp only [hfsplus_rename, hd, if_true]
    rw [if_pos hne]
  · intro u hd hu hne
    simp only [hfsplus_rename, hd, hu]
    simp only [Bool.false_eq_true, if_false]
    rw [if_pos hne]

theorem rename_destination_error_witness :
    ∃ out, hfsplus_rename env_ok (world_of cat_folders) root2 ⟨"d", 41, some 41⟩ root2
        ⟨"e", 40, some 40⟩ (some folder_40) = .ok out ∧ out.res = -ENOTEMPTY ∧
      out.w.cat = cat_folders := by
  obtain ⟨out, h1, h2, _, _, _, h6, _⟩ :=
    (rename_destination_error env_ok (world_of cat_folders) root2 ⟨"d", 41, some 41⟩ root2
      ⟨"e", 40, some 40⟩ folder_40).1 (by decide) (by decide)
  exact ⟨out, h1, h6 rfl, by rw [h2]; rfl⟩

/-! ## Transaction scopes -/

theorem scope_state_append (t l : List Event) :
    scope_state (t ++ l) = l.foldl scope_step (scope_state t) := by
  simp [scope_state, List.foldl_append]

theorem scope_mknod_locked (env : Env) (w : World) (dir : Inode) (dentry : Dentry)
    (mode : Nat) (res : Int) (h : scope_state w.trace = some (some "hfsplus_mknod")) :
    scope_state (mknod_locked env w dir dentry mode res).w.trace = some none := by
  unfold mknod_locked
  simp only [hfsplus_new_inode]
  cases env.new_inode w.trace mode with
  | none =>
    simp [mknod_out, hfsplus_journal_stop, mutex_unlock, World.log, scope_state_append, h,
      scope_step]
  | some i0 =>
    simp only
    by_cases hs : S_ISBLK mode = true ∨ S_ISCHR mode = true ∨ S_ISFIFO mode = true ∨
        S_ISSOCK mode = true
    all_goals
      simp only [hs, if_true, if_false]
      split
      all_goals
        simp [mknod_out, hfsplus_journal_stop, mutex_unlock, World.log, scope_state_append, h,
          scope_step, hfsplus_create_cat, hfsplus_delete_inode, iput,
          hfsplus_journalled_mark_inode_dirty]

theorem scope_mknod (env : Env) (w : World) (dir : Inode) (dentry : Dentry) (mode : Nat)
    (h : scope_state w.trace = some none) :
    scope_state (hfsplus_mknod env w dir dentry mode).w.trace = some none := by
  unfold hfsplus_mknod
  simp only [hfsplus_journal_start]
  by_cases hj : env.journal_start w.trace ≠ 0
  · simp [hj, World.log, scope_state_append, h, scope_step]
  · rw [if_neg hj]
    apply scope_mknod_locked
    have hj0 : env.journal_start w.trace = 0 := by simpa using hj
    simp [mutex_lock, World.log, scope_state_append, h, scope_step, hj0]

theorem scope_symlink (env : Env) (w : World) (dir : Inode) (dentry : Dentry)
    (h : scope_state w.trace = some none) :
    scope_state (hfsplus_symlink env w dir dentry).w.trace = some none := by
  unfold hfsplus_symlink
  simp only [hfsplus_journal_start]
  by_cases hj : env.journal_start w.trace ≠ 0
  · simp [hj, World.log, scope_state_append, h, scope_step]
  · rw [if_neg hj]
    have hj0 : env.journal_start w.trace = 0 := by simpa using hj
    unfold symlink_locked
    simp only [hfsplus_new_inode, mutex_lock, World.log]
    cases env.new_inode (w.trace ++ [Event.journal_start "hfsplus_symlink"
        (env.journal_start w.trace)] ++ [Event.mutex_lock]) (S_IFLNK ||| S_IRWXUGO) with
    | none =>
      simp [hfsplus_journal_stop, mutex_unlock, World.log, scope_state_append, h, scope_step,
        hj0]
    | some i0 =>
      simp only
      split
      · simp [symlink_out_err, hfsplus_journal_stop, mutex_unlock, World.log,
          scope_state_append, h, scope_step, hj0, hfsplus_delete_inode, iput, page_symlink]
      · split
        all_goals
          simp [symlink_out_err, hfsplus_journal_stop, mutex_unlock, World.log,
            scope_state_append, h, scope_step, hj0, hfsplus_delete_inode, iput, page_symlink,
            hfsplus_create_cat, hfsplus_journalled_mark_inode_dirty]

theorem scope_rmdir (env : Env) (w : World) (dir : Inode) (dentry : Dentry) (inode : Inode)
    (h : scope_state w.trace = some none) :
    scope_state (hfsplus_rmdir env w dir dentry inode).w.trace = some none := by
  unfold hfsplus_rmdir
  simp only [hfsplus_journal_start]
  by_cases hj : env.journal_start w.trace ≠ 0
  · simp [hj, World.log, scope_state_append, h, scope_step]
  · rw [if_neg hj]
    have hj0 : env.journal_start w.trace = 0 := by simpa using hj
    split
    · simp [hfsplus_journal_stop, World.log, scope_state_append, h, scope_step, hj0]
    · split
      all_goals
        simp [hfsplus_journal_stop, mutex_unlock, mutex_lock, World.log, scope_state_append, h,
          scope_step, hj0, hfsplus_delete_cat, hfsplus_delete_inode,
          hfsplus_journalled_mark_inode_dirty]

theorem scope_collisions (δ : List Event) (c : Nat) (k : hfsplus_cat_key)
    (s : Option (Option String))
    (h : ∀ ev ∈ δ, ∃ d, ev = Event.rename_cat c k d (-EEXIST)) :
    δ.foldl scope_step s = s := by
  induction δ generalizing s with
  | nil => rfl
  | cons ev l ih =>
    obtain ⟨d, hd⟩ := h ev (List.mem_cons_self _ _)
    have hstep : scope_step s ev = s := by
      subst hd
      cases s with
      | none => rfl
      | some o => cases o <;> rfl
    rw [List.foldl_cons, hstep]
    exact ih s (fun e he => h e (List.mem_cons_of_mem _ he))

theorem scope_link_tail (env : Env) (w : World) (inode : Inode) (src_dentry : Dentry)
    (dst_dir : Inode) (dst_dentry : Dentry)
    (h : scope_state w.trace = some (some "hfsplus_link")) :
    scope_state (link_tail env w inode src_dentry dst_dir dst_dentry).w.trace = some none := by
  unfold link_tail
  simp only
  split
  all_goals
    simp [link_out, hfsplus_journal_stop, mutex_unlock, World.log, scope_state_append, h,
      scope_step, hfsplus_create_cat, hfsplus_journalled_mark_inode_dirty]

theorem scope_link_promoted (env : Env) (fuel : Nat) (w : World) (src_dentry : Dentry)
    (inode src_dir dst_dir : Inode) (dst_dentry : Dentry) (hidden : Inode) (out : LinkOut)
    (h : scope_state w.trace = some (some "hfsplus_link"))
    (hl : link_promoted env fuel w src_dentry inode src_dir dst_dir dst_dentry hidden
      = .ok out) :
    scope_state out.w.trace = some none := by
  unfold link_promoted at hl
  cases hp : link_promote env fuel w inode src_dir src_dentry.d_name hidden with
  | error x => simp [hp] at hl
  | ok v =>
    obtain ⟨res, id, w2⟩ := v
    obtain ⟨δ, hδ, _, _, _, hw2⟩ := link_promote_spec _ _ _ _ _ _ _ _ _ _ hp
    have h2 : scope_state w2.trace = some (some "hfsplus_link") := by
      rw [hw2]
      simp only [List.append_assoc]
      rw [scope_state_append, List.foldl_append, scope_collisions δ _ _ _ hδ, h]
      rfl
    simp only [hp] at hl
    by_cases hr : res ≠ 0
    · rw [if_pos hr] at hl
      simp only [Except.ok.injEq] at hl
      subst hl
      simp [link_out, hfsplus_journal_stop, mutex_unlock, World.log, scope_state_append, h2,
        scope_step]
    · rw [if_neg hr] at hl
      split at hl
      · simp only [Except.ok.injEq] at hl
        subst hl
        simp [link_out, hfsplus_journal_stop, mutex_unlock, World.log, scope_state_append, h2,
          scope_step, hfsplus_create_cat]
      · simp only [Except.ok.injEq] at hl
        subst hl
        apply scope_link_tail
        simp [World.log, scope_state_append, h2, scope_step, hfsplus_create_cat]

theorem scope_link (env : Env) (fuel : Nat) (w : World) (src_dentry : Dentry)
    (inode src_dir dst_dir : Inode) (dst_dentry : Dentry) (out : LinkOut)
    (h : scope_state w.trace = some none)
    (hl : hfsplus_link env fuel w src_dentry inode src_dir dst_dir dst_dentry = .ok out) :
    scope_state out.w.trace = some none := by
  unfold hfsplus_link at hl
  split at hl
  · simp only [Except.ok.injEq] at hl; subst hl; exact h
  split at hl
  · simp only [Except.ok.injEq] at hl; subst hl; exact h
  simp only [hfsplus_journal_start] at hl
  by_cases hj : env.journal_start w.trace ≠ 0
  · rw [if_pos hj] at hl
    simp only [Except.ok.injEq] at hl; subst hl
    simp [hj, World.log, scope_state_append, h, scope_step]
  · rw [if_neg hj] at hl
    have hj0 : env.journal_start w.trace = 0 := by simpa using hj
    have h1 : scope_state (mutex_lock (w.log (Event.journal_start "hfsplus_link"
        (env.journal_start w.trace)))).trace = some (some "hfsplus_link") := by
      simp [mutex_lock, World.log, scope_state_append, h, scope_step, hj0]
    generalize mutex_lock (w.log (Event.journal_start "hfsplus_link"
        (env.journal_start w.trace))) = w1 at hl h1
    unfold link_locked at hl
    split at hl
    · split at hl
      · simp at hl
      · exact scope_link_promoted _ _ _ _ _ _ _ _ _ _ h1 hl
    · simp only [Except.ok.injEq] at hl
      subst hl
      exact scope_link_tail _ _ _ _ _ _ h1

theorem scope_unlink_tail (env : Env) (w : World) (inode : Inode)
    (h : scope_state w.trace = some (some "hfsplus_unlink")) :
    scope_state (unlink_tail env w inode).w.trace = some none := by
  simp [unlink_tail, unlink_out, hfsplus_journal_stop, mutex_unlock, World.log,
    scope_state_append, h, scope_step, hfsplus_journalled_mark_inode_dirty]

theorem scope_unlink_locked (env : Env) (w : World) (dir : Inode) (dentry : Dentry)
    (inode : Inode) (u : UnlinkOut)
    (h : scope_state w.trace = some (some "hfsplus_unlink"))
    (hu : unlink_locked env w dir dentry inode = .ok u) :
    scope_state u.w.trace = some none := by
  unfold unlink_locked at hu
  dsimp only at hu
  by_cases hc : inode.i_ino = dentry.d_fsdata % U32 ∧ inode.opencnt ≠ 0
  · rw [if_pos hc] at hu
    unfold unlink_deferred at hu
    cases hh : w.hidden_dir with
    | none => simp [hh] at hu
    | some hidden =>
      simp only [hh, Except.ok.injEq] at hu
      subst hu
      simp [unlink_out, hfsplus_journal_stop, mutex_unlock, World.log, scope_state_append, h,
        scope_step, hfsplus_rename_cat]
  · rw [if_neg hc] at hu
    by_cases hd0 : (hfsplus_delete_cat env w (dentry.d_fsdata % U32) dir
        (some dentry.d_name)).1 ≠ 0
    · rw [if_pos hd0] at hu
      simp only [Except.ok.injEq] at hu; subst hu
      simp [unlink_out, hfsplus_journal_stop, mutex_unlock, World.log, scope_state_append, h,
        scope_step, hfsplus_delete_cat]
    · rw [if_neg hd0] at hu
      have h1 : scope_state (hfsplus_delete_cat env w (dentry.d_fsdata % U32) dir
          (some dentry.d_name)).2.trace = some (some "hfsplus_unlink") := by
        simp [hfsplus_delete_cat, scope_state_append, h, scope_step]
      generalize (hfsplus_delete_cat env w (dentry.d_fsdata % U32) dir
          (some dentry.d_name)).2 = w1 at hu h1
      unfold unlink_deleted at hu
      dsimp only at hu
      generalize unlink_nlink inode (dentry.d_fsdata % U32) = ino2 at hu
      by_cases h0 : ino2.i_nlink = 0
      · rw [if_pos h0] at hu
        by_cases hne : ino2.i_ino ≠ dentry.d_fsdata % U32
        · rw [if_pos hne] at hu
          unfold unlink_last_link at hu
          dsimp only at hu
          by_cases ho : ino2.opencnt = 0
          · rw [if_pos ho] at hu
            cases hh : w1.hidden_dir with
            | none => simp [hh] at hu
            | some hidden =>
              simp only [hh, Except.ok.injEq] at hu
              subst hu
              apply scope_unlink_tail
              split
              all_goals
                simp [hfsplus_delete_inode, hfsplus_delete_cat, World.log, scope_state_append,
                  h1, scope_step]
          · rw [if_neg ho] at hu
            simp only [Except.ok.injEq] at hu; subst hu
            exact scope_unlink_tail _ _ _ h1
        · rw [if_neg hne] at hu
          simp only [Except.ok.injEq] at hu; subst hu
          apply scope_unlink_tail
          simp [hfsplus_delete_inode, World.log, scope_state_append, h1, scope_step]
      · rw [if_neg h0] at hu
        simp only [Except.ok.injEq] at hu; subst hu
        exact scope_unlink_tail _ _ _ h1

theorem scope_unlink (env : Env) (w : World) (dir : Inode) (dentry : Dentry) (inode : Inode)
    (u : UnlinkOut) (h : scope_state w.trace = some none)
    (hu : hfsplus_unlink env w dir dentry inode = .ok u) :
    scope_state u.w.trace = some none := by
  unfold hfsplus_unlink at hu
  split at hu
  · simp only [Except.ok.injEq] at hu; subst hu; exact h
  simp only [hfsplus_journal_start] at hu
  by_cases hj : env.journal_start w.trace ≠ 0
  · rw [if_pos hj] at hu
    simp only [Except.ok.injEq] at hu; subst hu
    simp [hj, World.log, scope_state_append, h, scope_step]
  · rw [if_neg hj] at hu
    have hj0 : env.journal_start w.trace = 0 := by simpa using hj
    apply scope_unlink_locked env _ dir dentry inode u _ hu
    simp [mutex_lock, World.log, scope_state_append, h, scope_step, hj0]

theorem scope_rename_tail (env : Env) (w : World) (old_dir : Inode) (old_dentry : Dentry)
    (new_dir : Inode) (new_dentry : Dentry) (new_inode : Option Inode)
    (h : scope_state w.trace = some none) :
    scope_state (rename_tail env w old_dir old_dentry new_dir new_dentry new_inode).w.trace
      = some none := by
  unfold rename_tail
  simp only [hfsplus_journal_start]
  by_cases hj : env.journal_start w.trace ≠ 0
  · simp [hj, World.log, scope_state_append, h, scope_step]
  · have hj0 : env.journal_start w.trace = 0 := by simpa using hj
    simp [hj0, hfsplus_journal_stop, World.log, scope_state_append, h, scope_step,
      hfsplus_rename_cat]

theorem scope_rename (env : Env) (w : World) (old_dir : Inode) (old_dentry : Dentry)
    (new_dir : Inode) (new_dentry : Dentry) (new_inode : Option Inode) (out : RenameOut)
    (h : scope_state w.trace = some none)
    (hr : hfsplus_rename env w old_dir old_dentry new_dir new_dentry new_inode = .ok out) :
    scope_state out.w.trace = some none := by
  unfold hfsplus_rename at hr
  cases new_inode with
  | none =>
    simp only [Except.ok.injEq] at hr
    subst hr
    exact scope_rename_tail _ _ _ _ _ _ _ h
  | some ni =>
    simp only at hr
    by_cases hdir : S_ISDIR ni.i_mode = true
    · rw [if_pos hdir] at hr
      have h1 := scope_rmdir env w new_dir new_dentry ni h
      by_cases h0 : (hfsplus_rmdir env w new_dir new_dentry ni).res ≠ 0
      · rw [if_pos h0] at hr
        simp only [Except.ok.injEq] at hr
        subst hr
        exact h1
      · rw [if_neg h0] at hr
        simp only [Except.ok.injEq] at hr
        subst hr
        exact scope_rename_tail _ _ _ _ _ _ _ h1
    · rw [if_neg hdir] at hr
      cases hu : hfsplus_unlink env w new_dir new_dentry ni with
      | error x => simp [hu] at hr
      | ok u =>
        have h1 := scope_unlink env w new_dir new_dentry ni u h hu
        simp only [hu] at hr
        by_cases h0 : u.res ≠ 0
        · rw [if_pos h0] at hr
          simp only [Except.ok.injEq] at hr
          subst hr
          exact h1
        · rw [if_neg h0] at hr
          simp only [Except.ok.injEq] at hr
          subst hr
          exact scope_rename_tail _ _ _ _ _ _ _ h1

/-- C9: starting with no transaction scope open, every return of `hfsplus_create`,
`hfsplus_mkdir`, `hfsplus_mknod`, `hfsplus_symlink`, `hfsplus_link`, `hfsplus_unlink`,
`hfsplus_rmdir` and `hfsplus_rename` leaves a trace in which each scope that was
successfully begun has been stopped, by its own handle, before the next one is begun and
before the return, and no stop occurs without an open scope. -/
theorem scopes_closed_once (env : Env) (w : World) (h : scope_state w.trace = some none) :
    (∀ dir dentry mode, scope_state (hfsplus_create env w dir dentry mode).w.trace = some none) ∧
    (∀ dir dentry mode, scope_state (hfsplus_mkdir env w dir dentry mode).w.trace = some none) ∧
    (∀ dir dentry mode, scope_state (hfsplus_mknod env w dir dentry mode).w.trace = some none) ∧
    (∀ dir dentry, scope_state (hfsplus_symlink env w dir dentry).w.trace = some none) ∧
    (∀ fuel src_dentry inode src_dir dst_dir dst_dentry out,
      hfsplus_link env fuel w src_dentry inode src_dir dst_dir dst_dentry = .ok out →
      scope_state out.w.trace = some none) ∧
    (∀ dir dentry inode u, hfsplus_unlink env w dir dentry inode = .ok u →
      scope_state u.w.trace = some none) ∧
    (∀ dir dentry inode, scope_state (hfsplus_rmdir env w dir dentry inode).w.trace = some none) ∧
    (∀ old_dir old_dentry new_dir new_dentry new_inode out,
      hfsplus_rename env w old_dir old_dentry new_dir new_dentry new_inode = .ok out →
      scope_state out.w.trace = some none) := by
  refine ⟨?_, ?_, ?_, ?_, ?_, ?_, ?_, ?_⟩
  · intro dir dentry mode
    exact scope_mknod env w dir dentry mode h
  · intro dir dentry mode
    unfold hfsplus_mkdir
    split
    · exact h
    · exact scope_mknod env w dir dentry _ h
  · intro dir dentry mode
    exact scope_mknod env w dir dentry mode h
  · intro dir dentry
    exact scope_symlink env w dir dentry h
  · intro fuel src_dentry inode src_dir dst_dir dst_dentry out hl
    exact scope_link env fuel w src_dentry inode src_dir dst_dir dst_dentry out h hl
  · intro dir dentry inode u hu
    exact scope_unlink env w dir dentry inode u h hu
  · intro dir dentry inode
    exact scope_rmdir env w dir dentry inode h
  · intro old_dir old_dentry new_dir new_dentry new_inode out hr
    exact scope_rename env w old_dir old_dentry new_dir new_dentry new_inode out h hr

theorem scopes_closed_once_witness :
    scope_state (returned (hfsplus_link env_ok 1 (world_of [(⟨2, "a"⟩, file_rec 1000)])
        ⟨"a", 1000, some 1000⟩ inode_1000 root2 root2 dentry_b)
      ⟨0, world_of [], inode_1000, dentry_a, dentry_b⟩).w.trace = some none :=
  (scopes_closed_once env_ok (world_of [(⟨2, "a"⟩, file_rec 1000)]) rfl).2.2.2.2.1 1
    ⟨"a", 1000, some 1000⟩ inode_1000 root2 root2 dentry_b _ (by rfl)

/-! ## Failure to begin the transaction scope -/

/-- C10 (evaluation at the failing input): when the transaction scope cannot be begun
(`-EIO`), `hfsplus_lookup` returns `NULL`, the value of a lookup without error, having
made no other call: the error `-EIO` does not reach the caller. -/
theorem lookup_begin_error_lost :
    (hfsplus_lookup env_nojournal 3 (world_of cat_chain) root2 dentry_a).map
        (fun r => (r.ret, r.w.trace, r.inode))
      = .ok (.null, [Event.journal_start "hfsplus_lookup" (- EIO)], none) := by
  rfl

/-- Whenever the transaction scope cannot be begun, `hfsplus_lookup` returns `NULL`. -/
theorem lookup_begin_error (env : Env) (fuel : Nat) (w : World) (dir : Inode)
    (dentry : Dentry) (h : env.journal_start w.trace ≠ 0) :
    hfsplus_lookup env fuel w dir dentry =
      .ok ⟨.null, w.log (.journal_start "hfsplus_lookup" (env.journal_start w.trace)), dir,
        dentry, none⟩ := by
  simp [hfsplus_lookup, hfsplus_journal_start, h]

/-- The catalog-mutating operations return the error of a failed begin of their
transaction scope unchanged: create, mknod, mkdir outside the hidden directory, symlink,
rmdir, link and unlink of an accepted object, and rename without a destination. -/
theorem begin_error_returned (env : Env) (w : World) (h : env.journal_start w.trace ≠ 0) :
    (∀ dir dentry mode, (hfsplus_create env w dir dentry mode).res = env.journal_start w.trace) ∧
    (∀ dir dentry mode, (hfsplus_mknod env w dir dentry mode).res = env.journal_start w.trace) ∧
    (∀ dir dentry mode, dir.i_ino ≠ 19 →
      (hfsplus_mkdir env w dir dentry mode).res = env.journal_start w.trace) ∧
    (∀ dir dentry, (hfsplus_symlink env w dir dentry).res = env.journal_start w.trace) ∧
    (∀ dir dentry inode, (hfsplus_rmdir env w dir dentry inode).res = env.journal_start w.trace) ∧
    (∀ fuel src_dentry inode src_dir dst_dir dst_dentry,
      inode.rsrc = false → S_ISREG inode.i_mode = true →
      (hfsplus_link env fuel w src_dentry inode src_dir dst_dir dst_dentry).map
        (fun o => o.res) = .ok (env.journal_start w.trace)) ∧
    (∀ dir dentry inode, inode.rsrc = false →
      (hfsplus_unlink env w dir dentry inode).map (fun o => o.res)
        = .ok (env.journal_start w.trace)) ∧
    (∀ old_dir old_dentry new_dir new_dentry,
      (hfsplus_rename env w old_dir old_dentry new_dir new_dentry none).map (fun o => o.res)
        = .ok (env.journal_start w.trace)) := by
  refine ⟨?_, ?_, ?_, ?_, ?_, ?_, ?_, ?_⟩
  · intro dir dentry mode
    simp [hfsplus_create, hfsplus_mknod, hfsplus_journal_start, h]
  · intro dir dentry mode
    simp [hfsplus_mknod, hfsplus_journal_start, h]
  · intro dir dentry mode hd
    simp [hfsplus_mkdir, hd, hfsplus_mknod, hfsplus_journal_start, h]
  · intro dir dentry
    simp [hfsplus_symlink, hfsplus_journal_start, h]
  · intro dir dentry inode
    simp [hfsplus_rmdir, hfsplus_journal_start, h]
  · intro fuel src_dentry inode src_dir dst_dir dst_dentry hr hreg
    simp [hfsplus_link, hfsplus_journal_start, h, hr, hreg, Except.map]
  · intro dir dentry inode hr
    simp [hfsplus_unlink, hfsplus_journal_start, h, hr, Except.map]
  · intro old_dir old_dentry new_dir new_dentry
    simp [hfsplus_rename, rename_tail, hfsplus_journal_start, h, Except.map]

/-! ## Errors inside `hfsplus_unlink` and allocation failures -/

/-- When the last pointer entry of an object without open handle is gone, the value
`hfsplus_unlink` returns is the result of the journalled dirty-mark, whatever the delete
of the indirection node returned. -/
theorem unlink_last_link_res (env : Env) (w : World) (inode : Inode) (hidden : Inode) (u : UnlinkOut)
    (ho : inode.opencnt = 0) (hh : w.hidden_dir = some hidden)
    (hu : unlink_last_link env w inode = .ok u) :
    ∃ t, u.w.trace = t ++ [.mark_inode_dirty inode.i_ino (env.mark_inode_dirty t),
        .journal_stop "hfsplus_unlink", .mutex_unlock] ∧
      u.res = env.mark_inode_dirty t ∧
      (Event.delete_cat inode.i_ino hidden.i_ino none
        (delete_cat_res env { w with file_count := u32_dec w.file_count } inode.i_ino hidden none))
        ∈ t := by
  obtain ⟨cat, nc, fc, sd, hdir, rcd, tr⟩ := w
  simp only at hh
  subst hh
  simp only [unlink_last_link, ho, if_true] at hu
  injection hu with hu
  subst hu
  by_cases hd : delete_cat_res env ⟨cat, nc, u32_dec fc, sd, some hidden, rcd, tr⟩ inode.i_ino
      hidden none = 0
  · refine ⟨tr ++ [.delete_cat inode.i_ino hidden.i_ino none 0,
      .delete_inode inode.i_ino], ?_⟩
    simp [unlink_tail, unlink_out, hfsplus_journalled_mark_inode_dirty,
      hfsplus_journal_stop, mutex_unlock, World.log, hfsplus_delete_cat, hd,
      hfsplus_delete_inode]
  · refine ⟨tr ++ [.delete_cat inode.i_ino hidden.i_ino none
        (delete_cat_res env ⟨cat, nc, u32_dec fc, sd, some hidden, rcd, tr⟩ inode.i_ino hidden
          none)],
      ?_⟩
    simp [unlink_tail, unlink_out, hfsplus_journalled_mark_inode_dirty,
      hfsplus_journal_stop, mutex_unlock, World.log, hfsplus_delete_cat, hd,
      hfsplus_delete_inode]

/-- C11 (evaluation at the failing input): unlinking the last pointer entry `b` of the
file 30 (no open handle) when the delete of the indirection node `iNode7` fails with
`-EIO` and the dirty-mark succeeds: `hfsplus_unlink` returns 0, the node is still in the
catalog, and the error `-EIO` of the node delete does not reach the caller. -/
theorem unlink_node_delete_error_lost :
    (hfsplus_unlink env_node_fault (world_of cat_one_ptr) root2 ⟨"b", 1002, some 30⟩
      { inode_30 with i_nlink := 1 }).map (fun u => (u.res, u.w.trace, u.w.cat))
    = .ok (0,
        [.journal_start "hfsplus_unlink" 0, .mutex_lock,
         .delete_cat 1002 2 (some "b") 0, .delete_cat 30 19 none (- EIO),
         .mark_inode_dirty 30 0, .journal_stop "hfsplus_unlink", .mutex_unlock],
        [(⟨19, "iNode7"⟩, file_rec 30)]) := by
  rfl

/-- When the allocator hands out no object and the transaction scope could be begun,
`hfsplus_mknod`, `hfsplus_create`, `hfsplus_mkdir` (outside folder 19) and
`hfsplus_symlink` return 0 and leave the catalog unchanged. -/
theorem alloc_failure_result (env : Env) (w : World) (dir : Inode) (dentry : Dentry) (mode : Nat)
    (hj : env.journal_start w.trace = 0)
    (ha : ∀ t m, env.new_inode t m = none) :
    (hfsplus_mknod env w dir dentry mode).res = 0 ∧
    (hfsplus_mknod env w dir dentry mode).w.cat = w.cat ∧
    (hfsplus_create env w dir dentry mode).res = 0 ∧
    (hfsplus_create env w dir dentry mode).w.cat = w.cat ∧
    (dir.i_ino ≠ 19 → (hfsplus_mkdir env w dir dentry mode).res = 0 ∧
      (hfsplus_mkdir env w dir dentry mode).w.cat = w.cat) ∧
    (hfsplus_symlink env w dir dentry).res = 0 ∧
    (hfsplus_symlink env w dir dentry).w.cat = w.cat := by
  have hm : ∀ mode, (hfsplus_mknod env w dir dentry mode).res = 0 ∧
      (hfsplus_mknod env w dir dentry mode).w.cat = w.cat := by
    intro mode
    simp [hfsplus_mknod, hfsplus_journal_start, hj, mknod_locked, hfsplus_new_inode, ha,
      mknod_out, mutex_lock, mutex_unlock, hfsplus_journal_stop, World.log]
  refine ⟨(hm mode).1, (hm mode).2, (hm mode).1, (hm mode).2, ?_, ?_, ?_⟩
  · intro hd
    simp only [hfsplus_mkdir, if_neg hd]
    exact hm _
  · simp [hfsplus_symlink, hfsplus_journal_start, hj, symlink_locked, hfsplus_new_inode, ha,
      mutex_lock, mutex_unlock, hfsplus_journal_stop, World.log]
  · simp [hfsplus_symlink, hfsplus_journal_start, hj, symlink_locked, hfsplus_new_inode, ha,
      mutex_lock, mutex_unlock, hfsplus_journal_stop, World.log]

/-- C12 (evaluation at the failing input): with an allocator that hands out no object,
`hfsplus_mknod`, `hfsplus_create`, `hfsplus_mkdir` and `hfsplus_symlink` in the root all
return 0, not `-ENOSPC`; `hfsplus_mknod` made no catalog call. -/
theorem alloc_failure_returns_success :
    ((hfsplus_mknod env_ok (world_of []) root2 dentry_a (S_IFREG ||| 0o644)).res,
     (hfsplus_create env_ok (world_of []) root2 dentry_a (S_IFREG ||| 0o644)).res,
     (hfsplus_mkdir env_ok (world_of []) root2 dentry_a 0o755).res,
     (hfsplus_symlink env_ok (world_of []) root2 dentry_a).res,
     (hfsplus_mknod env_ok (world_of []) root2 dentry_a (S_IFREG ||| 0o644)).w.trace)
    = (0, 0, 0, 0,
       [.journal_start "hfsplus_mknod" 0, .mutex_lock, .new_inode (S_IFREG ||| 0o644) none,
        .journal_stop "hfsplus_mknod", .mutex_unlock]) := by
  rfl

/-! ## Change time and dirty-mark in `hfsplus_unlink` -/

theorem unlink_nlink_ino (inode : Inode) (cnid : Nat) :
    (unlink_nlink inode cnid).i_ino = inode.i_ino := by
  cases inode
  simp only [unlink_nlink, drop_nlink, clear_nlink]
  split <;> split <;> rfl

theorem unlink_tail_spec (env : Env) (w : World) (inode : Inode) :
    (unlink_tail env w inode).w.trace = w.trace ++
      [.mark_inode_dirty inode.i_ino (env.mark_inode_dirty w.trace),
       .journal_stop "hfsplus_unlink", .mutex_unlock] ∧
    (unlink_tail env w inode).inode.i_ctime = env.current_time_sec w.trace ∧
    (unlink_tail env w inode).res = env.mark_inode_dirty w.trace := by
  simp [unlink_tail, unlink_out, hfsplus_journalled_mark_inode_dirty, hfsplus_journal_stop,
    mutex_unlock, World.log]

theorem unlink_deleted_tail (env : Env) (w : World) (inode : Inode) (cnid : Nat)
    (u : UnlinkOut) (hu : unlink_deleted env w inode cnid = .ok u) :
    ∃ w2 i2, u = unlink_tail env w2 i2 ∧ i2.i_ino = inode.i_ino := by
  unfold unlink_deleted at hu
  dsimp only at hu
  have hino := unlink_nlink_ino inode cnid
  generalize unlink_nlink inode cnid = ino2 at hu hino
  by_cases h0 : ino2.i_nlink = 0
  · rw [if_pos h0] at hu
    by_cases hne : ino2.i_ino ≠ cnid
    · rw [if_pos hne] at hu
      unfold unlink_last_link at hu
      dsimp only at hu
      by_cases ho : ino2.opencnt = 0
      · rw [if_pos ho] at hu
        split at hu
        · simp at hu
        · simp only [Except.ok.injEq] at hu
          exact ⟨_, _, hu.symm, hino⟩
      · rw [if_neg ho] at hu
        simp only [Except.ok.injEq] at hu
        exact ⟨_, _, hu.symm, hino⟩
    · rw [if_neg hne] at hu
      simp only [Except.ok.injEq] at hu
      exact ⟨_, _, hu.symm, hino⟩
  · rw [if_neg h0] at hu
    simp only [Except.ok.injEq] at hu
    exact ⟨_, _, hu.symm, hino⟩

/-- C13 (counterexample): unlinking the canonical entry `a` of the file 30 while it has an
open handle begins the scope, renames the entry to `temp30` in the hidden directory and
returns 0 with no dirty-mark issued and the change time left at 0 (the clock reads
1000). -/
theorem unlink_deferred_no_dirty_mark :
    (hfsplus_unlink env_ok (world_of cat_plain) root2 ⟨"a", 30, some 30⟩ inode_30_open).map
      (fun u => (u.res, u.w.trace, u.inode.i_ctime, dirty_marks u.w.trace))
    = .ok (0,
        [.journal_start "hfsplus_unlink" 0, .mutex_lock,
         .rename_cat 30 ⟨2, "a"⟩ ⟨19, "temp30"⟩ 0,
         .journal_stop "hfsplus_unlink", .mutex_unlock],
        0, 0) := by
  rfl

/-- C13 (amended): for a return of `hfsplus_unlink` after its scope was begun: on the
path where the entry is not the canonical entry of an open object and its catalog delete
succeeded, the change time is set to the current time and the journalled dirty-mark is
the last call before the scope is stopped and the lock released, its result being the
value returned; on the deferred-deletion path and when the catalog delete of the entry
failed, no dirty-mark is issued and the change time is left unchanged. -/
theorem unlink_dirty_mark (env : Env) (w : World) (dir : Inode) (dentry : Dentry)
    (inode : Inode) (u : UnlinkOut)
    (hr : inode.rsrc = false) (hj : env.journal_start w.trace = 0)
    (hu : hfsplus_unlink env w dir dentry inode = .ok u) :
    (¬ (inode.i_ino = dentry.d_fsdata % U32 ∧ inode.opencnt ≠ 0) →
      delete_cat_res env (mutex_lock (w.log (.journal_start "hfsplus_unlink" 0)))
        (dentry.d_fsdata % U32) dir (some dentry.d_name) = 0 →
      ∃ t, u.w.trace = t ++ [.mark_inode_dirty inode.i_ino (env.mark_inode_dirty t),
          .journal_stop "hfsplus_unlink", .mutex_unlock] ∧
        u.inode.i_ctime = env.current_time_sec t ∧ u.res = env.mark_inode_dirty t) ∧
    ((inode.i_ino = dentry.d_fsdata % U32 ∧ inode.opencnt ≠ 0) ∨
      delete_cat_res env (mutex_lock (w.log (.journal_start "hfsplus_unlink" 0)))
        (dentry.d_fsdata % U32) dir (some dentry.d_name) ≠ 0 →
      dirty_marks u.w.trace = dirty_marks w.trace ∧ u.inode.i_ctime = inode.i_ctime) := by
  unfold hfsplus_unlink at hu
  simp only [hr, hfsplus_journal_start, hj] at hu
  simp only [Bool.false_eq_true, if_false, ne_eq, not_true_eq_false] at hu
  generalize hw1 : mutex_lock (w.log (.journal_start "hfsplus_unlink" 0)) = w1 at hu ⊢
  have ht : w1.trace = w.trace ++ [.journal_start "hfsplus_unlink" 0, .mutex_lock] := by
    rw [← hw1]
    simp [mutex_lock, World.log]
  unfold unlink_locked at hu
  dsimp only at hu
  by_cases hc : inode.i_ino = dentry.d_fsdata % U32 ∧ inode.opencnt ≠ 0
  · rw [if_pos hc] at hu
    refine ⟨fun h => absurd hc h, fun _ => ?_⟩
    unfold unlink_deferred at hu
    cases hh : w1.hidden_dir with
    | none => simp [hh] at hu
    | some hidden =>
      simp only [hh, Except.ok.injEq] at hu
      subst hu
      constructor
      · simp [unlink_out, hfsplus_journal_stop, mutex_unlock, World.log, hfsplus_rename_cat,
          ht, dirty_marks]
      · simp only [unlink_out]
        split
        · unfold drop_nlink
          rfl
        · rfl
  · rw [if_neg hc] at hu
    have hres : (hfsplus_delete_cat env w1 (dentry.d_fsdata % U32) dir (some dentry.d_name)).1
        = delete_cat_res env w1 (dentry.d_fsdata % U32) dir (some dentry.d_name) := rfl
    by_cases hd0 : (hfsplus_delete_cat env w1 (dentry.d_fsdata % U32) dir
        (some dentry.d_name)).1 ≠ 0
    · rw [if_pos hd0] at hu
      simp only [Except.ok.injEq] at hu
      subst hu
      refine ⟨fun _ h0 => absurd (hres.trans h0) hd0, fun _ => ?_⟩
      constructor
      · simp [unlink_out, hfsplus_journal_stop, mutex_unlock, World.log, hfsplus_delete_cat,
          ht, dirty_marks]
      · rfl
    · rw [if_neg hd0] at hu
      have hd1 : delete_cat_res env w1 (dentry.d_fsdata % U32) dir (some dentry.d_name) = 0 := by
        rw [← hres]
        simpa using hd0
      refine ⟨fun _ _ => ?_, fun h => ?_⟩
      · obtain ⟨w2, i2, hu2, hi2⟩ := unlink_deleted_tail _ _ _ _ _ hu
        obtain ⟨h1, h2, h3⟩ := unlink_tail_spec env w2 i2
        refine ⟨w2.trace, ?_, ?_, ?_⟩
        · rw [hu2, h1, hi2]
        · rw [hu2, h2]
        · rw [hu2, h3]
      · rcases h with h | h
        · exact absurd h hc
        · exact absurd hd1 h

theorem unlink_dirty_mark_witness :
    (∃ t, (returned (hfsplus_unlink env_ok (world_of cat_plain) root2 ⟨"a", 30, some 30⟩
        { inode_30_open with opencnt := 0 }) ⟨0, world_of [], inode_30_open⟩).w.trace
        = t ++ [.mark_inode_dirty 30 (env_ok.mark_inode_dirty t),
          .journal_stop "hfsplus_unlink", .mutex_unlock]) := by
  have h := (unlink_dirty_mark env_ok (world_of cat_plain) root2 ⟨"a", 30, some 30⟩
    { inode_30_open with opencnt := 0 }
    (returned (hfsplus_unlink env_ok (world_of cat_plain) root2 ⟨"a", 30, some 30⟩
        { inode_30_open with opencnt := 0 }) ⟨0, world_of [], inode_30_open⟩)
    (by rfl) (by rfl) (by rfl)).1 (by decide) (by rfl)
  obtain ⟨t, h1, _, _⟩ := h
  exact ⟨t, h1⟩

/-! ## Deferred deletion in `hfsplus_unlink` -/

/-- C14: when the entry removed is the canonical entry of the object (its recorded
identity is the inode number) and the object has open handles, `hfsplus_unlink` (scope
begun, hidden directory present) returns having issued exactly one catalog call, the key
rewrite of the entry to `temp<inode number>` in the hidden directory, and no catalog
delete; the value it returns is the result of that rewrite on the catalog as the call
found it, which is 0 whenever the storage does not fail, the entry exists and the
temporary name is free; the file count is unchanged; when the rewrite succeeded the
object is flagged `S_DEAD`, its link count is decremented by one and nothing else of it
changes, and the record of the entry now stands under the temporary name and no longer
under the old one; when it failed the object and the catalog are unchanged. -/
theorem unlink_open_canonical (env : Env) (w : World) (dir : Inode) (dentry : Dentry)
    (inode hidden : Inode)
    (hr : inode.rsrc = false) (hj : env.journal_start w.trace = 0)
    (hh : w.hidden_dir = some hidden)
    (hc : inode.i_ino = dentry.d_fsdata % U32) (ho : inode.opencnt ≠ 0) :
    ∃ u, hfsplus_unlink env w dir dentry inode = .ok u ∧
      u.res = rename_cat_res env
        { w with trace := w.trace ++ [.journal_start "hfsplus_unlink" 0, .mutex_lock] }
        ⟨dir.i_ino, dentry.d_name⟩ ⟨hidden.i_ino, "temp" ++ fmt_lu inode.i_ino⟩ ∧
      u.w.trace = w.trace ++ [.journal_start "hfsplus_unlink" 0, .mutex_lock,
        .rename_cat inode.i_ino ⟨dir.i_ino, dentry.d_name⟩
          ⟨hidden.i_ino, "temp" ++ fmt_lu inode.i_ino⟩ u.res,
        .journal_stop "hfsplus_unlink", .mutex_unlock] ∧
      cat_deletes u.w.trace = cat_deletes w.trace ∧
      u.w.file_count = w.file_count ∧
      (env.cat_fault (w.trace ++ [.journal_start "hfsplus_unlink" 0, .mutex_lock]) = 0 →
        (cat_find w.cat ⟨dir.i_ino, dentry.d_name⟩).isSome →
        cat_find w.cat ⟨hidden.i_ino, "temp" ++ fmt_lu inode.i_ino⟩ = none → u.res = 0) ∧
      (u.res = 0 →
        u.inode = { inode with i_flags := inode.i_flags ||| S_DEAD,
                               i_nlink := u32_dec inode.i_nlink } ∧
        (0 < inode.i_nlink → inode.i_nlink < U32 → u.inode.i_nlink + 1 = inode.i_nlink) ∧
        u.w.cat = cat_moved w.cat ⟨dir.i_ino, dentry.d_name⟩
          ⟨hidden.i_ino, "temp" ++ fmt_lu inode.i_ino⟩ ∧
        cat_find u.w.cat ⟨dir.i_ino, dentry.d_name⟩ = none ∧
        (∃ e, cat_find w.cat ⟨dir.i_ino, dentry.d_name⟩ = some e ∧
          cat_find u.w.cat ⟨hidden.i_ino, "temp" ++ fmt_lu inode.i_ino⟩ = some e)) ∧
      (u.res ≠ 0 → u.inode = inode ∧ u.w.cat = w.cat) := by
  obtain ⟨cat, nc, fc, sd, hdir, rcd, tr⟩ := w
  simp only at hh hj
  subst hh
  have hcond : inode.i_ino = dentry.d_fsdata % U32 ∧ inode.opencnt ≠ 0 := ⟨hc, ho⟩
  have hu : hfsplus_unlink env ⟨cat, nc, fc, sd, some hidden, rcd, tr⟩ dir dentry inode
      = .ok (unlink_out
          (hfsplus_rename_cat env ⟨cat, nc, fc, sd, some hidden, rcd,
            tr ++ [.journal_start "hfsplus_unlink" 0, .mutex_lock]⟩ inode.i_ino dir
            dentry.d_name hidden ("temp" ++ fmt_lu inode.i_ino)).1
          (hfsplus_rename_cat env ⟨cat, nc, fc, sd, some hidden, rcd,
            tr ++ [.journal_start "hfsplus_unlink" 0, .mutex_lock]⟩ inode.i_ino dir
            dentry.d_name hidden ("temp" ++ fmt_lu inode.i_ino)).2
          (if (hfsplus_rename_cat env ⟨cat, nc, fc, sd, some hidden, rcd,
            tr ++ [.journal_start "hfsplus_unlink" 0, .mutex_lock]⟩ inode.i_ino dir
            dentry.d_name hidden ("temp" ++ fmt_lu inode.i_ino)).1 = 0
            then drop_nlink { inode with i_flags := inode.i_flags ||| S_DEAD } else inode)) := by
    simp only [hfsplus_unlink, hr, hfsplus_journal_start, hj, unlink_locked, mutex_lock,
      World.log, unlink_deferred]
    simp only [Bool.false_eq_true, if_false, ne_eq, not_true_eq_false]
    rw [if_pos hcond]
    simp only [List.append_assoc, List.singleton_append]
  refine ⟨_, hu, ?_⟩
  simp only [unlink_out, hfsplus_journal_stop, mutex_unlock, World.log, hfsplus_rename_cat,
    hfsplus_cat_build_key, List.append_assoc, List.singleton_append, List.cons_append,
    List.nil_append, true_and]
  refine ⟨?_, ?_, ?_, ?_⟩
  · simp [cat_deletes]
  · intro hf hsrc hdst
    unfold rename_cat_res
    simp only [hf, ne_eq, not_true_eq_false, if_false]
    cases hs : cat_find cat ⟨dir.i_ino, dentry.d_name⟩ with
    | none => simp [hs] at hsrc
    | some e => simp [hdst]
  · intro h0
    rw [if_pos h0, if_pos h0]
    obtain ⟨_, ⟨e, he⟩, hd⟩ := rename_cat_res_zero _ _ _ _ h0
    simp only at he hd
    have hne : (⟨dir.i_ino, dentry.d_name⟩ : hfsplus_cat_key)
        ≠ ⟨hidden.i_ino, "temp" ++ fmt_lu inode.i_ino⟩ := by
      intro heq
      rw [heq, hd] at he
      cases he
    refine ⟨?_, ?_, rfl, ?_, ⟨e, he, ?_⟩⟩
    · unfold drop_nlink
      rfl
    · intro h1 h2
      unfold drop_nlink u32_dec
      show (inode.i_nlink + U32 - 1) % U32 + 1 = inode.i_nlink
      have : inode.i_nlink + U32 - 1 = (inode.i_nlink - 1) + U32 := by omega
      rw [this, Nat.add_mod_right, Nat.mod_eq_of_lt (by omega)]
      omega
    · simp only [cat_moved, he]
      rw [cat_find_insert_ne _ _ _ _ (Ne.symm hne), cat_find_delete_self]
    · simp only [cat_moved, he]
      rw [cat_find_insert_self]
      rw [cat_find_delete_ne _ _ _ hne]
      exact hd
  · intro h0
    rw [if_neg h0, if_neg h0]
    exact ⟨rfl, rfl⟩

theorem unlink_open_canonical_witness :
    (∃ u, hfsplus_unlink env_ok (world_of cat_plain) root2 ⟨"a", 30, some 30⟩ inode_30_open
        = .ok u ∧ u.res = 0 ∧
      u.w.trace = [.journal_start "hfsplus_unlink" 0, .mutex_lock,
        .rename_cat 30 ⟨2, "a"⟩ ⟨19, "temp30"⟩ 0,
        .journal_stop "hfsplus_unlink", .mutex_unlock] ∧
      u.inode = { inode_30_open with i_flags := S_DEAD, i_nlink := 0 } ∧
      u.w.cat = [(⟨19, "temp30"⟩, file_rec 30)] ∧ u.w.file_count = 10) ∧
    (∃ u, hfsplus_unlink env_ok (world_of []) root2 ⟨"a", 30, some 30⟩ inode_30_open
        = .ok u ∧ u.res = -ENOENT ∧
      u.w.trace = [.journal_start "hfsplus_unlink" 0, .mutex_lock,
        .rename_cat 30 ⟨2, "a"⟩ ⟨19, "temp30"⟩ (-ENOENT),
        .journal_stop "hfsplus_unlink", .mutex_unlock] ∧
      u.inode = inode_30_open ∧ u.w.cat = [] ∧ u.w.file_count = 10) := by
  constructor
  · obtain ⟨u, h1, _, h3, _, h5, h6, h7, _⟩ := unlink_open_canonical env_ok
      (world_of cat_plain) root2 ⟨"a", 30, some 30⟩ inode_30_open hidden19 (by rfl) (by rfl)
      (by rfl) (by decide) (by decide)
    have hz : u.res = 0 := h6 (by rfl) (by rfl) (by rfl)
    obtain ⟨a1, _, a3, _, _⟩ := h7 hz
    refine ⟨u, h1, hz, ?_, ?_, ?_, ?_⟩
    · rw [h3, hz]; rfl
    · rw [a1]; rfl
    · rw [a3]; rfl
    · rw [h5]; rfl
  · obtain ⟨u, h1, h2, h3, _, h5, _, _, h8⟩ := unlink_open_canonical env_ok
      (world_of []) root2 ⟨"a", 30, some 30⟩ inode_30_open hidden19 (by rfl) (by rfl)
      (by rfl) (by decide) (by decide)
    have hz : u.res = -ENOENT := by rw [h2]; rfl
    obtain ⟨a1, a2⟩ := h8 (by rw [hz]; decide)
    refine ⟨u, h1, hz, ?_, a1, ?_, ?_⟩
    · rw [h3, hz]; rfl
    · rw [a2]; rfl
    · rw [h5]; rfl

/-! ## Failure of `hfsplus_link` after the promotion -/

theorem link_tail_outcome (env : Env) (w : World) (inode : Inode) (src_dentry : Dentry)
    (dst_dir : Inode) (dst_dentry : Dentry) :
    (link_tail env w inode src_dentry dst_dir dst_dentry).inode.linkid = inode.linkid ∧
    (link_tail env w inode src_dentry dst_dir dst_dentry).src_dentry = src_dentry ∧
    (link_tail env w inode src_dentry dst_dir dst_dentry).w.next_cnid = u32_inc w.next_cnid ∧
    (((link_tail env w inode src_dentry dst_dir dst_dentry).w.trace = w.trace ++
        [.create_cat w.next_cnid ⟨dst_dir.i_ino, dst_dentry.d_name⟩
          (link_tail env w inode src_dentry dst_dir dst_dentry).res,
         .journal_stop "hfsplus_link", .mutex_unlock] ∧
      (link_tail env w inode src_dentry dst_dir dst_dentry).w.cat = w.cat) ∨
     ((link_tail env w inode src_dentry dst_dir dst_dentry).w.trace = w.trace ++
        [.create_cat w.next_cnid ⟨dst_dir.i_ino, dst_dentry.d_name⟩ 0,
         .mark_inode_dirty inode.i_ino
          (link_tail env w inode src_dentry dst_dir dst_dentry).res,
         .journal_stop "hfsplus_link", .mutex_unlock] ∧
      ∃ r2, (link_tail env w inode src_dentry dst_dir dst_dentry).w.cat
        = cat_insert w.cat ⟨dst_dir.i_ino, dst_dentry.d_name⟩ r2)) := by
  unfold link_tail
  dsimp only
  by_cases hc : (hfsplus_create_cat env { w with next_cnid := u32_inc w.next_cnid } w.next_cnid
      dst_dir dst_dentry.d_name inode).1 ≠ 0
  · rw [if_pos hc]
    have hc2 : ¬ create_cat_res env { w with next_cnid := u32_inc w.next_cnid }
        ⟨dst_dir.i_ino, dst_dentry.d_name⟩ = 0 := hc
    refine ⟨rfl, rfl, rfl, Or.inl ⟨?_, ?_⟩⟩
    · simp [link_out, hfsplus_journal_stop, mutex_unlock, World.log, hfsplus_create_cat,
        hfsplus_cat_build_key]
    · simp [link_out, hfsplus_journal_stop, mutex_unlock, World.log, hfsplus_create_cat,
        hfsplus_cat_build_key, hc2]
  · rw [if_neg hc]
    have hc2 : create_cat_res env { w with next_cnid := u32_inc w.next_cnid }
        ⟨dst_dir.i_ino, dst_dentry.d_name⟩ = 0 := by
      have : (hfsplus_create_cat env { w with next_cnid := u32_inc w.next_cnid } w.next_cnid
        dst_dir dst_dentry.d_name inode).1 = 0 := by simpa using hc
      exact this
    refine ⟨?_, rfl, ?_, Or.inr ⟨?_, ?_⟩⟩
    · simp [link_out, ihold, inc_nlink]
    · simp [link_out, hfsplus_journal_stop, mutex_unlock, World.log, hfsplus_create_cat,
        hfsplus_journalled_mark_inode_dirty]
    · simp [link_out, hfsplus_journal_stop, mutex_unlock, World.log, hfsplus_create_cat,
        hfsplus_cat_build_key, hc2, hfsplus_journalled_mark_inode_dirty, ihold, inc_nlink]
    · refine ⟨hfsplus_cat_build_record { w with next_cnid := u32_inc w.next_cnid } w.next_cnid
        inode, ?_⟩
      simp [link_out, hfsplus_journal_stop, mutex_unlock, World.log, hfsplus_create_cat,
        hfsplus_cat_build_key, hc2, hfsplus_journalled_mark_inode_dirty]

theorem link_promoted_outcome (env : Env) (fuel : Nat) (w : World) (src_dentry : Dentry)
    (inode src_dir dst_dir : Inode) (dst_dentry : Dentry) (hidden : Inode) (id : Nat)
    (w2 : World) (out : LinkOut)
    (hp : link_promote env fuel w inode src_dir src_dentry.d_name hidden = .ok (0, id, w2))
    (hl : link_promoted env fuel w src_dentry inode src_dir dst_dir dst_dentry hidden
      = .ok out) :
    out.inode.linkid = id ∧ out.src_dentry.d_fsdata = w2.next_cnid ∧
    link_failed_after w2 out inode src_dir dst_dir src_dentry.d_name dst_dentry.d_name := by
  unfold link_promoted at hl
  simp only [hp, ne_eq, not_true_eq_false, if_false] at hl
  by_cases hc1 : (hfsplus_create_cat env { w2 with next_cnid := u32_inc w2.next_cnid }
      w2.next_cnid src_dir src_dentry.d_name { inode with linkid := id }).1 = 0
  · rw [if_neg (by simpa using hc1)] at hl
    simp only [Except.ok.injEq] at hl
    have hr1 : create_cat_res env { w2 with next_cnid := u32_inc w2.next_cnid }
        ⟨src_dir.i_ino, src_dentry.d_name⟩ = 0 := hc1
    have ht3 : ({ (hfsplus_create_cat env { w2 with next_cnid := u32_inc w2.next_cnid }
        w2.next_cnid src_dir src_dentry.d_name { inode with linkid := id }).2 with
        file_count := u32_inc (hfsplus_create_cat env
          { w2 with next_cnid := u32_inc w2.next_cnid }
          w2.next_cnid src_dir src_dentry.d_name { inode with linkid := id }).2.file_count }
          : World).trace
        = w2.trace ++ [.create_cat w2.next_cnid ⟨src_dir.i_ino, src_dentry.d_name⟩ 0] := by
      simp [hfsplus_create_cat, hfsplus_cat_build_key, hr1]
    have hn3 : ({ (hfsplus_create_cat env { w2 with next_cnid := u32_inc w2.next_cnid }
        w2.next_cnid src_dir src_dentry.d_name { inode with linkid := id }).2 with
        file_count := u32_inc (hfsplus_create_cat env
          { w2 with next_cnid := u32_inc w2.next_cnid }
          w2.next_cnid src_dir src_dentry.d_name { inode with linkid := id }).2.file_count }
          : World).next_cnid = u32_inc w2.next_cnid := rfl
    have hcat3 : ∃ r1, ({ (hfsplus_create_cat env { w2 with next_cnid := u32_inc w2.next_cnid }
        w2.next_cnid src_dir src_dentry.d_name { inode with linkid := id }).2 with
        file_count := u32_inc (hfsplus_create_cat env
          { w2 with next_cnid := u32_inc w2.next_cnid }
          w2.next_cnid src_dir src_dentry.d_name { inode with linkid := id }).2.file_count }
          : World).cat = cat_insert w2.cat ⟨src_dir.i_ino, src_dentry.d_name⟩ r1 := by
      refine ⟨hfsplus_cat_build_record { w2 with next_cnid := u32_inc w2.next_cnid }
        w2.next_cnid { inode with linkid := id }, ?_⟩
      simp [hfsplus_create_cat, hfsplus_cat_build_key, hr1]
    generalize ({ (hfsplus_create_cat env { w2 with next_cnid := u32_inc w2.next_cnid }
        w2.next_cnid src_dir src_dentry.d_name { inode with linkid := id }).2 with
        file_count := u32_inc (hfsplus_create_cat env
          { w2 with next_cnid := u32_inc w2.next_cnid }
          w2.next_cnid src_dir src_dentry.d_name { inode with linkid := id }).2.file_count }
          : World) = w3 at hl ht3 hn3 hcat3
    subst hl
    obtain ⟨h1, h2, h3, h4⟩ := link_tail_outcome env w3 { inode with linkid := id }
      { src_dentry with d_fsdata := w2.next_cnid } dst_dir dst_dentry
    obtain ⟨r1, hr1c⟩ := hcat3
    refine ⟨h1, ?_, ?_⟩
    · rw [h2]
    · rcases h4 with ⟨h4t, h4c⟩ | ⟨h4t, r2, h4c⟩
      · refine Or.inr (Or.inl ⟨?_, ⟨r1, ?_⟩, ?_⟩)
        · rw [h4t, ht3, hn3]
          simp
        · rw [h4c, hr1c]
        · rw [h3, hn3]
      · refine Or.inr (Or.inr ⟨?_, ⟨r1, r2, ?_⟩, ?_⟩)
        · rw [h4t, ht3, hn3]
          simp
        · rw [h4c, hr1c]
        · rw [h3, hn3]
  · rw [if_pos hc1] at hl
    simp only [Except.ok.injEq] at hl
    subst hl
    have hr1 : ¬ create_cat_res env { w2 with next_cnid := u32_inc w2.next_cnid }
        ⟨src_dir.i_ino, src_dentry.d_name⟩ = 0 := hc1
    refine ⟨rfl, rfl, Or.inl ⟨?_, ?_, ?_⟩⟩
    · simp [link_out, hfsplus_journal_stop, mutex_unlock, World.log, hfsplus_create_cat,
        hfsplus_cat_build_key]
    · simp [link_out, hfsplus_journal_stop, mutex_unlock, World.log, hfsplus_create_cat,
        hfsplus_cat_build_key, hr1]
    · simp [link_out, hfsplus_journal_stop, mutex_unlock, World.log, hfsplus_create_cat]

/-- C15 (counterexample): linking the plain file `a` (object 30) to `b` when the insert
that re-creates the name `a` fails with `-EIO` after the promotion renamed the record to
`iNode7`: `hfsplus_link` returns `-EIO` having made no further catalog call; the name `a`
is gone from the catalog, the record stays under `iNode7`, and the link id 7, the
identity 1000 recorded on the source name and the advanced OID counter 1001 are left in
place. -/
theorem link_promotion_not_undone :
    (hfsplus_link env_create_fault 3 (world_of cat_plain) ⟨"a", 30, some 30⟩ inode_30_plain
      root2 root2 dentry_b).map
      (fun o => (o.res, o.w.trace, o.w.cat, o.inode.linkid, o.src_dentry.d_fsdata,
        o.w.next_cnid))
    = .ok (- EIO,
        [.journal_start "hfsplus_link" 0, .mutex_lock,
         .rename_cat 30 ⟨2, "a"⟩ ⟨19, "iNode7"⟩ 0,
         .create_cat 1000 ⟨2, "a"⟩ (- EIO),
         .journal_stop "hfsplus_link", .mutex_unlock],
        [(⟨19, "iNode7"⟩, file_rec 30)], 7, 1000, 1001) := by
  rfl

/-- C15 (amended): if `hfsplus_link` returns after its promotion step renamed the
object's record to `iNode<id>` in the hidden directory, no cleanup was attempted: the
calls made after the promotion are only the insert of the source name, the insert of the
destination name when the first succeeded, and the dirty-mark when both succeeded,
followed by the scope stop and the unlock, each made once and the value returned being
the result of the last of them; the link id `id`, the fresh identity recorded on the
source name and the advanced OID counter are left at their promoted values, and the
record stays under `iNode<id>`. -/
theorem link_no_cleanup (env : Env) (fuel : Nat) (w : World) (src_dentry : Dentry)
    (inode src_dir dst_dir : Inode) (dst_dentry : Dentry) (hidden : Inode) (id : Nat)
    (w2 : World) (out : LinkOut)
    (hr : inode.rsrc = false) (hreg : S_ISREG inode.i_mode = true)
    (hj : env.journal_start w.trace = 0) (hh : w.hidden_dir = some hidden)
    (hc : inode.i_ino = src_dentry.d_fsdata % U32)
    (hp : link_promote env fuel (mutex_lock (w.log (.journal_start "hfsplus_link" 0))) inode
      src_dir src_dentry.d_name hidden = .ok (0, id, w2))
    (hl : hfsplus_link env fuel w src_dentry inode src_dir dst_dir dst_dentry = .ok out) :
    out.inode.linkid = id ∧ out.src_dentry.d_fsdata = w.next_cnid ∧
    w2.next_cnid = w.next_cnid ∧
    w2.cat = cat_moved w.cat ⟨src_dir.i_ino, src_dentry.d_name⟩
      ⟨hidden.i_ino, "iNode" ++ fmt_d id⟩ ∧
    link_failed_after w2 out inode src_dir dst_dir src_dentry.d_name dst_dentry.d_name := by
  obtain ⟨δ, _, _, _, _, hw2⟩ := link_promote_spec _ _ _ _ _ _ _ _ _ _ hp
  have hn : w2.next_cnid = w.next_cnid := by
    rw [hw2]
    rfl
  have hcat : w2.cat = cat_moved w.cat ⟨src_dir.i_ino, src_dentry.d_name⟩
      ⟨hidden.i_ino, "iNode" ++ fmt_d id⟩ := by
    rw [hw2]
    rfl
  unfold hfsplus_link at hl
  simp only [hr, hreg, hfsplus_journal_start, hj] at hl
  simp only [Bool.false_eq_true, if_false, ne_eq, not_true_eq_false] at hl
  have hh1 : (mutex_lock (w.log (.journal_start "hfsplus_link" 0))).hidden_dir = some hidden :=
    hh
  generalize mutex_lock (w.log (.journal_start "hfsplus_link" 0)) = w1 at hl hp hh1
  unfold link_locked at hl
  rw [if_pos hc] at hl
  simp only [hh1] at hl
  obtain ⟨h1, h2, h3⟩ := link_promoted_outcome _ _ _ _ _ _ _ _ _ _ _ _ hp hl
  exact ⟨h1, h2.trans hn, hn, hcat, h3⟩

theorem link_no_cleanup_witness :
    (returned (hfsplus_link env_create_fault 3 (world_of cat_plain) ⟨"a", 30, some 30⟩
        inode_30_plain root2 root2 dentry_b)
        ⟨0, world_of [], inode_30_plain, dentry_a, dentry_b⟩).res = - EIO ∧
    (returned (hfsplus_link env_create_fault 3 (world_of cat_plain) ⟨"a", 30, some 30⟩
        inode_30_plain root2 root2 dentry_b)
        ⟨0, world_of [], inode_30_plain, dentry_a, dentry_b⟩).inode.linkid = 7 ∧
    (returned (hfsplus_link env_create_fault 3 (world_of cat_plain) ⟨"a", 30, some 30⟩
        inode_30_plain root2 root2 dentry_b)
        ⟨0, world_of [], inode_30_plain, dentry_a, dentry_b⟩).src_dentry.d_fsdata = 1000 :=
  ⟨by rfl,
   (link_no_cleanup env_create_fault 3 (world_of cat_plain) ⟨"a", 30, some 30⟩ inode_30_plain
      root2 root2 dentry_b hidden19 7
      (returned (link_promote env_create_fault 3
        (mutex_lock ((world_of cat_plain).log (.journal_start "hfsplus_link" 0)))
        inode_30_plain root2 "a" hidden19) (0, 0, world_of [])).2.2
      (returned (hfsplus_link env_create_fault 3 (world_of cat_plain) ⟨"a", 30, some 30⟩
        inode_30_plain root2 root2 dentry_b)
        ⟨0, world_of [], inode_30_plain, dentry_a, dentry_b⟩)
      (by rfl) (by rfl) (by rfl) (by rfl) (by decide) (by rfl) (by rfl)).1,
   (link_no_cleanup env_create_fault 3 (world_of cat_plain) ⟨"a", 30, some 30⟩ inode_30_plain
      root2 root2 dentry_b hidden19 7
      (returned (link_promote env_create_fault 3
        (mutex_lock ((world_of cat_plain).log (.journal_start "hfsplus_link" 0)))
        inode_30_plain root2 "a" hidden19) (0, 0, world_of [])).2.2
      (returned (hfsplus_link env_create_fault 3 (world_of cat_plain) ⟨"a", 30, some 30⟩
        inode_30_plain root2 root2 dentry_b)
        ⟨0, world_of [], inode_30_plain, dentry_a, dentry_b⟩)
      (by rfl) (by rfl) (by rfl) (by rfl) (by decide) (by rfl) (by rfl)).2.1⟩

/-! ## `hfsplus_mkdir` under folder 19 and the permission checks -/

/-- C18: `hfsplus_mkdir` in the folder with the reserved identifier 19 returns 0 and
leaves the volume state and its trace (no scope, no allocation, no identifier consumed, no
catalog insert), the name and the object as they were; in every other folder it is
`hfsplus_mknod` with the directory bit added to the mode. -/
theorem mkdir_hidden_dir_noop (env : Env) (w : World) (dir : Inode) (dentry : Dentry)
    (mode : Nat) :
    (dir.i_ino = 19 →
      (hfsplus_mkdir env w dir dentry mode).res = 0 ∧
      (hfsplus_mkdir env w dir dentry mode).w = w ∧
      (hfsplus_mkdir env w dir dentry mode).dentry = dentry ∧
      (hfsplus_mkdir env w dir dentry mode).inode = none) ∧
    (dir.i_ino ≠ 19 →
      hfsplus_mkdir env w dir dentry mode = hfsplus_mknod env w dir dentry (mode ||| S_IFDIR)) := by
  constructor
  · intro h
    simp [hfsplus_mkdir, h]
  · intro h
    simp [hfsplus_mkdir, h]

theorem mkdir_hidden_dir_noop_witness :
    (hfsplus_mkdir env_alloc (world_of []) hidden19 dentry_a 0o755).res = 0 ∧
    (hfsplus_mkdir env_alloc (world_of []) hidden19 dentry_a 0o755).w.trace = [] ∧
    (hfsplus_mkdir env_alloc (world_of []) hidden19 dentry_a 0o755).w.next_cnid = 1000 ∧
    (hfsplus_mkdir env_alloc (world_of []) root2 dentry_a 0o755).w.next_cnid = 1001 := by
  have h := (mkdir_hidden_dir_noop env_alloc (world_of []) hidden19 dentry_a 0o755).1 (by rfl)
  have h2 := (mkdir_hidden_dir_noop env_alloc (world_of []) root2 dentry_a 0o755).2 (by decide)
  refine ⟨h.1, ?_, ?_, ?_⟩
  · rw [h.2.1]; rfl
  · rw [h.2.1]; rfl
  · rw [h2]; rfl

/-- C19: `hfsplus_link` returns `-EPERM` for every source object that is a resource fork
or not a regular file, and `hfsplus_unlink` returns `-EPERM` for every resource fork; in
both cases the volume state, its trace included (no scope, no lock, no catalog call), the
counters and the object are returned unchanged. -/
theorem link_unlink_eperm (env : Env) (fuel : Nat) (w : World) (src_dentry : Dentry)
    (inode src_dir dst_dir : Inode) (dst_dentry : Dentry) :
    (inode.rsrc = true ∨ S_ISREG inode.i_mode = false →
      hfsplus_link env fuel w src_dentry inode src_dir dst_dir dst_dentry
        = .ok ⟨-EPERM, w, inode, src_dentry, dst_dentry⟩) ∧
    (inode.rsrc = true →
      hfsplus_unlink env w src_dir src_dentry inode = .ok ⟨-EPERM, w, inode⟩) := by
  constructor
  · intro h
    unfold hfsplus_link
    rcases h with h | h
    · rw [if_pos h]
    · by_cases hr : inode.rsrc = true
      · rw [if_pos hr]
      · rw [if_neg hr, if_pos (by simp [h])]
  · intro h
    unfold hfsplus_unlink
    rw [if_pos h]

theorem link_unlink_eperm_witness :
    hfsplus_link env_alloc 3 (world_of cat_linked) ⟨"d", 41, some 41⟩ folder_40 root2 root2
        dentry_b = .ok ⟨-EPERM, world_of cat_linked, folder_40, ⟨"d", 41, some 41⟩, dentry_b⟩ ∧
    hfsplus_unlink env_alloc (world_of cat_linked) root2 ⟨"a", 1001, some 30⟩
        { inode_30 with rsrc := true }
      = .ok ⟨-EPERM, world_of cat_linked, { inode_30 with rsrc := true }⟩ :=
  ⟨(link_unlink_eperm env_alloc 3 (world_of cat_linked) ⟨"d", 41, some 41⟩ folder_40 root2 root2
      dentry_b).1 (Or.inr (by decide)),
   (link_unlink_eperm env_alloc 3 (world_of cat_linked) ⟨"a", 1001, some 30⟩
      { inode_30 with rsrc := true } root2 root2 dentry_b).2 (by rfl)⟩

/-! ## The name of the indirection node in `hfsplus_lookup` -/

/-- For a value below 2^31 the conversion `%d` prints the unsigned decimal digits. -/
theorem fmt_d_small (v : Nat) (h : v < 2 ^ 31) : fmt_d v = Nat.repr v := by
  unfold fmt_d
  have h1 : v % U32 = v := Nat.mod_eq_of_lt (by unfold U32; omega)
  rw [h1, if_pos h]

/-- For a hard-link pointer record whose link id `v` is below 2^31, `hfsplus_lookup`
continues with the key (hidden directory, `iNode` followed by the unsigned decimal digits
of `v`) and the link id `v`. -/
theorem lookup_rewrites_key (env : Env) (fuel : Nat) (w : World) (dir : Inode)
    (dentry : Dentry) (hidden : Inode) (e : hfsplus_cat_entry)
    (hj : env.journal_start w.trace = 0)
    (hf : env.find_init (w.trace ++ [.journal_start "hfsplus_lookup" 0]) = 0)
    (hc : env.cat_fault (w.trace ++ [.journal_start "hfsplus_lookup" 0, .find_init 0]) = 0)
    (hh : w.hidden_dir = some hidden)
    (he : cat_find w.cat ⟨dir.i_ino, dentry.d_name⟩ = some e)
    (hp : is_hardlink_ptr w hidden e) (hv : e.dev < 2 ^ 31) :
    hfsplus_lookup env (fuel + 1) w dir dentry =
      lookup_again env fuel
        { w with trace := w.trace ++ [.journal_start "hfsplus_lookup" 0, .find_init 0,
            .brec_read ⟨dir.i_ino, dentry.d_name⟩ 0] }
        (if dir.i_ino = 19 then { dir with i_mode := dir.i_mode ||| S_ISVTX } else dir)
        { dentry with d_fsdata := e.id }
        ⟨hidden.i_ino, "iNode" ++ Nat.repr e.dev⟩ e.dev := by
  obtain ⟨cat, nc, fc, sd, hdir, rcd, tr⟩ := w
  simp only at hh hj hf hc he
  subst hh
  obtain ⟨h1, h2, h3, h4, h5⟩ := hp
  simp only at h5
  have hc2 : env.cat_fault (tr ++ [Event.journal_start "hfsplus_lookup" 0] ++
      [Event.find_init 0]) = 0 := by simpa using hc
  simp only [hfsplus_lookup, hfsplus_journal_start, hj, World.log, hfs_find_init, hf,
    ne_eq, not_true_eq_false, if_false, hfsplus_cat_build_key, lookup_again, hfs_brec_read, hc2,
    he, h1]
  have hne : HFSPLUS_FILE ≠ HFSPLUS_FOLDER := by decide
  simp only [hne, if_false, if_true, h2, h3, h4, and_self, h5, fmt_d_small _ hv,
    List.append_assoc, List.singleton_append, List.cons_append, List.nil_append]

/-- C21 (evaluation at the failing input): for the pointer entry `a` whose link id is
2^31, `hfsplus_lookup` reads the key (19, `iNode-2147483648`), finds nothing, and attaches
no object to the name, although the node `iNode2147483648` is in the catalog. -/
theorem lookup_big_link_id_not_found :
    (hfsplus_lookup env_ok 3 (world_of cat_big_link) root2 dentry_a).map
      (fun o => (o.ret, o.inode, o.w.trace))
    = .ok (LookupRet.null, none,
        [.journal_start "hfsplus_lookup" 0, .find_init 0, .brec_read ⟨2, "a"⟩ 0,
         .brec_read ⟨19, "iNode-2147483648"⟩ (-ENOENT), .find_exit, .d_add "a" none,
         .journal_stop "hfsplus_lookup"]) := by
  rfl

/-! ## Enumeration: what a session of `hfsplus_readdir` stores -/

theorem emitted_append (t l : List Event) : emitted (t ++ l) = emitted t ++ emitted l := by
  simp [emitted]

theorem children_listing_append (env : Env) (hidden : Option Inode) (ino : Nat)
    (l : List (hfsplus_cat_key × hfsplus_cat_entry)) (c : hfsplus_cat_key × hfsplus_cat_entry) :
    children_listing env hidden ino (l ++ [c]) =
      match children_listing env hidden ino l with
      | none => none
      | some L =>
        match child_entry env hidden ino c with
        | .corrupt => none
        | .skipped => some L
        | .entry n i k => some (L ++ [(n, i, k)]) := by
  induction l with
  | nil =>
    simp only [List.nil_append, children_listing]
    cases child_entry env hidden ino c <;> rfl
  | cons a l ih =>
    simp only [List.cons_append, children_listing]
    cases ha : child_entry env hidden ino a with
    | corrupt => rfl
    | skipped => exact ih
    | entry n i k =>
      simp only
      rw [show l.append [c] = l ++ [c] from rfl, ih]
      cases children_listing env hidden ino l with
      | none => rfl
      | some L => cases child_entry env hidden ino c <;> rfl

theorem take_succ_get (α : Type) (l : List α) (j : Nat) (c : α) (h : l.get? j = some c) :
    l.take (j + 1) = l.take j ++ [c] := by
  rw [List.get?_eq_getElem?] at h
  rw [List.take_succ, h]
  rfl

theorem stored_upto_same (env : Env) (hidden : Option Inode) (ino : Nat)
    (thread : hfsplus_cat_entry) (children : List (hfsplus_cat_key × hfsplus_cat_entry))
    (base : List (String × Nat × Nat)) (t t2 : List Event) (p : Nat)
    (h : stored_upto env hidden ino thread children base t p) (he : emitted t2 = emitted t) :
    stored_upto env hidden ino thread children base t2 p := by
  obtain ⟨L, h1, h2⟩ := h
  exact ⟨L, h1, he.trans h2⟩

theorem stored_upto_dot (env : Env) (hidden : Option Inode) (ino : Nat)
    (thread : hfsplus_cat_entry) (children : List (hfsplus_cat_key × hfsplus_cat_entry))
    (base : List (String × Nat × Nat)) (t t2 : List Event)
    (h : stored_upto env hidden ino thread children base t 0)
    (he : emitted t2 = emitted t ++ [(".", ino, DT_DIR)]) :
    stored_upto env hidden ino thread children base t2 1 := by
  obtain ⟨L, h1, h2⟩ := h
  simp only [listed_upto, Option.some.injEq] at h1
  subst h1
  exact ⟨_, rfl, by rw [he, h2]; simp⟩

theorem stored_upto_dotdot (env : Env) (hidden : Option Inode) (ino : Nat)
    (thread : hfsplus_cat_entry) (children : List (hfsplus_cat_key × hfsplus_cat_entry))
    (base : List (String × Nat × Nat)) (t t2 : List Event)
    (h : stored_upto env hidden ino thread children base t 1)
    (he : emitted t2 = emitted t ++ [("..", thread.parentID, DT_DIR)]) :
    stored_upto env hidden ino thread children base t2 2 := by
  obtain ⟨L, h1, h2⟩ := h
  simp only [listed_upto, Option.some.injEq] at h1
  subst h1
  refine ⟨[(".", ino, DT_DIR), ("..", thread.parentID, DT_DIR)], ?_, by rw [he, h2]; simp⟩
  simp [listed_upto, dir_listing, children_listing]

theorem stored_upto_child (env : Env) (hidden : Option Inode) (ino : Nat)
    (thread : hfsplus_cat_entry) (children : List (hfsplus_cat_key × hfsplus_cat_entry))
    (base : List (String × Nat × Nat)) (t t2 : List Event) (p : Nat)
    (c : hfsplus_cat_key × hfsplus_cat_entry)
    (h : stored_upto env hidden ino thread children base t p) (h2 : 2 ≤ p)
    (hc : children.get? (p - 2) = some c)
    (he : (child_entry env hidden ino c = .skipped ∧ emitted t2 = emitted t) ∨
      (∃ n i k, child_entry env hidden ino c = .entry n i k ∧
        emitted t2 = emitted t ++ [(n, i, k)])) :
    stored_upto env hidden ino thread children base t2 (p + 1) := by
  obtain ⟨j, rfl⟩ : ∃ j, p = j + 2 := ⟨p - 2, by omega⟩
  have hj : j + 2 - 2 = j := by omega
  rw [hj] at hc
  obtain ⟨L, h1, h3⟩ := h
  simp only [listed_upto, dir_listing] at h1
  cases hl : children_listing env hidden ino (children.take j) with
  | none => simp [hl] at h1
  | some L0 =>
    simp only [hl, Option.map_some', Option.some.injEq] at h1
    subst h1
    have hstep := children_listing_append env hidden ino (children.take j) c
    rw [← take_succ_get _ _ _ _ hc, hl] at hstep
    simp only at hstep
    rcases he with ⟨hs, hem⟩ | ⟨n, i, k, hs, hem⟩
    · rw [hs] at hstep
      refine ⟨_, ?_, by rw [hem, h3]⟩
      simp only [listed_upto, dir_listing, hstep, Option.map_some']
    · rw [hs] at hstep
      refine ⟨(".", ino, DT_DIR) :: ("..", thread.parentID, DT_DIR) :: (L0 ++ [(n, i, k)]), ?_,
        by rw [hem, h3]; simp⟩
      simp only [listed_upto, dir_listing, hstep, Option.map_some']

theorem listed_upto_all (env : Env) (hidden : Option Inode) (ino : Nat)
    (thread : hfsplus_cat_entry) (children : List (hfsplus_cat_key × hfsplus_cat_entry)) :
    listed_upto env hidden ino thread children (children.length + 2)
      = dir_listing env hidden ino thread children := by
  simp only [listed_upto, List.take_length]

theorem children_listing_length (env : Env) (hidden : Option Inode) (ino : Nat)
    (children : List (hfsplus_cat_key × hfsplus_cat_entry)) :
    ∀ L, children_listing env hidden ino children = some L →
      L.length + children.countP (is_hidden_child hidden) = children.length := by
  induction children with
  | nil =>
    intro L h
    simp only [children_listing, Option.some.injEq] at h
    subst h
    rfl
  | cons c rest ih =>
    intro L h
    simp only [children_listing] at h
    cases hc : child_entry env hidden ino c with
    | corrupt => simp [hc] at h
    | skipped =>
      rw [hc] at h
      simp only at h
      have hh : is_hidden_child hidden c = true := by
        unfold child_entry at hc
        unfold is_hidden_child
        split at hc
        · cases hc
        split at hc
        · cases hc
        split at hc
        · rename_i hty
          split at hc
          · rename_i hhid
            simp [hty, hhid]
          · cases hc
        · split at hc <;> cases hc
      have := ih L h
      rw [List.countP_cons_of_pos _ _ hh, List.length_cons]
      omega
    | entry n i k =>
      rw [hc] at h
      simp only at h
      cases hr : children_listing env hidden ino rest with
      | none => simp [hr] at h
      | some L0 =>
        simp only [hr, Option.map_some', Option.some.injEq] at h
        subst h
        have hh : ¬ is_hidden_child hidden c = true := by
          unfold child_entry at hc
          unfold is_hidden_child
          split at hc
          · cases hc
          split at hc
          · cases hc
          split at hc
          · rename_i hty
            split at hc
            · cases hc
            · rename_i hhid
              simp [hty, hhid]
          · rename_i hty
            simp [hty]
        have := ih L0 hr
        rw [List.countP_cons_of_neg _ _ hh, List.length_cons, List.length_cons]
        omega

theorem cat_seek_append (pre rest : List (hfsplus_cat_key × hfsplus_cat_entry))
    (k : hfsplus_cat_key) (e : hfsplus_cat_entry) (h : ∀ q ∈ pre, q.1 ≠ k) :
    cat_seek (pre ++ (k, e) :: rest) k = some (pre.length, e) := by
  induction pre with
  | nil => simp [cat_seek]
  | cons q pre ih =>
    have hq : q.1 ≠ k := h q (List.mem_cons_self _ _)
    have ih' := ih (fun x hx => h x (List.mem_cons_of_mem _ hx))
    simp [cat_seek, hq, ih']

theorem cat_get_child (pre children post : List (hfsplus_cat_key × hfsplus_cat_entry))
    (t : hfsplus_cat_key × hfsplus_cat_entry) (j : Nat) (h : j < children.length) :
    (pre ++ t :: (children ++ post)).get? (pre.length + 1 + j) = children.get? j := by
  rw [List.get?_eq_getElem?, List.get?_eq_getElem?]
  rw [List.getElem?_append_right (by omega)]
  have : pre.length + 1 + j - pre.length = j + 1 := by omega
  rw [this, List.getElem?_cons_succ, List.getElem?_append_left h]

theorem readdir_out_spec (err : Int) (w : World) (filp : File) :
    (readdir_out err w filp).w.cat = w.cat ∧
    (readdir_out err w filp).w.hidden_dir = w.hidden_dir ∧
    emitted (readdir_out err w filp).w.trace = emitted w.trace ∧
    (readdir_out err w filp).filp = filp := by
  simp [readdir_out, hfs_find_exit, hfsplus_journal_stop, World.log, emitted]

theorem readdir_save_spec (env : Env) (w : World) (filp : File) (fd : hfs_find_data)
    (err : Int) :
    (readdir_save env w filp fd err).w.cat = w.cat ∧
    (readdir_save env w filp fd err).w.hidden_dir = w.hidden_dir ∧
    emitted (readdir_save env w filp fd err).w.trace = emitted w.trace ∧
    (readdir_save env w filp fd err).filp.f_pos = filp.f_pos := by
  unfold readdir_save
  cases filp.private_data with
  | none =>
    dsimp only
    split <;> simp [readdir_out, hfs_find_exit, hfsplus_journal_stop, World.log, emitted]
  | some k =>
    simp [readdir_out, hfs_find_exit, hfsplus_journal_stop, World.log, emitted]

theorem filldir_refused (env : Env) (w : World) (name : String) (offset ino d_type : Nat)
    (h : (filldir env w name offset ino d_type).1 ≠ 0) :
    (filldir env w name offset ino d_type).2.cat = w.cat ∧
    (filldir env w name offset ino d_type).2.hidden_dir = w.hidden_dir ∧
    emitted (filldir env w name offset ino d_type).2.trace = emitted w.trace := by
  have h' : ¬ env.filldir w.trace = 0 := h
  simp [filldir, World.log, emitted, h']

theorem filldir_stored (env : Env) (w : World) (name : String) (offset ino d_type : Nat)
    (h : ¬ (filldir env w name offset ino d_type).1 ≠ 0) :
    (filldir env w name offset ino d_type).2.cat = w.cat ∧
    (filldir env w name offset ino d_type).2.hidden_dir = w.hidden_dir ∧
    emitted (filldir env w name offset ino d_type).2.trace
      = emitted w.trace ++ [(name, ino, d_type)] := by
  have h' : env.filldir w.trace = 0 := by
    have : (filldir env w name offset ino d_type).1 = 0 := by simpa using h
    exact this
  simp [filldir, World.log, emitted, h']

theorem readdir_entry_step (env : Env) (w : World) (filp : File) (fd : hfs_find_data)
    (inode : Inode) :
    entry_step_ok env inode.i_ino w filp fd (readdir_entry env w filp fd inode) := by
  unfold readdir_entry
  by_cases h1 : fd.key.parent ≠ inode.i_ino
  · rw [if_pos h1]
    obtain ⟨a, b, c, d⟩ := readdir_out_spec (- EIO) w filp
    exact ⟨a, b, c, by rw [d]⟩
  rw [if_neg h1]
  by_cases h2 : fd.entry.entrylength > SIZEOF_CAT_ENTRY
  · rw [if_pos h2]
    obtain ⟨a, b, c, d⟩ := readdir_out_spec (- EIO) w filp
    exact ⟨a, b, c, by rw [d]⟩
  rw [if_neg h2]
  cases hu : env.uni2asc fd.key.name with
  | error e =>
    obtain ⟨a, b, c, d⟩ := readdir_out_spec e w filp
    exact ⟨a, b, c, by rw [d]⟩
  | ok strbuf =>
    dsimp only
    by_cases h3 : fd.entry.type = HFSPLUS_FOLDER
    · rw [if_pos h3]
      by_cases h4 : fd.entry.entrylength < SIZEOF_CAT_FOLDER
      · rw [if_pos h4]
        obtain ⟨a, b, c, d⟩ := readdir_out_spec (- EIO) w filp
        exact ⟨a, b, c, by rw [d]⟩
      rw [if_neg h4]
      by_cases h5 : is_hidden_dir w fd.entry.id = true
      · rw [if_pos h5]
        have h5' : (match w.hidden_dir with
            | some h => h.i_ino == fd.entry.id
            | none => false) = true := h5
        refine ⟨rfl, rfl, Or.inl ⟨?_, rfl⟩⟩
        simp [child_entry, h1, hu, h3, h5']
      rw [if_neg h5]
      have h5' : ¬ (match w.hidden_dir with
            | some h => h.i_ino == fd.entry.id
            | none => false) = true := h5
      by_cases h6 : (filldir env w strbuf filp.f_pos fd.entry.id DT_DIR).1 ≠ 0
      · rw [if_pos h6]
        obtain ⟨a, b, c, d⟩ := readdir_save_spec env
          (filldir env w strbuf filp.f_pos fd.entry.id DT_DIR).2 filp fd 0
        obtain ⟨a2, b2, c2⟩ := filldir_refused env w strbuf filp.f_pos fd.entry.id DT_DIR h6
        exact ⟨a.trans a2, b.trans b2, c.trans c2, d⟩
      · rw [if_neg h6]
        obtain ⟨a2, b2, c2⟩ := filldir_stored env w strbuf filp.f_pos fd.entry.id DT_DIR h6
        refine ⟨a2, b2, Or.inr ⟨strbuf, fd.entry.id, DT_DIR, ?_, c2⟩⟩
        simp [child_entry, h1, hu, h3, h5']
    · rw [if_neg h3]
      by_cases h7 : fd.entry.type = HFSPLUS_FILE
      · rw [if_pos h7]
        by_cases h4 : fd.entry.entrylength < SIZEOF_CAT_FILE
        · rw [if_pos h4]
          obtain ⟨a, b, c, d⟩ := readdir_out_spec (- EIO) w filp
          exact ⟨a, b, c, by rw [d]⟩
        rw [if_neg h4]
        by_cases h6 : (filldir env w strbuf filp.f_pos fd.entry.id DT_REG).1 ≠ 0
        · rw [if_pos h6]
          obtain ⟨a, b, c, d⟩ := readdir_save_spec env
            (filldir env w strbuf filp.f_pos fd.entry.id DT_REG).2 filp fd 0
          obtain ⟨a2, b2, c2⟩ := filldir_refused env w strbuf filp.f_pos fd.entry.id DT_REG h6
          exact ⟨a.trans a2, b.trans b2, c.trans c2, d⟩
        · rw [if_neg h6]
          obtain ⟨a2, b2, c2⟩ := filldir_stored env w strbuf filp.f_pos fd.entry.id DT_REG h6
          refine ⟨a2, b2, Or.inr ⟨strbuf, fd.entry.id, DT_REG, ?_, c2⟩⟩
          have hne : HFSPLUS_FILE ≠ HFSPLUS_FOLDER := by decide
          simp [child_entry, h1, hu, h7, hne]
      · rw [if_neg h7]
        obtain ⟨a, b, c, d⟩ := readdir_out_spec (- EIO) w filp
        exact ⟨a, b, c, by rw [d]⟩

theorem to_int_small (v : Nat) (h : v < 2 ^ 31) : to_int v = (v : Int) := by
  unfold to_int
  have h1 : v % U32 = v := Nat.mod_eq_of_lt (by unfold U32; omega)
  rw [h1, if_pos h]

theorem brec_goto_spec (env : Env) (w : World) (fd : hfs_find_data) (cnt : Int) :
    (hfs_brec_goto env w fd cnt).2.cat = w.cat ∧
    (hfs_brec_goto env w fd cnt).2.hidden_dir = w.hidden_dir ∧
    emitted (hfs_brec_goto env w fd cnt).2.trace = emitted w.trace ∧
    ∀ fd2, (hfs_brec_goto env w fd cnt).1 = .ok fd2 →
      ¬ ((fd.record : Int) + cnt < 0) ∧
      w.cat.get? ((fd.record : Int) + cnt).toNat = some (fd2.key, fd2.entry) ∧
      fd2.record = ((fd.record : Int) + cnt).toNat := by
  unfold hfs_brec_goto
  by_cases h1 : env.cat_fault w.trace ≠ 0
  · rw [if_pos h1]
    simp [World.log, emitted]
  rw [if_neg h1]
  by_cases h2 : (fd.record : Int) + cnt < 0
  · rw [if_pos h2]
    simp [World.log, emitted]
  rw [if_neg h2]
  cases hg : w.cat.get? ((fd.record : Int) + cnt).toNat with
  | none => simp [World.log, emitted]
  | some q =>
    refine ⟨rfl, rfl, ?_, ?_⟩
    · simp [World.log, emitted]
    · intro fd2 hfd2
      simp only [Except.ok.injEq] at hfd2
      subst hfd2
      exact ⟨h2, rfl, rfl⟩

theorem brec_goto_ok (env : Env) (w : World) (fd : hfs_find_data) (cnt : Int)
    (q : hfsplus_cat_key × hfsplus_cat_entry) (hf : env.cat_fault w.trace = 0)
    (h0 : ¬ ((fd.record : Int) + cnt < 0))
    (hq : w.cat.get? ((fd.record : Int) + cnt).toNat = some q) :
    hfs_brec_goto env w fd cnt
      = (.ok ⟨((fd.record : Int) + cnt).toNat, q.1, q.2⟩, w.log (.brec_goto cnt 0)) := by
  unfold hfs_brec_goto
  rw [if_neg (by simp [hf]), if_neg h0, hq]

theorem first_in_call_start (t : List Event) (fn : String) (res : Int) :
    first_in_call (t ++ [.journal_start fn res]) = true := by
  simp [first_in_call, is_journal_start]

theorem first_in_call_log (t : List Event) (e : Event) (h1 : is_journal_start e = false)
    (h2 : is_filldir e = false) (h : first_in_call t = true) :
    first_in_call (t ++ [e]) = true := by
  unfold first_in_call at h ⊢
  rw [List.reverse_append, List.reverse_singleton, List.singleton_append,
    List.takeWhile_cons_of_pos (by simp [h1]), List.all_cons, h]
  simp [h2]

theorem readdir_entry_next (env : Env) (w : World) (filp : File) (fd : hfs_find_data)
    (inode : Inode) (hr : record_ok env inode.i_ino (fd.key, fd.entry))
    (hf : env.filldir w.trace = 0) :
    ∃ w2, readdir_entry env w filp fd inode = .next w2 := by
  obtain ⟨h1, h2, ⟨s, hs⟩, h3⟩ := hr
  simp only at h1 h2 hs h3
  unfold readdir_entry
  rw [if_neg (by simp [h1]), if_neg (by omega), hs]
  dsimp only
  have hfd : ∀ n o i k, ¬ (filldir env w n o i k).1 ≠ 0 := by
    intro n o i k
    simp [filldir, hf]
  rcases h3 with ⟨ht, hl⟩ | ⟨ht, hl⟩
  · rw [if_pos ht, if_neg (by omega)]
    by_cases h5 : is_hidden_dir w fd.entry.id = true
    · rw [if_pos h5]
      exact ⟨_, rfl⟩
    · rw [if_neg h5, if_neg (hfd _ _ _ _)]
      exact ⟨_, rfl⟩
  · have hne : fd.entry.type ≠ HFSPLUS_FOLDER := by
      rw [ht]
      decide
    rw [if_neg hne, if_pos ht, if_neg (by omega), if_neg (hfd _ _ _ _)]
    exact ⟨_, rfl⟩

theorem readdir_loop_inv (env : Env) (inode : Inode)
    (pre children post : List (hfsplus_cat_key × hfsplus_cat_entry))
    (thread : hfsplus_cat_entry) (hidden : Option Inode) (base : List (String × Nat × Nat))
    (hN : inode.i_size = children.length + 2) :
    ∀ (fuel : Nat) (w : World) (filp : File) (fd : hfs_find_data),
      w.cat = pre ++ (⟨inode.i_ino, ""⟩, thread) :: (children ++ post) →
      w.hidden_dir = hidden →
      children.get? (filp.f_pos - 2) = some (fd.key, fd.entry) →
      fd.record = pre.length + 1 + (filp.f_pos - 2) →
      2 ≤ filp.f_pos → filp.f_pos < inode.i_size →
      stored_upto env hidden inode.i_ino thread children base w.trace filp.f_pos →
      inode.i_size - filp.f_pos ≤ fuel →
      ∃ r, readdir_loop env inode fuel w filp fd = .ok r ∧
        r.w.cat = w.cat ∧ r.w.hidden_dir = w.hidden_dir ∧
        stored_upto env hidden inode.i_ino thread children base r.w.trace r.filp.f_pos ∧
        filp.f_pos ≤ r.filp.f_pos ∧ r.filp.f_pos ≤ inode.i_size ∧
        (∀ w2, readdir_entry env w filp fd inode = .next w2 →
          filp.f_pos + 1 ≤ r.filp.f_pos) := by
  intro fuel
  induction fuel with
  | zero =>
    intro w filp fd _ _ _ _ _ hlt _ hfuel
    omega
  | succ n ih =>
    intro w filp fd hcat hhid hfd hrec h2 hlt hem hfuel
    unfold readdir_loop
    have hs := readdir_entry_step env w filp fd inode
    cases he : readdir_entry env w filp fd inode with
    | done o =>
      rw [he] at hs
      obtain ⟨a, b, c, d⟩ := hs
      refine ⟨o, rfl, a, b, ?_, by omega, by omega, ?_⟩
      · rw [d]
        exact stored_upto_same _ _ _ _ _ _ _ _ _ hem c
      · intro w2 hw2
        cases hw2
    | next w2 =>
      rw [he] at hs
      obtain ⟨a, b, c⟩ := hs
      rw [hhid] at c
      have hem2 : stored_upto env hidden inode.i_ino thread children base w2.trace
          (filp.f_pos + 1) :=
        stored_upto_child _ _ _ _ _ _ _ _ _ _ hem h2 hfd c
      dsimp only
      by_cases hp : filp.f_pos + 1 ≥ inode.i_size
      · rw [if_pos hp]
        obtain ⟨a1, b1, c1, d1⟩ := readdir_out_spec 0 w2 { filp with f_pos := filp.f_pos + 1 }
        refine ⟨_, rfl, a1.trans a, b1.trans b, ?_, ?_, ?_, ?_⟩
        · rw [d1]
          exact stored_upto_same _ _ _ _ _ _ _ _ _ hem2 c1
        · rw [d1]; simp
        · rw [d1]; simp only; omega
        · intro _ _
          rw [d1]
      · rw [if_neg hp]
        obtain ⟨ga, gb, gc, gd⟩ := brec_goto_spec env w2 fd 1
        cases hg : hfs_brec_goto env w2 fd 1 with
        | mk g wg =>
          rw [hg] at ga gb gc gd
          simp only at ga gb gc gd
          cases g with
          | error e =>
            dsimp only
            obtain ⟨a1, b1, c1, d1⟩ := readdir_out_spec e wg
              { filp with f_pos := filp.f_pos + 1 }
            refine ⟨_, rfl, (a1.trans ga).trans a, (b1.trans gb).trans b, ?_, ?_, ?_, ?_⟩
            · rw [d1]
              exact stored_upto_same _ _ _ _ _ _ _ _ _ hem2 (c1.trans gc)
            · rw [d1]; simp
            · rw [d1]; simp only; omega
            · intro _ _
              rw [d1]
          | ok fd2 =>
            dsimp only
            obtain ⟨_, g2, g3⟩ := gd fd2 rfl
            have hidx : ((fd.record : Int) + 1).toNat = pre.length + 1 + (filp.f_pos - 1) := by
              omega
            rw [hidx, a, hcat, cat_get_child pre children post _ _ (by omega)] at g2
            have hwg : wg.cat = pre ++ (⟨inode.i_ino, ""⟩, thread) :: (children ++ post) := by
              rw [ga, a, hcat]
            obtain ⟨r, hr, r1, r2, r3, r4, r5, _⟩ := ih wg
              { filp with f_pos := filp.f_pos + 1 } fd2
              hwg ((gb.trans b).trans hhid) (by simpa using g2)
              (by simp only; rw [g3, hidx]; omega) (by simp only; omega) (by simp only; omega)
              (stored_upto_same _ _ _ _ _ _ _ _ _ hem2 gc) (by simp only; omega)
            have h4 : filp.f_pos + 1 ≤ r.filp.f_pos := r4
            refine ⟨r, hr, r1.trans ((ga.trans a)), r2.trans (gb.trans b), r3, by omega, r5, ?_⟩
            intro _ _
            exact h4

theorem brec_find_spec (env : Env) (w : World) (key : hfsplus_cat_key) :
    (hfs_brec_find env w key).2.cat = w.cat ∧
    (hfs_brec_find env w key).2.hidden_dir = w.hidden_dir ∧
    emitted (hfs_brec_find env w key).2.trace = emitted w.trace ∧
    ∀ fd, (hfs_brec_find env w key).1 = .ok fd →
      cat_seek w.cat key = some (fd.record, fd.entry) := by
  unfold hfs_brec_find
  by_cases h1 : env.cat_fault w.trace ≠ 0
  · rw [if_pos h1]
    simp [World.log, emitted]
  rw [if_neg h1]
  cases hg : cat_seek w.cat key with
  | none => simp [World.log, emitted]
  | some q =>
    refine ⟨rfl, rfl, ?_, ?_⟩
    · simp [World.log, emitted]
    · intro fd hfd
      simp only [Except.ok.injEq] at hfd
      subst hfd
      rfl

theorem brec_find_ok (env : Env) (w : World) (key : hfsplus_cat_key)
    (r : Nat × hfsplus_cat_entry) (hf : env.cat_fault w.trace = 0)
    (hs : cat_seek w.cat key = some r) :
    hfs_brec_find env w key = (.ok ⟨r.1, key, r.2⟩, w.log (.brec_find key 0)) := by
  unfold hfs_brec_find
  rw [if_neg (by simp [hf]), hs]

theorem readdir_default_inv (env : Env) (inode : Inode)
    (pre children post : List (hfsplus_cat_key × hfsplus_cat_entry))
    (thread : hfsplus_cat_entry) (hidden : Option Inode) (base : List (String × Nat × Nat))
    (hN : inode.i_size = children.length + 2) (hsz : inode.i_size ≤ 2 ^ 31)
    (fuel : Nat) (w : World) (filp : File) (fd : hfs_find_data)
    (hcat : w.cat = pre ++ (⟨inode.i_ino, ""⟩, thread) :: (children ++ post))
    (hhid : w.hidden_dir = hidden) (hrec : fd.record = pre.length)
    (h2 : 2 ≤ filp.f_pos) (hle : filp.f_pos ≤ inode.i_size)
    (hem : stored_upto env hidden inode.i_ino thread children base w.trace filp.f_pos)
    (hfuel : inode.i_size ≤ fuel) :
    ∃ r, readdir_default env inode fuel w filp fd = .ok r ∧
      r.w.cat = w.cat ∧ r.w.hidden_dir = w.hidden_dir ∧
      stored_upto env hidden inode.i_ino thread children base r.w.trace r.filp.f_pos ∧
      filp.f_pos ≤ r.filp.f_pos ∧ r.filp.f_pos ≤ inode.i_size ∧
      (env_never_fails env → buffer_takes_one env → first_in_call w.trace = true →
        (∀ c ∈ children, record_ok env inode.i_ino c) → filp.f_pos < inode.i_size →
        filp.f_pos + 1 ≤ r.filp.f_pos) := by
  unfold readdir_default
  by_cases hp : filp.f_pos ≥ inode.i_size
  · rw [if_pos hp]
    obtain ⟨a1, b1, c1, d1⟩ := readdir_out_spec 0 w filp
    refine ⟨_, rfl, a1, b1, ?_, ?_, ?_, ?_⟩
    · rw [d1]
      exact stored_upto_same _ _ _ _ _ _ _ _ _ hem c1
    · rw [d1]
    · rw [d1]; exact hle
    · intro _ _ _ _ hlt
      omega
  · rw [if_neg hp]
    have hti : to_int (filp.f_pos - 1) = ((filp.f_pos - 1 : Nat) : Int) :=
      to_int_small _ (by omega)
    rw [hti]
    have hidx : ((fd.record : Int) + ((filp.f_pos - 1 : Nat) : Int)).toNat
        = pre.length + 1 + (filp.f_pos - 2) := by omega
    obtain ⟨ga, gb, gc, gd⟩ := brec_goto_spec env w fd ((filp.f_pos - 1 : Nat) : Int)
    cases hg : hfs_brec_goto env w fd ((filp.f_pos - 1 : Nat) : Int) with
    | mk g wg =>
      rw [hg] at ga gb gc gd
      simp only at ga gb gc gd
      cases g with
      | error e =>
        dsimp only
        obtain ⟨a1, b1, c1, d1⟩ := readdir_out_spec e wg filp
        refine ⟨_, rfl, a1.trans ga, b1.trans gb, ?_, ?_, ?_, ?_⟩
        · rw [d1]
          exact stored_upto_same _ _ _ _ _ _ _ _ _ hem (c1.trans gc)
        · rw [d1]
        · rw [d1]; exact hle
        · intro hnf _ _ _ _
          exfalso
          obtain ⟨q, hq⟩ : ∃ q, children.get? (filp.f_pos - 2) = some q := by
            rw [List.get?_eq_getElem?]
            exact ⟨_, List.getElem?_eq_getElem (by omega)⟩
          have hget : w.cat.get? ((fd.record : Int) + ((filp.f_pos - 1 : Nat) : Int)).toNat
              = some q := by
            rw [hidx, hcat, cat_get_child pre children post _ _ (by omega)]
            exact hq
          have := brec_goto_ok env w fd ((filp.f_pos - 1 : Nat) : Int) q (hnf.2.2 _)
            (by omega) hget
          rw [this] at hg
          cases hg
      | ok fd2 =>
        dsimp only
        obtain ⟨_, g2, g3⟩ := gd fd2 rfl
        rw [hidx, hcat, cat_get_child pre children post _ _ (by omega)] at g2
        obtain ⟨r, hr, r1, r2, r3, r4, r5, r6⟩ := readdir_loop_inv env inode pre children post
          thread hidden base hN fuel wg filp fd2 (ga.trans hcat) (gb.trans hhid) g2
          (by rw [g3, hidx]) h2 (by omega) (stored_upto_same _ _ _ _ _ _ _ _ _ hem gc)
          (by omega)
        refine ⟨r, hr, r1.trans ga, r2.trans gb, r3, r4, r5, ?_⟩
        intro hnf hbuf hfirst hrecs _
        have hq : (fd2.key, fd2.entry) ∈ children := by
          exact List.get?_mem g2
        have htr : wg.trace = w.trace ++ [.brec_goto ((filp.f_pos - 1 : Nat) : Int) 0] := by
          have := brec_goto_ok env w fd ((filp.f_pos - 1 : Nat) : Int) (fd2.key, fd2.entry)
            (hnf.2.2 _) (by omega)
            (by rw [hidx, hcat, cat_get_child pre children post _ _ (by omega)]; exact g2)
          rw [this] at hg
          injection hg with _ hw
          rw [← hw]
          rfl
        have hfill : env.filldir wg.trace = 0 := by
          apply hbuf
          rw [htr]
          exact first_in_call_log _ _ rfl rfl hfirst
        obtain ⟨w2, hw2⟩ := readdir_entry_next env wg filp fd2 inode (hrecs _ hq) hfill
        exact r6 w2 hw2

theorem readdir_dotdot_inv (env : Env) (inode : Inode)
    (pre children post : List (hfsplus_cat_key × hfsplus_cat_entry))
    (thread : hfsplus_cat_entry) (hidden : Option Inode) (base : List (String × Nat × Nat))
    (hN : inode.i_size = children.length + 2) (hsz : inode.i_size ≤ 2 ^ 31)
    (fuel : Nat) (w : World) (filp : File) (fd : hfs_find_data)
    (hcat : w.cat = pre ++ (⟨inode.i_ino, ""⟩, thread) :: (children ++ post))
    (hhid : w.hidden_dir = hidden) (hrec : fd.record = pre.length) (hent : fd.entry = thread)
    (h1 : filp.f_pos = 1)
    (hem : stored_upto env hidden inode.i_ino thread children base w.trace filp.f_pos)
    (hfuel : inode.i_size ≤ fuel) :
    ∃ r, readdir_dotdot env inode fuel w filp fd = .ok r ∧
      r.w.cat = w.cat ∧ r.w.hidden_dir = w.hidden_dir ∧
      stored_upto env hidden inode.i_ino thread children base r.w.trace r.filp.f_pos ∧
      filp.f_pos ≤ r.filp.f_pos ∧ r.filp.f_pos ≤ inode.i_size ∧
      (buffer_takes_one env → first_in_call w.trace = true → thread_ok thread →
        filp.f_pos + 1 ≤ r.filp.f_pos) := by
  have hout : ∀ e, ¬ thread_ok thread →
      ∃ r, (Except.ok (readdir_out e w filp) : Except Halt ReaddirOut) = .ok r ∧
      r.w.cat = w.cat ∧ r.w.hidden_dir = w.hidden_dir ∧
      stored_upto env hidden inode.i_ino thread children base r.w.trace r.filp.f_pos ∧
      filp.f_pos ≤ r.filp.f_pos ∧ r.filp.f_pos ≤ inode.i_size ∧
      (buffer_takes_one env → first_in_call w.trace = true → thread_ok thread →
        filp.f_pos + 1 ≤ r.filp.f_pos) := by
    intro e hno
    obtain ⟨a1, b1, c1, d1⟩ := readdir_out_spec e w filp
    refine ⟨_, rfl, a1, b1, ?_, ?_, ?_, ?_⟩
    · rw [d1]
      exact stored_upto_same _ _ _ _ _ _ _ _ _ hem c1
    · rw [d1]
    · rw [d1]; omega
    · intro _ _ hok
      exact absurd hok hno
  unfold readdir_dotdot
  by_cases c1 : fd.entry.entrylength > SIZEOF_CAT_ENTRY
  · rw [if_pos c1]
    refine hout _ ?_
    rintro ⟨_, _, h⟩
    rw [hent] at c1
    omega
  rw [if_neg c1]
  by_cases c2 : fd.entry.type ≠ HFSPLUS_FOLDER_THREAD
  · rw [if_pos c2]
    refine hout _ ?_
    rintro ⟨h, _, _⟩
    rw [hent] at c2
    exact c2 h
  rw [if_neg c2]
  by_cases c3 : fd.entry.entrylength < HFSPLUS_MIN_THREAD_SZ
  · rw [if_pos c3]
    refine hout _ ?_
    rintro ⟨_, h, _⟩
    rw [hent] at c3
    omega
  rw [if_neg c3]
  dsimp only
  by_cases c4 : (filldir env w ".." 1 fd.entry.parentID DT_DIR).1 ≠ 0
  · rw [if_pos c4]
    obtain ⟨a2, b2, c2'⟩ := filldir_refused env w ".." 1 fd.entry.parentID DT_DIR c4
    obtain ⟨a1, b1, c1', d1⟩ := readdir_out_spec 0
      (filldir env w ".." 1 fd.entry.parentID DT_DIR).2 filp
    refine ⟨_, rfl, a1.trans a2, b1.trans b2, ?_, ?_, ?_, ?_⟩
    · rw [d1]
      exact stored_upto_same _ _ _ _ _ _ _ _ _ hem (c1'.trans c2')
    · rw [d1]
    · rw [d1]; omega
    · intro hbuf hfirst _
      exact absurd (hbuf _ hfirst) c4
  · rw [if_neg c4]
    obtain ⟨a2, b2, c2'⟩ := filldir_stored env w ".." 1 fd.entry.parentID DT_DIR c4
    rw [h1] at hem
    have hem2 : stored_upto env hidden inode.i_ino thread children base
        (filldir env w ".." 1 fd.entry.parentID DT_DIR).2.trace 2 :=
      stored_upto_dotdot _ _ _ _ _ _ _ _ hem (by rw [c2', hent])
    obtain ⟨r, hr, r1, r2, r3, r4, r5, _⟩ := readdir_default_inv env inode pre children post
      thread hidden base hN hsz fuel (filldir env w ".." 1 fd.entry.parentID DT_DIR).2
      { filp with f_pos := filp.f_pos + 1 } fd (a2.trans hcat) (b2.trans hhid) hrec
      (by simp only; omega) (by simp only; omega) (by simp only; rw [h1]; exact hem2) hfuel
    have h4 : filp.f_pos + 1 ≤ r.filp.f_pos := r4
    refine ⟨r, hr, r1.trans a2, r2.trans b2, r3, by omega, r5, ?_⟩
    intro _ _ _
    exact h4

theorem readdir_dot_inv (env : Env) (inode : Inode)
    (pre children post : List (hfsplus_cat_key × hfsplus_cat_entry))
    (thread : hfsplus_cat_entry) (hidden : Option Inode) (base : List (String × Nat × Nat))
    (hN : inode.i_size = children.length + 2) (hsz : inode.i_size ≤ 2 ^ 31)
    (fuel : Nat) (w : World) (filp : File) (fd : hfs_find_data)
    (hcat : w.cat = pre ++ (⟨inode.i_ino, ""⟩, thread) :: (children ++ post))
    (hhid : w.hidden_dir = hidden) (hrec : fd.record = pre.length) (hent : fd.entry = thread)
    (h0 : filp.f_pos = 0)
    (hem : stored_upto env hidden inode.i_ino thread children base w.trace filp.f_pos)
    (hfuel : inode.i_size ≤ fuel) :
    ∃ r, readdir_dot env inode fuel w filp fd = .ok r ∧
      r.w.cat = w.cat ∧ r.w.hidden_dir = w.hidden_dir ∧
      stored_upto env hidden inode.i_ino thread children base r.w.trace r.filp.f_pos ∧
      filp.f_pos ≤ r.filp.f_pos ∧ r.filp.f_pos ≤ inode.i_size ∧
      (buffer_takes_one env → first_in_call w.trace = true →
        filp.f_pos + 1 ≤ r.filp.f_pos) := by
  unfold readdir_dot
  dsimp only
  by_cases c4 : (filldir env w "." 0 inode.i_ino DT_DIR).1 ≠ 0
  · rw [if_pos c4]
    obtain ⟨a2, b2, c2'⟩ := filldir_refused env w "." 0 inode.i_ino DT_DIR c4
    obtain ⟨a1, b1, c1', d1⟩ := readdir_out_spec 0
      (filldir env w "." 0 inode.i_ino DT_DIR).2 filp
    refine ⟨_, rfl, a1.trans a2, b1.trans b2, ?_, ?_, ?_, ?_⟩
    · rw [d1]
      exact stored_upto_same _ _ _ _ _ _ _ _ _ hem (c1'.trans c2')
    · rw [d1]
    · rw [d1]; omega
    · intro hbuf hfirst
      exact absurd (hbuf _ hfirst) c4
  · rw [if_neg c4]
    obtain ⟨a2, b2, c2'⟩ := filldir_stored env w "." 0 inode.i_ino DT_DIR c4
    rw [h0] at hem
    have hem2 : stored_upto env hidden inode.i_ino thread children base
        (filldir env w "." 0 inode.i_ino DT_DIR).2.trace 1 :=
      stored_upto_dot _ _ _ _ _ _ _ _ hem c2'
    obtain ⟨r, hr, r1, r2, r3, r4, r5, _⟩ := readdir_dotdot_inv env inode pre children post
      thread hidden base hN hsz fuel (filldir env w "." 0 inode.i_ino DT_DIR).2
      { filp with f_pos := filp.f_pos + 1 } fd (a2.trans hcat) (b2.trans hhid) hrec hent
      (by simp only; omega) (by simp only; rw [h0]; exact hem2) hfuel
    have h4 : filp.f_pos + 1 ≤ r.filp.f_pos := r4
    refine ⟨r, hr, r1.trans a2, r2.trans b2, r3, by omega, r5, ?_⟩
    intro _ _
    exact h4

theorem brec_find_first (env : Env) (w : World) (key : hfsplus_cat_key)
    (h : first_in_call w.trace = true) :
    first_in_call (hfs_brec_find env w key).2.trace = true := by
  unfold hfs_brec_find
  split
  · exact first_in_call_log _ _ rfl rfl h
  · split
    · exact first_in_call_log _ _ rfl rfl h
    · exact first_in_call_log _ _ rfl rfl h

theorem readdir_inv (env : Env) (inode : Inode)
    (pre children post : List (hfsplus_cat_key × hfsplus_cat_entry))
    (thread : hfsplus_cat_entry) (hidden : Option Inode) (base : List (String × Nat × Nat))
    (hN : inode.i_size = children.length + 2) (hsz : inode.i_size ≤ 2 ^ 31)
    (hpre : ∀ q ∈ pre, q.1 ≠ ⟨inode.i_ino, ""⟩)
    (fuel : Nat) (w : World) (filp : File)
    (hcat : w.cat = pre ++ (⟨inode.i_ino, ""⟩, thread) :: (children ++ post))
    (hhid : w.hidden_dir = hidden) (hle : filp.f_pos ≤ inode.i_size)
    (hem : stored_upto env hidden inode.i_ino thread children base w.trace filp.f_pos)
    (hfuel : inode.i_size ≤ fuel) :
    ∃ r, hfsplus_readdir env fuel w filp inode = .ok r ∧
      r.w.cat = w.cat ∧ r.w.hidden_dir = w.hidden_dir ∧
      stored_upto env hidden inode.i_ino thread children base r.w.trace r.filp.f_pos ∧
      filp.f_pos ≤ r.filp.f_pos ∧ r.filp.f_pos ≤ inode.i_size ∧
      (env_never_fails env → buffer_takes_one env → thread_ok thread →
        (∀ c ∈ children, record_ok env inode.i_ino c) → filp.f_pos < inode.i_size →
        filp.f_pos + 1 ≤ r.filp.f_pos) := by
  unfold hfsplus_readdir
  by_cases hp : filp.f_pos ≥ inode.i_size
  · rw [if_pos hp]
    refine ⟨_, rfl, rfl, rfl, hem, le_refl _, hle, ?_⟩
    intro _ _ _ _ hlt
    omega
  rw [if_neg hp]
  dsimp only
  by_cases hj : (hfsplus_journal_start env w "hfsplus_readdir").1 ≠ 0
  · rw [if_pos hj]
    refine ⟨_, rfl, rfl, rfl, ?_, le_refl _, hle, ?_⟩
    · refine stored_upto_same _ _ _ _ _ _ _ _ _ hem ?_
      simp [hfsplus_journal_start, World.log, emitted]
    · intro hnf _ _ _ _
      exact absurd (hnf.1 _) hj
  rw [if_neg hj]
  have hw1 : (hfsplus_journal_start env w "hfsplus_readdir").2.cat = w.cat ∧
      (hfsplus_journal_start env w "hfsplus_readdir").2.hidden_dir = w.hidden_dir ∧
      emitted (hfsplus_journal_start env w "hfsplus_readdir").2.trace = emitted w.trace ∧
      first_in_call (hfsplus_journal_start env w "hfsplus_readdir").2.trace = true := by
    refine ⟨?_, ?_, ?_, ?_⟩
    · simp [hfsplus_journal_start, World.log]
    · simp [hfsplus_journal_start, World.log]
    · simp [hfsplus_journal_start, World.log, emitted]
    · exact first_in_call_start _ _ _
  generalize (hfsplus_journal_start env w "hfsplus_readdir").2 = w1 at hw1 ⊢
  obtain ⟨a1, b1, c1, f1⟩ := hw1
  by_cases hf : (hfs_find_init env w1).1 ≠ 0
  · rw [if_pos hf]
    refine ⟨_, rfl, ?_, ?_, ?_, le_refl _, hle, ?_⟩
    · simpa [hfs_find_init, World.log] using a1
    · simpa [hfs_find_init, World.log] using b1
    · refine stored_upto_same _ _ _ _ _ _ _ _ _ hem ?_
      simp only [hfs_find_init, World.log, emitted_append]
      rw [c1]
      simp [emitted]
    · intro hnf _ _ _ _
      exact absurd (hnf.2.1 _) hf
  rw [if_neg hf]
  have hw2 : (hfs_find_init env w1).2.cat = w.cat ∧
      (hfs_find_init env w1).2.hidden_dir = w.hidden_dir ∧
      emitted (hfs_find_init env w1).2.trace = emitted w.trace ∧
      first_in_call (hfs_find_init env w1).2.trace = true := by
    refine ⟨?_, ?_, ?_, ?_⟩
    · simpa [hfs_find_init, World.log] using a1
    · simpa [hfs_find_init, World.log] using b1
    · simp only [hfs_find_init, World.log, emitted_append]
      rw [c1]
      simp [emitted]
    · exact first_in_call_log _ _ rfl rfl f1
  generalize (hfs_find_init env w1).2 = w2 at hw2 ⊢
  obtain ⟨a2, b2, c2, f2⟩ := hw2
  have hk : hfsplus_cat_build_key inode.i_ino "" = ⟨inode.i_ino, ""⟩ := rfl
  have hseek0 : cat_seek w2.cat ⟨inode.i_ino, ""⟩ = some (pre.length, thread) := by
    rw [a2, hcat]
    exact cat_seek_append pre (children ++ post) ⟨inode.i_ino, ""⟩ thread hpre
  obtain ⟨ga, gb, gc, gd⟩ := brec_find_spec env w2 (hfsplus_cat_build_key inode.i_ino "")
  have gf := brec_find_first env w2 (hfsplus_cat_build_key inode.i_ino "") f2
  cases hg : hfs_brec_find env w2 (hfsplus_cat_build_key inode.i_ino "") with
  | mk g wg =>
    rw [hg] at ga gb gc gd gf
    simp only at ga gb gc gd gf
    cases g with
    | error e =>
      dsimp only
      obtain ⟨a3, b3, c3, d3⟩ := readdir_out_spec e wg filp
      refine ⟨_, rfl, (a3.trans ga).trans a2, (b3.trans gb).trans b2, ?_, ?_, ?_, ?_⟩
      · rw [d3]
        exact stored_upto_same _ _ _ _ _ _ _ _ _ hem ((c3.trans gc).trans c2)
      · rw [d3]
      · rw [d3]; exact hle
      · intro hnf _ _ _ _
        exfalso
        have := brec_find_ok env w2 ⟨inode.i_ino, ""⟩ (pre.length, thread) (hnf.2.2 _) hseek0
        rw [hk, this] at hg
        cases hg
    | ok fd =>
      dsimp only
      have hseek := gd fd rfl
      rw [hk, hseek0] at hseek
      simp only [Option.some.injEq, Prod.mk.injEq] at hseek
      obtain ⟨hrec, hent⟩ := hseek
      have hwg : wg.cat = pre ++ (⟨inode.i_ino, ""⟩, thread) :: (children ++ post) := by
        rw [ga, a2, hcat]
      have hhg : wg.hidden_dir = hidden := by rw [gb, b2, hhid]
      have hemg : stored_upto env hidden inode.i_ino thread children base wg.trace
          filp.f_pos := stored_upto_same _ _ _ _ _ _ _ _ _ hem (gc.trans c2)
      have hmod : filp.f_pos % U32 = filp.f_pos :=
        Nat.mod_eq_of_lt (by unfold U32; omega)
      rw [hmod]
      by_cases h0 : filp.f_pos = 0
      · rw [if_pos h0]
        obtain ⟨r, hr, r1, r2, r3, r4, r5, r6⟩ := readdir_dot_inv env inode pre children post
          thread hidden base hN hsz fuel wg filp fd hwg hhg hrec.symm hent.symm h0 hemg hfuel
        refine ⟨r, hr, r1.trans (ga.trans a2), r2.trans (gb.trans b2), r3, r4, r5, ?_⟩
        intro _ hbuf _ _ _
        exact r6 hbuf gf
      rw [if_neg h0]
      by_cases h1 : filp.f_pos = 1
      · rw [if_pos h1]
        obtain ⟨r, hr, r1, r2, r3, r4, r5, r6⟩ := readdir_dotdot_inv env inode pre children post
          thread hidden base hN hsz fuel wg filp fd hwg hhg hrec.symm hent.symm h1 hemg hfuel
        refine ⟨r, hr, r1.trans (ga.trans a2), r2.trans (gb.trans b2), r3, r4, r5, ?_⟩
        intro _ hbuf hth _ _
        exact r6 hbuf gf hth
      rw [if_neg h1]
      obtain ⟨r, hr, r1, r2, r3, r4, r5, r6⟩ := readdir_default_inv env inode pre children post
        thread hidden base hN hsz fuel wg filp fd hwg hhg hrec.symm (by omega) hle hemg hfuel
      refine ⟨r, hr, r1.trans (ga.trans a2), r2.trans (gb.trans b2), r3, r4, r5, ?_⟩
      intro hnf hbuf _ hrecs hlt
      exact r6 hnf hbuf gf hrecs hlt

theorem readdir_session_inv (env : Env) (inode : Inode)
    (pre children post : List (hfsplus_cat_key × hfsplus_cat_entry))
    (thread : hfsplus_cat_entry) (hidden : Option Inode) (base : List (String × Nat × Nat))
    (hN : inode.i_size = children.length + 2) (hsz : inode.i_size ≤ 2 ^ 31)
    (hpre : ∀ q ∈ pre, q.1 ≠ ⟨inode.i_ino, ""⟩) (fuel : Nat) (hfuel : inode.i_size ≤ fuel) :
    ∀ (n : Nat) (w : World) (filp : File),
      w.cat = pre ++ (⟨inode.i_ino, ""⟩, thread) :: (children ++ post) →
      w.hidden_dir = hidden → filp.f_pos ≤ inode.i_size →
      stored_upto env hidden inode.i_ino thread children base w.trace filp.f_pos →
      ∃ w2 filp2, readdir_session env fuel inode n w filp = .ok (w2, filp2) ∧
        stored_upto env hidden inode.i_ino thread children base w2.trace filp2.f_pos ∧
        filp2.f_pos ≤ inode.i_size ∧
        (env_never_fails env → buffer_takes_one env → thread_ok thread →
          (∀ c ∈ children, record_ok env inode.i_ino c) → inode.i_size ≤ filp.f_pos + n →
          filp2.f_pos = inode.i_size) := by
  intro n
  induction n with
  | zero =>
    intro w filp _ _ hle hem
    refine ⟨w, filp, rfl, hem, hle, ?_⟩
    intro _ _ _ _ hn
    omega
  | succ n ih =>
    intro w filp hcat hhid hle hem
    obtain ⟨r, hr, r1, r2, r3, r4, r5, r6⟩ := readdir_inv env inode pre children post thread
      hidden base hN hsz hpre fuel w filp hcat hhid hle hem hfuel
    unfold readdir_session
    rw [hr]
    obtain ⟨w2, filp2, s1, s2, s3, s4⟩ := ih r.w r.filp (r1.trans hcat) (r2.trans hhid) r5 r3
    refine ⟨w2, filp2, s1, s2, s3, ?_⟩
    intro hnf hbuf hth hrecs hn
    apply s4 hnf hbuf hth hrecs
    by_cases hlt : filp.f_pos < inode.i_size
    · have := r6 hnf hbuf hth hrecs hlt
      omega
    · omega

theorem no_filldir_none_stored (l : List Event)
    (h : l.all (fun e => ! is_filldir e) = true) : l.countP is_stored = 0 := by
  rw [List.countP_eq_zero]
  intro e he
  rw [List.all_eq_true] at h
  have := h e he
  cases e <;> simp_all [is_filldir, is_stored]

/-- C16 (counterexample): the root folder has recorded entry count 4 and two child
records, the folder record of the hidden directory and the file `a`; a session of one
call reaches position 4 having stored `.`, `..` and `a` only: one catalog-derived entry,
not 4 - 2. -/
theorem readdir_hidden_child_not_listed :
    root4.i_size = 4 ∧
    (readdir_session env_ok 5 root4 1 (world_of cat_root_hidden) ⟨0, none⟩).map
      (fun s => (s.2.f_pos, emitted s.1.trace))
      = .ok (4, [(".", 2, DT_DIR), ("..", 1, DT_DIR), ("a", 30, DT_REG)]) := by
  constructor <;> rfl

/-- C16 (amended): for a folder with recorded entry count `N` (at most 2^31) whose thread
record is followed in the catalog by the `N - 2` records `children`, every enumeration
session of `n` calls started at position 0 returns (with fuel `N`) at a position `p` of
at most `N`, and what it has stored is exactly the listing of the positions below `p`:
`.` with the folder's identifier, `..` with the parent identifier of the thread record,
then one entry (decoded name, identifier, kind) for each child record in catalog order,
none repeated and none omitted, except that the hidden directory's own folder record
takes a position and is not stored; the session has passed no record whose name does not
decode, whose key has another parent or which is neither a folder nor a file record.
This holds for every pattern of buffer-full stops and failures.  Once the session is at
position `N` it has stored the whole listing, which has `N` entries less one for each
child record that is the hidden directory's (so `N - 3` catalog-derived entries when
there is one).  The session does reach position `N` within `N` calls when nothing fails,
every call has room for at least one entry, and the thread record and the child records
pass the checks of the loop. -/
theorem readdir_session_complete (env : Env) (fuel n : Nat) (w : World) (inode : Inode)
    (pre children post : List (hfsplus_cat_key × hfsplus_cat_entry))
    (thread : hfsplus_cat_entry)
    (hcat : w.cat = pre ++ (⟨inode.i_ino, ""⟩, thread) :: (children ++ post))
    (hpre : ∀ q ∈ pre, q.1 ≠ ⟨inode.i_ino, ""⟩)
    (hN : inode.i_size = children.length + 2) (hsz : inode.i_size ≤ 2 ^ 31)
    (hfuel : inode.i_size ≤ fuel) :
    ∃ w2 filp2 L, readdir_session env fuel inode n w ⟨0, none⟩ = .ok (w2, filp2) ∧
      filp2.f_pos ≤ inode.i_size ∧
      listed_upto env w.hidden_dir inode.i_ino thread children filp2.f_pos = some L ∧
      emitted w2.trace = emitted w.trace ++ L ∧
      (filp2.f_pos = inode.i_size →
        dir_listing env w.hidden_dir inode.i_ino thread children = some L ∧
        L.length + children.countP (is_hidden_child w.hidden_dir) = inode.i_size) ∧
      (env_never_fails env → buffer_takes_one env → thread_ok thread →
        (∀ c ∈ children, record_ok env inode.i_ino c) → inode.i_size ≤ n →
        filp2.f_pos = inode.i_size) := by
  obtain ⟨w2, filp2, h1, ⟨L, h2, h3⟩, h4, h5⟩ := readdir_session_inv env inode pre children
    post thread w.hidden_dir (emitted w.trace) hN hsz hpre fuel hfuel n w ⟨0, none⟩ hcat rfl
    (Nat.zero_le _) ⟨[], rfl, by simp⟩
  refine ⟨w2, filp2, L, h1, h4, h2, h3, ?_, ?_⟩
  · intro hdone
    rw [hdone, hN, listed_upto_all] at h2
    refine ⟨h2, ?_⟩
    unfold dir_listing at h2
    cases hl : children_listing env w.hidden_dir inode.i_ino children with
    | none => simp [hl] at h2
    | some L0 =>
      simp only [hl, Option.map_some', Option.some.injEq] at h2
      subst h2
      have := children_listing_length env w.hidden_dir inode.i_ino children L0 hl
      simp only [List.length_cons]
      omega
  · intro hnf hbuf hth hrecs hn
    exact h5 hnf hbuf hth hrecs (by simp only; omega)

theorem readdir_session_complete_witness :
    ∃ w2 filp2, readdir_session env_buf2 5 root2 5 (world_of cat_dir) ⟨0, none⟩
        = .ok (w2, filp2) ∧
      filp2.f_pos = 5 ∧
      emitted w2.trace = [(".", 2, DT_DIR), ("..", 1, DT_DIR), ("a", 30, DT_REG),
        ("b", 31, DT_REG), ("c", 32, DT_REG)] := by
  obtain ⟨w2, filp2, L, h1, _, _, h4, h5, h6⟩ := readdir_session_complete env_buf2 5 5
    (world_of cat_dir) root2 []
    [(⟨2, "a"⟩, file_rec 30), (⟨2, "b"⟩, file_rec 31), (⟨2, "c"⟩, file_rec 32)] []
    ⟨HFSPLUS_FOLDER_THREAD, 20, 0, 0, 0, 0, 0, 1⟩ (by rfl) (by simp) (by rfl) (by decide)
    (by decide)
  have hp : filp2.f_pos = 5 := by
    refine h6 ⟨fun _ => rfl, fun _ => rfl, fun _ => rfl⟩ ?_
      ⟨rfl, by decide, by decide⟩ ?_ (by decide)
    · intro t ht
      have h0 := no_filldir_none_stored _ ht
      show (if (t.reverse.takeWhile (fun e => ! is_journal_start e)).countP is_stored ≥ 2
        then (1 : Int) else 0) = 0
      rw [h0]
      rfl
    · intro c hc
      simp only [List.mem_cons, List.mem_singleton, List.not_mem_nil, or_false] at hc
      rcases hc with rfl | rfl | rfl
      · exact ⟨rfl, by decide, ⟨"a", rfl⟩, Or.inr ⟨rfl, by decide⟩⟩
      · exact ⟨rfl, by decide, ⟨"b", rfl⟩, Or.inr ⟨rfl, by decide⟩⟩
      · exact ⟨rfl, by decide, ⟨"c", rfl⟩, Or.inr ⟨rfl, by decide⟩⟩
  obtain ⟨h7, _⟩ := h5 hp
  have hL : L = [(".", 2, DT_DIR), ("..", 1, DT_DIR), ("a", 30, DT_REG),
      ("b", 31, DT_REG), ("c", 32, DT_REG)] := by
    have h8 : dir_listing env_buf2 (world_of cat_dir).hidden_dir root2.i_ino
        ⟨HFSPLUS_FOLDER_THREAD, 20, 0, 0, 0, 0, 0, 1⟩
        [(⟨2, "a"⟩, file_rec 30), (⟨2, "b"⟩, file_rec 31), (⟨2, "c"⟩, file_rec 32)]
        = some [(".", 2, DT_DIR), ("..", 1, DT_DIR), ("a", 30, DT_REG),
          ("b", 31, DT_REG), ("c", 32, DT_REG)] := by rfl
    rw [h8] at h7
    injection h7 with h7
    exact h7.symm
  refine ⟨w2, filp2, h1, hp, ?_⟩
  rw [h4, hL]
  rfl

/-! ## Enumeration: the position a call resumes from -/

theorem readdir_entry_key (env : Env) (w : World) (p : Nat) (k1 k2 : hfsplus_cat_key)
    (fd : hfs_find_data) (inode : Inode) :
    (readdir_entry env w ⟨p, some k1⟩ fd inode).visible
      = (readdir_entry env w ⟨p, some k2⟩ fd inode).visible := by
  unfold readdir_entry
  by_cases h1 : fd.key.parent ≠ inode.i_ino
  · rw [if_pos h1, if_pos h1]; rfl
  rw [if_neg h1, if_neg h1]
  by_cases h2 : fd.entry.entrylength > SIZEOF_CAT_ENTRY
  · rw [if_pos h2, if_pos h2]; rfl
  rw [if_neg h2, if_neg h2]
  cases env.uni2asc fd.key.name with
  | error e => rfl
  | ok strbuf =>
    dsimp only
    by_cases h3 : fd.entry.type = HFSPLUS_FOLDER
    · rw [if_pos h3, if_pos h3]
      by_cases h4 : fd.entry.entrylength < SIZEOF_CAT_FOLDER
      · rw [if_pos h4, if_pos h4]; rfl
      rw [if_neg h4, if_neg h4]
      by_cases h5 : is_hidden_dir w fd.entry.id = true
      · rw [if_pos h5, if_pos h5]
      rw [if_neg h5, if_neg h5]
      by_cases h6 : (filldir env w strbuf p fd.entry.id DT_DIR).1 ≠ 0
      · rw [if_pos h6, if_pos h6]; rfl
      · rw [if_neg h6, if_neg h6]
    · rw [if_neg h3, if_neg h3]
      by_cases h7 : fd.entry.type = HFSPLUS_FILE
      · rw [if_pos h7, if_pos h7]
        by_cases h4 : fd.entry.entrylength < SIZEOF_CAT_FILE
        · rw [if_pos h4, if_pos h4]; rfl
        rw [if_neg h4, if_neg h4]
        by_cases h6 : (filldir env w strbuf p fd.entry.id DT_REG).1 ≠ 0
        · rw [if_pos h6, if_pos h6]; rfl
        · rw [if_neg h6, if_neg h6]
      · rw [if_neg h7, if_neg h7]; rfl

theorem readdir_loop_key (env : Env) (inode : Inode) (fuel : Nat) (w : World) (p : Nat)
    (k1 k2 : hfsplus_cat_key) (fd : hfs_find_data) :
    (readdir_loop env inode fuel w ⟨p, some k1⟩ fd).map ReaddirOut.visible
      = (readdir_loop env inode fuel w ⟨p, some k2⟩ fd).map ReaddirOut.visible := by
  induction fuel generalizing w p fd with
  | zero => rfl
  | succ n ih =>
    unfold readdir_loop
    have he := readdir_entry_key env w p k1 k2 fd inode
    cases h1 : readdir_entry env w ⟨p, some k1⟩ fd inode with
    | done o1 =>
      cases h2 : readdir_entry env w ⟨p, some k2⟩ fd inode with
      | done o2 =>
        rw [h1, h2] at he
        simp only [ReaddirStep.visible, Sum.inl.injEq] at he
        simp only [Except.map, he]
      | next w2 =>
        rw [h1, h2] at he
        simp [ReaddirStep.visible] at he
    | next w1 =>
      cases h2 : readdir_entry env w ⟨p, some k2⟩ fd inode with
      | done o2 =>
        rw [h1, h2] at he
        simp [ReaddirStep.visible] at he
      | next w2 =>
        rw [h1, h2] at he
        simp only [ReaddirStep.visible, Sum.inr.injEq] at he
        subst he
        dsimp only
        by_cases hp : p + 1 ≥ inode.i_size
        · rw [if_pos hp, if_pos hp]; rfl
        · rw [if_neg hp, if_neg hp]
          cases hg : hfs_brec_goto env w1 fd 1 with
          | mk g wg =>
            cases g with
            | error e => rfl
            | ok fd2 => exact ih wg (p + 1) fd2

theorem readdir_default_key (env : Env) (inode : Inode) (fuel : Nat) (w : World) (p : Nat)
    (k1 k2 : hfsplus_cat_key) (fd : hfs_find_data) :
    (readdir_default env inode fuel w ⟨p, some k1⟩ fd).map ReaddirOut.visible
      = (readdir_default env inode fuel w ⟨p, some k2⟩ fd).map ReaddirOut.visible := by
  unfold readdir_default
  dsimp only
  by_cases hp : p ≥ inode.i_size
  · rw [if_pos hp, if_pos hp]; rfl
  · rw [if_neg hp, if_neg hp]
    cases hg : hfs_brec_goto env w fd (to_int (p - 1)) with
    | mk g wg =>
      cases g with
      | error e => rfl
      | ok fd2 => exact readdir_loop_key env inode fuel wg p k1 k2 fd2

theorem readdir_dotdot_key (env : Env) (inode : Inode) (fuel : Nat) (w : World) (p : Nat)
    (k1 k2 : hfsplus_cat_key) (fd : hfs_find_data) :
    (readdir_dotdot env inode fuel w ⟨p, some k1⟩ fd).map ReaddirOut.visible
      = (readdir_dotdot env inode fuel w ⟨p, some k2⟩ fd).map ReaddirOut.visible := by
  unfold readdir_dotdot
  dsimp only
  split
  · rfl
  split
  · rfl
  split
  · rfl
  split
  · rfl
  · exact readdir_default_key env inode fuel _ (p + 1) k1 k2 fd

theorem readdir_dot_key (env : Env) (inode : Inode) (fuel : Nat) (w : World) (p : Nat)
    (k1 k2 : hfsplus_cat_key) (fd : hfs_find_data) :
    (readdir_dot env inode fuel w ⟨p, some k1⟩ fd).map ReaddirOut.visible
      = (readdir_dot env inode fuel w ⟨p, some k2⟩ fd).map ReaddirOut.visible := by
  unfold readdir_dot
  dsimp only
  split
  · rfl
  · exact readdir_dotdot_key env inode fuel _ (p + 1) k1 k2 fd

theorem readdir_key (env : Env) (fuel : Nat) (w : World) (p : Nat)
    (k1 k2 : hfsplus_cat_key) (inode : Inode) :
    (hfsplus_readdir env fuel w ⟨p, some k1⟩ inode).map ReaddirOut.visible
      = (hfsplus_readdir env fuel w ⟨p, some k2⟩ inode).map ReaddirOut.visible := by
  unfold hfsplus_readdir
  dsimp only
  split
  · rfl
  split
  · rfl
  split
  · rfl
  cases hg : hfs_brec_find env (hfs_find_init env
      (hfsplus_journal_start env w "hfsplus_readdir").2).2
      (hfsplus_cat_build_key inode.i_ino "") with
  | mk g wg =>
    cases g with
    | error e => rfl
    | ok fd =>
      dsimp only
      split
      · exact readdir_dot_key env inode fuel wg p k1 k2 fd
      split
      · exact readdir_dotdot_key env inode fuel wg p k1 k2 fd
      · exact readdir_default_key env inode fuel wg p k1 k2 fd

/-- C17 (counterexample): two resumptions on the root folder with the same saved key
`(2, b)`, one at position 2 and one at position 3, start from different records: the
first moves the cursor one record past the thread record and stores `a`, the second
moves it two records and stores `b`. -/
theorem readdir_same_key_other_position :
    (hfsplus_readdir env_ok 5 (world_of cat_dir) ⟨2, some ⟨2, "b"⟩⟩ root2).map
      (fun r => r.w.trace.take 5)
      = .ok [.journal_start "hfsplus_readdir" 0, .find_init 0, .brec_find ⟨2, ""⟩ 0,
          .brec_goto 1 0, .filldir "a" 2 30 DT_REG 0] ∧
    (hfsplus_readdir env_ok 5 (world_of cat_dir) ⟨3, some ⟨2, "b"⟩⟩ root2).map
      (fun r => r.w.trace.take 5)
      = .ok [.journal_start "hfsplus_readdir" 0, .find_init 0, .brec_find ⟨2, ""⟩ 0,
          .brec_goto 2 0, .filldir "b" 3 31 DT_REG 0] := by
  constructor <;> rfl

/-- C17 (amended): when `hfsplus_readdir` is resumed at a position `p` with
`2 <= p < N` and `p < 2^31` (scope begun, search set up, no storage failure, the thread
record found and a record standing `p - 1` places after it), it enters its loop with the
cursor on the record `p - 1` places after the folder's thread record in catalog order,
reached by one relative move from the thread record; the key saved on the open directory
is not consulted: two resumptions at the same position with different saved keys make the
same calls, return the same value and leave the same position. -/
theorem readdir_resumes_by_offset (env : Env) (fuel : Nat) (w : World) (inode : Inode)
    (p i0 : Nat) (k k2 : hfsplus_cat_key) (thread : hfsplus_cat_entry)
    (rec : hfsplus_cat_key × hfsplus_cat_entry)
    (h2 : 2 ≤ p) (hlt : p < inode.i_size) (hsz : p < 2 ^ 31)
    (hj : env.journal_start w.trace = 0)
    (hf : env.find_init (w.trace ++ [.journal_start "hfsplus_readdir" 0]) = 0)
    (hc : env.cat_fault (w.trace ++ [.journal_start "hfsplus_readdir" 0, .find_init 0]) = 0)
    (hc2 : env.cat_fault (w.trace ++ [.journal_start "hfsplus_readdir" 0, .find_init 0,
      .brec_find ⟨inode.i_ino, ""⟩ 0]) = 0)
    (hseek : cat_seek w.cat ⟨inode.i_ino, ""⟩ = some (i0, thread))
    (hrec : w.cat.get? (i0 + (p - 1)) = some rec) :
    hfsplus_readdir env fuel w ⟨p, some k⟩ inode
      = readdir_loop env inode fuel
          { w with trace := w.trace ++ [.journal_start "hfsplus_readdir" 0, .find_init 0,
              .brec_find ⟨inode.i_ino, ""⟩ 0, .brec_goto ((p : Int) - 1) 0] }
          ⟨p, some k⟩ ⟨i0 + (p - 1), rec.1, rec.2⟩ ∧
    (hfsplus_readdir env fuel w ⟨p, some k⟩ inode).map ReaddirOut.visible
      = (hfsplus_readdir env fuel w ⟨p, some k2⟩ inode).map ReaddirOut.visible := by
  refine ⟨?_, readdir_key env fuel w p k k2 inode⟩
  obtain ⟨cat, nc, fc, sd, hdir, rcd, tr⟩ := w
  simp only at hj hf hc hc2 hseek hrec
  have hc' : env.cat_fault (tr ++ [Event.journal_start "hfsplus_readdir" 0] ++
      [Event.find_init 0]) = 0 := by simpa using hc
  have hc2' : env.cat_fault (tr ++ [Event.journal_start "hfsplus_readdir" 0] ++
      [Event.find_init 0] ++ [Event.brec_find ⟨inode.i_ino, ""⟩ 0]) = 0 := by simpa using hc2
  have hp1 : p % U32 ≠ 0 := by
    rw [Nat.mod_eq_of_lt (by unfold U32; omega)]; omega
  have hp2 : p % U32 ≠ 1 := by
    rw [Nat.mod_eq_of_lt (by unfold U32; omega)]; omega
  have hti : to_int (p - 1) = (p : Int) - 1 := by
    rw [to_int_small _ (by omega)]
    omega
  have hidx : ((i0 : Int) + ((p : Int) - 1)).toNat = i0 + (p - 1) := by omega
  have hnn : ¬ ((i0 : Int) + ((p : Int) - 1) < 0) := by omega
  simp only [hfsplus_readdir, hfsplus_journal_start, hj, World.log, hfs_find_init, hf,
    hfs_brec_find, hc, hc', hseek, hfsplus_cat_build_key, readdir_default, hfs_brec_goto,
    hc2, hc2', hti, hidx, hrec, hnn, hp1, hp2, not_le.mpr hlt, ge_iff_le,
    ne_eq, not_true_eq_false, if_false, List.append_assoc, List.singleton_append,
    List.cons_append, List.nil_append]

theorem readdir_resumes_by_offset_witness :
    (hfsplus_readdir env_ok 5 (world_of cat_dir) ⟨3, some ⟨2, "a"⟩⟩ root2).map
        ReaddirOut.visible
      = (hfsplus_readdir env_ok 5 (world_of cat_dir) ⟨3, some ⟨2, "c"⟩⟩ root2).map
        ReaddirOut.visible :=
  (readdir_resumes_by_offset env_ok 5 (world_of cat_dir) root2 3 0 ⟨2, "a"⟩ ⟨2, "c"⟩
    ⟨HFSPLUS_FOLDER_THREAD, 20, 0, 0, 0, 0, 0, 1⟩ (⟨2, "b"⟩, file_rec 31)
    (by decide) (by decide) (by decide) (by rfl) (by rfl) (by rfl) (by rfl) (by rfl)
    (by rfl)).2

/-! ## The volume structural lock -/

/-- C22 (evaluation at the failing inputs): when setting up the catalog search fails
(`-ENOMEM`), `hfsplus_lookup` and `hfsplus_readdir` return the error with the scope they
began still open, no stop having been made; and when acquiring the resolved object fails
(`-ENOMEM`), `hfsplus_lookup` returns the error after releasing the search state, again
with its scope still open. -/
theorem lookup_readdir_scope_left_open :
    (hfsplus_lookup env_noinit 3 (world_of cat_plain) root2 dentry_a).map
      (fun o => (o.ret, o.w.trace, scope_stops o.w.trace, scope_state o.w.trace))
      = .ok (.err_ptr (-ENOMEM),
          [.journal_start "hfsplus_lookup" 0, .find_init (-ENOMEM)], 0,
          some (some "hfsplus_lookup")) ∧
    (hfsplus_lookup env_noiget 3 (world_of cat_plain) root2 dentry_a).map
      (fun o => (o.ret, o.w.trace, scope_stops o.w.trace, scope_state o.w.trace))
      = .ok (.err_ptr (-ENOMEM),
          [.journal_start "hfsplus_lookup" 0, .find_init 0, .brec_read ⟨2, "a"⟩ 0,
           .find_exit, .iget 30 (-ENOMEM)], 0,
          some (some "hfsplus_lookup")) ∧
    (hfsplus_readdir env_noinit 5 (world_of cat_dir) ⟨0, none⟩ root2).map
      (fun o => (o.res, o.w.trace, scope_stops o.w.trace, scope_state o.w.trace))
      = .ok (-ENOMEM,
          [.journal_start "hfsplus_readdir" 0, .find_init (-ENOMEM)], 0,
          some (some "hfsplus_readdir")) := by
  refine ⟨?_, ?_, ?_⟩ <;> rfl

theorem find_state_append (t l : List Event) :
    find_state (t ++ l) = l.foldl find_step (find_state t) := by
  simp [find_state, List.foldl_append]

theorem find_lookup_found (env : Env) (w : World) (dir : Inode) (dentry : Dentry)
    (cnid linkid : Nat) (h : find_state w.trace = some true) :
    find_state (lookup_found env w dir dentry cnid linkid).w.trace = some false := by
  unfold lookup_found
  simp only [hfsplus_iget, hfs_find_exit, World.log]
  cases env.iget (w.trace ++ [Event.find_exit]) cnid with
  | error e => simp [find_state_append, h, find_step]
  | ok i =>
    simp [lookup_out, d_add, hfsplus_journal_stop, World.log, find_state_append, h, find_step]

theorem find_lookup_fail (w : World) (dir : Inode) (dentry : Dentry) (err : Int)
    (h : find_state w.trace = some true) :
    find_state (lookup_fail w dir dentry err).w.trace = some false := by
  simp [lookup_fail, hfs_find_exit, hfsplus_journal_stop, World.log, find_state_append, h,
    find_step]

theorem find_lookup_again (env : Env) (fuel : Nat) :
    ∀ (w : World) (dir : Inode) (dentry : Dentry) (key : hfsplus_cat_key) (linkid : Nat)
      (o : LookupOut),
      find_state w.trace = some true →
      lookup_again env fuel w dir dentry key linkid = .ok o →
      find_state o.w.trace = some false := by
  induction fuel with
  | zero =>
    intro w dir dentry key linkid o _ ho
    simp [lookup_again] at ho
  | succ n ih =>
    intro w dir dentry key linkid o h ho
    unfold lookup_again at ho
    have hr : find_state (hfs_brec_read env w key).2.trace = some true := by
      unfold hfs_brec_read
      split
      · simp [World.log, find_state_append, h, find_step]
      · split <;> simp [World.log, find_state_append, h, find_step]
    cases hb : hfs_brec_read env w key with
    | mk b wb =>
      rw [hb] at hr ho
      simp only at hr
      cases b with
      | error err =>
        simp only at ho
        split at ho
        · simp only [Except.ok.injEq] at ho
          subst ho
          simp [lookup_out, d_add, hfs_find_exit, hfsplus_journal_stop, World.log,
            find_state_append, hr, find_step]
        · simp only [Except.ok.injEq] at ho
          subst ho
          exact find_lookup_fail _ _ _ _ hr
      | ok entry =>
        simp only at ho
        split at ho
        · split at ho
          · simp only [Except.ok.injEq] at ho
            subst ho
            exact find_lookup_fail _ _ _ _ hr
          · simp only [Except.ok.injEq] at ho
            subst ho
            exact find_lookup_found _ _ _ _ _ _ hr
        · split at ho
          · split at ho
            · simp only [Except.ok.injEq] at ho
              subst ho
              exact find_lookup_fail _ _ _ _ hr
            · split at ho
              · split at ho
                · simp at ho
                · split at ho
                  · split at ho
                    · simp only [Except.ok.injEq] at ho
                      subst ho
                      exact find_lookup_found _ _ _ _ _ _ hr
                    · exact ih _ _ _ _ _ _ hr ho
                  · split at ho
                    all_goals
                      simp only [Except.ok.injEq] at ho
                      subst ho
                      exact find_lookup_found _ _ _ _ _ _ hr
              · split at ho
                all_goals
                  simp only [Except.ok.injEq] at ho
                  subst ho
                  exact find_lookup_found _ _ _ _ _ _ hr
          · simp only [Except.ok.injEq] at ho
            subst ho
            exact find_lookup_fail _ _ _ _ hr

/-- Starting with no catalog search state set up, every return of `hfsplus_lookup` has
released the search state it set up, exactly once. -/
theorem lookup_search_state_released (env : Env) (fuel : Nat) (w : World) (dir : Inode)
    (dentry : Dentry) (o : LookupOut) (h : find_state w.trace = some false)
    (ho : hfsplus_lookup env fuel w dir dentry = .ok o) :
    find_state o.w.trace = some false := by
  unfold hfsplus_lookup at ho
  simp only [hfsplus_journal_start, hfs_find_init, World.log] at ho
  split at ho
  · simp only [Except.ok.injEq] at ho
    subst ho
    simp [find_state_append, h, find_step]
  · by_cases hf : env.find_init (w.trace ++ [Event.journal_start "hfsplus_lookup"
        (env.journal_start w.trace)]) ≠ 0
    · rw [if_pos hf] at ho
      simp only [Except.ok.injEq] at ho
      subst ho
      have hf' : ¬ env.find_init (w.trace ++ [Event.journal_start "hfsplus_lookup"
        (env.journal_start w.trace)]) = 0 := hf
      simp [find_state_append, h, find_step, hf']
    · rw [if_neg hf] at ho
      have hf0 : env.find_init (w.trace ++ [Event.journal_start "hfsplus_lookup"
        (env.journal_start w.trace)]) = 0 := by simpa using hf
      refine find_lookup_again env fuel _ _ _ _ _ o ?_ ho
      simp [find_state_append, h, find_step, hf0]

end HfsplusDir
